import Mathlib

/-!
# A shallow embedding of `quadtree.hpp` (hit9/Quadtree-hpp)

This file embeds the adaptive quadtree of `src/quadtree.hpp` in Lean and
settles the specification claims against it.

Modelling conventions:

* C++ `int` values become `Int`; C++ `uint64_t` arithmetic becomes `Nat`
  arithmetic with explicit `% 2 ^ 64`; the `int → uint64_t` conversion is
  `toU64` (two's complement reduction).
* `Node*` pointers become the inductive `QNode`, with a dedicated `nil`
  constructor standing for `nullptr`; a node owns its four children exactly
  as in the C++ ownership model.
* The hash map `m : unordered_map<NodeId, Node*>` is derived: looking up an
  id searches the owned tree (preorder) for the first node whose computed id
  matches.  In every state studied in this file the computed ids of live
  nodes are pairwise distinct, so this is observationally identical to the
  C++ map (whose `insert` keeps the first binding for a key).
* Recursions that are not structural in the tree (node construction during a
  split, the binary-search loops, the merge-up climb) take an explicit fuel
  argument; every use in this file passes fuel that provably dominates the
  C++ recursion depth, which is bounded by the bit width (64) of the
  coordinates.
* The two lifecycle callbacks (`afterLeafCreated` / `afterLeafRemoved`) only
  observe structural changes and are not modelled; no claim mentions them.
-/

namespace QuadtreeHpp

/-- `MAX_SIDE` from quadtree.hpp: maximum width/height of the region. -/
def MAX_SIDE : Int := 2 ^ 29 - 1

/-- `MAX_DEPTH` from quadtree.hpp: the declared maximum depth; the array
`numDepthTable` has exactly `MAX_DEPTH` entries, indices `0 .. MAX_DEPTH-1`. -/
def MAX_DEPTH : Nat := 29

/-- Two's-complement conversion of a C++ `int` (or any integer) to
`uint64_t`, i.e. reduction modulo `2^64` into `[0, 2^64)`. -/
def toU64 (z : Int) : Nat := (z % (2 ^ 64 : Int)).toNat

/-- The C++ expression `(1 << d)` where `1` is a 32-bit signed `int`,
converted to `uint64_t`.  For `d ≤ 30` this is `2^d`; for `d = 31` the
C++20-defined result `INT_MIN` sign-extends to `2^64 - 2^31`; for `d ≥ 32`
the shift is undefined behaviour in C++ and this model returns 0. -/
def cppShl1 (d : Nat) : Nat :=
  if d ≤ 30 then 2 ^ d else if d = 31 then 2 ^ 64 - 2 ^ 31 else 0

/-- `pack` from quadtree.hpp (lines 53-63): the node id
`((d << 58) & 0xfc00000000000000) | (((1 << d) * x / h) << 29 & 0x3ffffffe0000000)
| ((1 << d) * y / w & 0x1fffffff)` in `uint64_t` arithmetic. -/
def pack (d : Nat) (x y w h : Int) : Nat :=
  let X := toU64 x
  let Y := toU64 y
  let W := toU64 w
  let H := toU64 h
  (((d <<< 58) % 2 ^ 64) &&& 0xfc00000000000000) |||
    ((((cppShl1 d * X % 2 ^ 64) / H) <<< 29) % 2 ^ 64 &&& 0x3ffffffe0000000) |||
    ((cppShl1 d * Y % 2 ^ 64) / W &&& 0x1fffffff)

/-- An object key `{x, y, o}` as stored in a node's `objects` set. -/
abbrev ObjKey (α : Type) := Int × Int × α

/-- The C++ `Node` struct.  `nil` models the null pointer; `mk` carries the
leaf flag, depth, inclusive rectangle corners, the four owned children
(`0` NW, `1` NE, `2` SW, `3` SE) and the object container. -/
inductive QNode (α : Type) where
  | nil : QNode α
  | mk (isLeaf : Bool) (d : Nat) (x1 y1 x2 y2 : Int)
      (c0 c1 c2 c3 : QNode α) (objects : List (ObjKey α)) : QNode α
  deriving DecidableEq

namespace QNode

variable {α : Type}

/-- `node == nullptr` test. -/
def isNil : QNode α → Bool
  | nil => true
  | mk .. => false

/-- `node->isLeaf` (false on `nil`; never read through null in the model). -/
def leafFlag : QNode α → Bool
  | nil => false
  | mk lf _ _ _ _ _ _ _ _ _ _ => lf

/-- `node->d`. -/
def depth : QNode α → Nat
  | nil => 0
  | mk _ d _ _ _ _ _ _ _ _ _ => d

/-- `node->x1`. -/
def px1 : QNode α → Int
  | nil => 0
  | mk _ _ x1 _ _ _ _ _ _ _ _ => x1

/-- `node->y1`. -/
def py1 : QNode α → Int
  | nil => 0
  | mk _ _ _ y1 _ _ _ _ _ _ _ => y1

/-- `node->x2`. -/
def px2 : QNode α → Int
  | nil => 0
  | mk _ _ _ _ x2 _ _ _ _ _ _ => x2

/-- `node->y2`. -/
def py2 : QNode α → Int
  | nil => 0
  | mk _ _ _ _ _ y2 _ _ _ _ _ => y2

/-- The rectangle `(x1, y1, x2, y2)` of a node. -/
def rect (n : QNode α) : Int × Int × Int × Int := (n.px1, n.py1, n.px2, n.py2)

/-- `node->objects` (empty on `nil`). -/
def objs : QNode α → List (ObjKey α)
  | nil => []
  | mk _ _ _ _ _ _ _ _ _ _ os => os

/-- `node->children[i]` for `i ∈ {0,1,2,3}` (`nil` otherwise). -/
def child : QNode α → Nat → QNode α
  | nil, _ => nil
  | mk _ _ _ _ _ _ c0 _ _ _ _, 0 => c0
  | mk _ _ _ _ _ _ _ c1 _ _ _, 1 => c1
  | mk _ _ _ _ _ _ _ _ c2 _ _, 2 => c2
  | mk _ _ _ _ _ _ _ _ _ c3 _, 3 => c3
  | mk .., _ => nil

/-- All nodes of the owned tree, in preorder (self, then children 0-3). -/
def allNodes : QNode α → List (QNode α)
  | nil => []
  | q@(mk _ _ _ _ _ _ c0 c1 c2 c3 _) =>
      q :: (allNodes c0 ++ allNodes c1 ++ allNodes c2 ++ allNodes c3)

/-- The subtree reached from `n` by following a child path. -/
def subAt : QNode α → List Nat → QNode α
  | n, [] => n
  | n, i :: p => (n.child i).subAt p

/-- Functionally replace the subtree at a child path. -/
def setAt : QNode α → List Nat → QNode α → QNode α
  | _, [], r => r
  | nil, _ :: _, _ => nil
  | mk lf d x1 y1 x2 y2 c0 c1 c2 c3 os, i :: p, r =>
      match i with
      | 0 => mk lf d x1 y1 x2 y2 (c0.setAt p r) c1 c2 c3 os
      | 1 => mk lf d x1 y1 x2 y2 c0 (c1.setAt p r) c2 c3 os
      | 2 => mk lf d x1 y1 x2 y2 c0 c1 (c2.setAt p r) c3 os
      | _ => mk lf d x1 y1 x2 y2 c0 c1 c2 (c3.setAt p r) os

end QNode

/-- The quadtree object: region width/height, the `SplitingStopper`
(`none` models a null `std::function`), the owned root tree and the
explicitly maintained counters of the C++ class (`maxd`, `numDepthTable`,
`numObjects`, `numLeafNodes`).  The id → node map is derived, see `mFindP`. -/
structure QState (α : Type) where
  w : Int
  h : Int
  ssf : Option (Int → Int → Int → Bool)
  root : QNode α
  maxd : Nat
  ndt : Nat → Int
  numObjects : Int
  numLeafNodes : Int

namespace QState

variable {α : Type} [DecidableEq α]

/-- The id under which a node is stored: `pack(d, x1, y1, w, h)`. -/
def nodeId (s : QState α) (n : QNode α) : Nat :=
  pack n.depth n.px1 n.py1 s.w s.h

/-- Derived `m.find(id)`: path (from the root) of the first node in preorder
whose computed id is `id`.  Coincides with the C++ hash map lookup whenever
live ids are pairwise distinct. -/
def findIdAux (s : QState α) (id : Nat) : QNode α → Option (List Nat)
  | .nil => none
  | q@(.mk _ _ _ _ _ _ c0 c1 c2 c3 _) =>
      if s.nodeId q = id then some [] else
        match findIdAux s id c0 with
        | some p => some (0 :: p)
        | none =>
          match findIdAux s id c1 with
          | some p => some (1 :: p)
          | none =>
            match findIdAux s id c2 with
            | some p => some (2 :: p)
            | none =>
              match findIdAux s id c3 with
              | some p => some (3 :: p)
              | none => none

/-- Path of the node stored under `id`, if any. -/
def mFindP (s : QState α) (id : Nat) : Option (List Nat) :=
  s.findIdAux id s.root

/-- Value form of `m.find(id)` (`nil` = not found). -/
def mFind (s : QState α) (id : Nat) : QNode α :=
  match s.mFindP id with
  | none => .nil
  | some p => s.root.subAt p

/-- `NumNodes()` returns `m.size()`: the number of distinct ids of live
nodes (equal to the number of live nodes whenever ids are injective). -/
def NumNodes (s : QState α) : Int :=
  (((s.root.allNodes).map (s.nodeId)).dedup).length

/-- `Depth()`. -/
def Depth (s : QState α) : Nat := s.maxd

/-- `NumObjects()`. -/
def NumObjects (s : QState α) : Int := s.numObjects

/-- `NumLeafNodes()`. -/
def NumLeafNodes (s : QState α) : Int := s.numLeafNodes

/-- `Quadtree::splitable(x1, y1, x2, y2, n)` (quadtree.hpp lines 360-367):
a single cell is never splittable, and a non-null `ssf` saying "stop"
(called as `ssf(width, height, n)`) forbids the split. -/
def splitable (s : QState α) (x1 y1 x2 y2 n : Int) : Bool :=
  if x1 = x2 ∧ y1 = y2 then false
  else
    match s.ssf with
    | some f => if f (y2 - y1 + 1) (x2 - x1 + 1) n then false else true
    | none => true

/-- Counter bookkeeping of `Quadtree::createNode` (the node value itself is
built by the caller; the derived map needs no update). -/
def createEff (s : QState α) (isLeaf : Bool) (d : Nat) : QState α :=
  { s with
    numLeafNodes := if isLeaf then s.numLeafNodes + 1 else s.numLeafNodes
    maxd := max s.maxd d
    ndt := fun i => if i = d then s.ndt d + 1 else s.ndt i }

/-- The `while (numDepthTable[maxd] == 0) --maxd;` walk of
`Quadtree::removeLeafNode`. -/
def fixMaxd (ndt : Nat → Int) : Nat → Nat
  | 0 => 0
  | m + 1 => if ndt (m + 1) = 0 then fixMaxd ndt m else m + 1

/-- Counter bookkeeping of `Quadtree::removeLeafNode` for a removed leaf of
depth `d` (map erasure is derived; the node is deleted by the caller). -/
def removeEff (s : QState α) (d : Nat) : QState α :=
  let ndt' : Nat → Int := fun i => if i = d then s.ndt d - 1 else s.ndt i
  { s with
    ndt := ndt'
    maxd := if d = s.maxd then fixMaxd ndt' s.maxd else s.maxd
    numLeafNodes := s.numLeafNodes - 1 }

end QState

/-- Is an object key inside the inclusive rectangle? (the test
`x >= x1 && x <= x2 && y >= y1 && y <= y2` used throughout the source). -/
def keyIn {α : Type} (x1 y1 x2 y2 : Int) (k : ObjKey α) : Bool :=
  x1 ≤ k.1 ∧ k.1 ≤ x2 ∧ y1 ≤ k.2.1 ∧ k.2.1 ≤ y2

/-- `Quadtree::splitHelper1` (with the body of `splitHelper2` inlined for the
recursive descent): creates the subtree for rectangle `(x1,y1,x2,y2)` at
depth `d`, stealing the objects of `upstream` that lie inside it.  Returns
the created subtree (`nil` when the rectangle is degenerate or out of
bounds), the remaining upstream objects, and the updated counters.  `fuel`
bounds the recursion depth (the C++ recursion halves a side each level, so
any fuel ≥ 64 is never exhausted for `int` rectangles). -/
def sh1 [DecidableEq α] :
    Nat → QState α → Nat → Int → Int → Int → Int → List (ObjKey α) →
      QNode α × List (ObjKey α) × QState α
  | 0, s, _, _, _, _, _, up => (.nil, up, s)
  | fuel + 1, s, d, x1, y1, x2, y2, up =>
    if ¬(0 ≤ x1 ∧ x1 < s.h ∧ 0 ≤ y1 ∧ y1 < s.w) then (.nil, up, s)
    else if ¬(0 ≤ x2 ∧ x2 < s.h ∧ 0 ≤ y2 ∧ y2 < s.w) then (.nil, up, s)
    else if ¬(x1 ≤ x2 ∧ y1 ≤ y2) then (.nil, up, s)
    else
      let objs := up.filter (keyIn x1 y1 x2 y2)
      let up' := up.filter (fun k => ¬ keyIn x1 y1 x2 y2 k)
      if ¬ s.splitable x1 y1 x2 y2 objs.length then
        (.mk true d x1 y1 x2 y2 .nil .nil .nil .nil objs, up', s.createEff true d)
      else
        let s' := s.createEff false d
        let x3 := x1 + (x2 - x1) / 2
        let y3 := y1 + (y2 - y1) / 2
        let r0 := sh1 fuel s' (d + 1) x1 y1 x3 y3 objs
        let r1 := sh1 fuel r0.2.2 (d + 1) x1 (y3 + 1) x3 y2 r0.2.1
        let r2 := sh1 fuel r1.2.2 (d + 1) (x3 + 1) y1 x2 y3 r1.2.1
        let r3 := sh1 fuel r2.2.2 (d + 1) (x3 + 1) (y3 + 1) x2 y2 r2.2.1
        (.mk false d x1 y1 x2 y2 r0.1 r1.1 r2.1 r3.1 r3.2.1, up', r3.2.2)

namespace QNode

/-- Replace the object container of a (non-nil) node. -/
def setObjs {α : Type} : QNode α → List (ObjKey α) → QNode α
  | nil, _ => nil
  | mk lf d x1 y1 x2 y2 c0 c1 c2 c3 _, os => mk lf d x1 y1 x2 y2 c0 c1 c2 c3 os

end QNode

namespace QState

variable {α : Type} [DecidableEq α]

/-- `Quadtree::splitHelper2` applied to the live node at path `p`: splits it
into (up to) four children built by `splitHelper1`, leaves any objects that
fit no child in the node, and turns it into a non-leaf. -/
def splitHelper2At (s : QState α) (p : List Nat) : QState α :=
  let n := s.root.subAt p
  let x1 := n.px1
  let y1 := n.py1
  let x2 := n.px2
  let y2 := n.py2
  let d := n.depth
  let x3 := x1 + (x2 - x1) / 2
  let y3 := y1 + (y2 - y1) / 2
  let r0 := sh1 64 s (d + 1) x1 y1 x3 y3 n.objs
  let r1 := sh1 64 r0.2.2 (d + 1) x1 (y3 + 1) x3 y2 r0.2.1
  let r2 := sh1 64 r1.2.2 (d + 1) (x3 + 1) y1 x2 y3 r1.2.1
  let r3 := sh1 64 r2.2.2 (d + 1) (x3 + 1) (y3 + 1) x2 y2 r2.2.1
  let s4 := r3.2.2
  let s5 :=
    if n.leafFlag then { s4 with numLeafNodes := s4.numLeafNodes - 1 } else s4
  { s5 with
    root := s5.root.setAt p (.mk false d x1 y1 x2 y2 r0.1 r1.1 r2.1 r3.1 r3.2.1) }

/-- `Quadtree::trySplitDown` on the node at path `p`. -/
def trySplitDownAt (s : QState α) (p : List Nat) : QState α × Bool :=
  let n := s.root.subAt p
  if n.leafFlag ∧ s.splitable n.px1 n.py1 n.px2 n.py2 n.objs.length then
    (s.splitHelper2At p, true)
  else (s, false)

/-- `Quadtree::mergeable(node, parent)` for the node at path `p`; returns the
parent's path on success.  The parent is located through the derived id map
exactly as `parentOf` does (`m.at(pack(d-1, x1, y1, w, h))`); a missing
binding (which would throw in C++) yields `none`. -/
def mergeableAt (s : QState α) (p : List Nat) : Option (List Nat) :=
  if p = [] then none
  else
    let n := s.root.subAt p
    if ¬ n.leafFlag then none
    else if n.depth = 0 then none
    else
      match s.mFindP (pack (n.depth - 1) n.px1 n.py1 s.w s.h) with
      | none => none
      | some pp =>
        let par := s.root.subAt pp
        let ok (c : QNode α) : Bool := c.isNil ∨ c.leafFlag
        if ¬(ok (par.child 0) ∧ ok (par.child 1) ∧ ok (par.child 2) ∧ ok (par.child 3)) then
          none
        else
          let cnt (c : QNode α) : Int := (c.objs.length : Int)
          let tot := cnt (par.child 0) + cnt (par.child 1) + cnt (par.child 2) + cnt (par.child 3)
          if s.splitable par.px1 par.py1 par.px2 par.py2 tot then none else some pp

/-- One iteration of the merge loop of `Quadtree::mergeHelper`: pour a
child's objects into the parent's container (a `std::set` insert, modelled
by `List.insert`) and account for `removeLeafNode` on it; a null child is
skipped. -/
def mergeStep (acc : List (ObjKey α) × QState α) (c : QNode α) :
    List (ObjKey α) × QState α :=
  if c.isNil then acc
  else (c.objs.foldl (fun os k => os.insert k) acc.1, acc.2.removeEff c.depth)

/-- `Quadtree::mergeHelper`: merge the node at path `p` with its brothers
into the parent while `mergeable` holds, returning the final state and the
path of the ancestor where merging stopped. -/
def mergeHelperAt (s : QState α) : Nat → List Nat → QState α × List Nat
  | 0, p => (s, p)
  | fuel + 1, p =>
    match s.mergeableAt p with
    | none => (s, p)
    | some pp =>
      let par := s.root.subAt pp
      let a0 := mergeStep (par.objs, s) (par.child 0)
      let a1 := mergeStep a0 (par.child 1)
      let a2 := mergeStep a1 (par.child 2)
      let a3 := mergeStep a2 (par.child 3)
      let s' := a3.2
      let par' : QNode α :=
        .mk true par.depth par.px1 par.py1 par.px2 par.py2 .nil .nil .nil .nil a3.1
      let s'' :=
        { s' with root := s'.root.setAt pp par', numLeafNodes := s'.numLeafNodes + 1 }
      mergeHelperAt s'' fuel pp

/-- `Quadtree::tryMergeUp` on the node at path `p`. -/
def tryMergeUpAt (s : QState α) (p : List Nat) : QState α × Bool :=
  let r := s.mergeHelperAt 64 p
  (r.1, r.2 ≠ p)

/-- The binary-search loop of `Quadtree::Find` (quadtree.hpp lines 663-680),
returning the path of the found leaf.  `l`, `r` are the C++ `int` loop
variables; the guessed depth is `(l + r) >> 1`. -/
def findLoopP (s : QState α) (x y : Int) : Nat → Int → Int → Option (List Nat)
  | 0, _, _ => none
  | fuel + 1, l, r =>
    if l ≤ r then
      let d := (l + r) / 2
      match s.mFindP (pack d.toNat x y s.w s.h) with
      | none => findLoopP s x y fuel l (d - 1)
      | some p =>
        if (s.root.subAt p).leafFlag then some p else findLoopP s x y fuel (d + 1) r
    else none

/-- `Quadtree::Find(x, y)`: binary search on the depth over `[0, maxd]`;
returns the found node (`nil` = `nullptr`). -/
def Find (s : QState α) (x y : Int) : QNode α :=
  match s.findLoopP x y 64 0 (s.maxd : Int) with
  | none => .nil
  | some p => s.root.subAt p

/-- The `__Quadtree::find` variant of quadtree.cpp (lines 76-91), whose
binary search runs over `[0, maxd - 1]`. -/
def FindCpp (s : QState α) (x y : Int) : QNode α :=
  match s.findLoopP x y 64 0 ((s.maxd : Int) - 1) with
  | none => .nil
  | some p => s.root.subAt p

/-- `Quadtree::Add(x, y, o)`. -/
def Add (s : QState α) (x y : Int) (o : α) : QState α :=
  if ¬(0 ≤ x ∧ x < s.h ∧ 0 ≤ y ∧ y < s.w) then s
  else
    match s.findLoopP x y 64 0 (s.maxd : Int) with
    | none => s
    | some p =>
      let n := s.root.subAt p
      if (x, y, o) ∈ n.objs then s
      else
        let s1 :=
          { s with
            root := s.root.setAt p (n.setObjs ((x, y, o) :: n.objs))
            numObjects := s.numObjects + 1 }
        let r := s1.trySplitDownAt p
        if r.2 then r.1 else (r.1.tryMergeUpAt p).1

/-- `Quadtree::Remove(x, y, o)`. -/
def Remove (s : QState α) (x y : Int) (o : α) : QState α :=
  if ¬(0 ≤ x ∧ x < s.h ∧ 0 ≤ y ∧ y < s.w) then s
  else
    match s.findLoopP x y 64 0 (s.maxd : Int) with
    | none => s
    | some p =>
      let n := s.root.subAt p
      if (x, y, o) ∈ n.objs then
        let s1 :=
          { s with
            root := s.root.setAt p (n.setObjs (n.objs.erase (x, y, o)))
            numObjects := s.numObjects - 1 }
        let r := s1.tryMergeUpAt p
        if r.2 then r.1 else (r.1.trySplitDownAt p).1
      else s

/-- `Quadtree::Build()`: create the root leaf covering the whole region and
try to split it down. -/
def Build (s : QState α) : QState α :=
  let s1 :=
    { s.createEff true 0 with
      root := QNode.mk true 0 0 0 (s.h - 1) (s.w - 1) .nil .nil .nil .nil [] }
  (s1.trySplitDownAt []).1

/-- The recursive `Quadtree::queryRange` (quadtree.hpp lines 634-654); the
returned list records the collector invocations `(x, y, o)` in call order. -/
def queryRangeNode (x1 y1 x2 y2 : Int) : QNode α → List (ObjKey α)
  | .nil => []
  | .mk lf _ nx1 ny1 nx2 ny2 c0 c1 c2 c3 os =>
    if ¬(nx1 ≤ x2 ∧ nx2 ≥ x1 ∧ ny1 ≤ y2 ∧ ny2 ≥ y1) then []
    else if ¬ lf then
      queryRangeNode x1 y1 x2 y2 c0 ++ queryRangeNode x1 y1 x2 y2 c1 ++
        queryRangeNode x1 y1 x2 y2 c2 ++ queryRangeNode x1 y1 x2 y2 c3
    else os.filter (keyIn x1 y1 x2 y2)

/-- The loop of `Quadtree::findSmallestNodeCoveringRange`
(quadtree.hpp lines 731-760). -/
def fsncrLoop (s : QState α) (x1 y1 x2 y2 : Int) :
    Nat → Int → Int → QNode α → QNode α
  | 0, _, _, node => node
  | fuel + 1, l, r, node =>
    if l < r then
      let d := (l + r + 1) / 2
      let id1 := pack d.toNat x1 y1 s.w s.h
      let id2 := pack d.toNat x2 y2 s.w s.h
      if id1 = id2 then
        match s.mFindP id1 with
        | some p => s.fsncrLoop x1 y1 x2 y2 fuel d r (s.root.subAt p)
        | none => s.fsncrLoop x1 y1 x2 y2 fuel l (d - 1) node
      else s.fsncrLoop x1 y1 x2 y2 fuel l (d - 1) node
    else node

/-- `Quadtree::findSmallestNodeCoveringRange(x1, y1, x2, y2, dma)`. -/
def findSmallestNodeCoveringRange (s : QState α) (x1 y1 x2 y2 dma : Int) :
    QNode α :=
  if ¬(0 ≤ x1 ∧ x1 < s.h ∧ 0 ≤ y1 ∧ y1 < s.w) then .nil
  else if ¬(0 ≤ x2 ∧ x2 < s.h ∧ 0 ≤ y2 ∧ y2 < s.w) then .nil
  else s.fsncrLoop x1 y1 x2 y2 64 0 dma s.root

/-- Public `Quadtree::FindSmallestNodeCoveringRange` (dma = maxd). -/
def FindSmallestNodeCoveringRange (s : QState α) (x1 y1 x2 y2 : Int) : QNode α :=
  s.findSmallestNodeCoveringRange x1 y1 x2 y2 (s.maxd : Int)

/-- `Quadtree::QueryRange(x1, y1, x2, y2, collector)`; the result lists the
collector invocations in order. -/
def QueryRange (s : QState α) (x1 y1 x2 y2 : Int) : List (ObjKey α) :=
  if ¬(x1 ≤ x2 ∧ y1 ≤ y2) then []
  else
    let node := s.FindSmallestNodeCoveringRange x1 y1 x2 y2
    let node := if node.isNil then s.root else node
    queryRangeNode x1 y1 x2 y2 node

end QState

/-- `GET_LEAF_NODES_AT_DIRECTION_JUMP_TABLE` (quadtree.hpp lines 880-893),
verbatim: `jumpTable flag dir` is the pair of child indices to descend into
(`-1` = invalid). -/
def jumpTable : Nat → Nat → Int × Int
  | 1, 0 => (0, 0)
  | 1, 1 => (0, 0)
  | 1, 2 => (0, 0)
  | 1, 3 => (0, 0)
  | 3, 0 => (0, 1)
  | 3, 1 => (-1, 1)
  | 3, 2 => (0, 1)
  | 3, 3 => (0, -1)
  | 5, 0 => (0, -1)
  | 5, 1 => (0, 2)
  | 5, 2 => (2, 0)
  | 5, 3 => (0, 2)
  | 7, 0 => (0, 1)
  | 7, 1 => (1, 3)
  | 7, 2 => (2, 3)
  | 7, 3 => (0, 2)
  | _, _ => (-1, -1)

/-- `Quadtree::getLeafNodesAtDirection`: collect (in visit order) the leaves
reached by descending through the jump table. -/
def glad {α : Type} : QNode α → Nat → List (QNode α)
  | .nil, _ => []
  | q@(.mk lf _ _ _ _ _ c0 c1 c2 c3 _), dir =>
    if lf then [q]
    else
      let flag : Nat :=
        (if c0.isNil then 0 else 1) + (if c1.isNil then 0 else 2) +
          (if c2.isNil then 0 else 4)
      let t := jumpTable flag dir
      (if t.1 = 0 then glad c0 dir
       else if t.1 = 1 then glad c1 dir
       else if t.1 = 2 then glad c2 dir
       else if t.1 = 3 then glad c3 dir
       else []) ++
      (if t.2 = 0 then glad c0 dir
       else if t.2 = 1 then glad c1 dir
       else if t.2 = 2 then glad c2 dir
       else if t.2 = 3 then glad c3 dir
       else [])

namespace QState

variable {α : Type} [DecidableEq α]

/-- `Quadtree::findNeighbourLeafNodesDiagonal` (directions 4-7). -/
def fnlnDiagonal (s : QState α) (n : QNode α) (dir : Nat) : List (QNode α) :=
  let p : Int × Int :=
    if dir = 4 then (n.px1 - 1, n.py1 - 1)
    else if dir = 5 then (n.px1 - 1, n.py2 + 1)
    else if dir = 6 then (n.px2 + 1, n.py2 + 1)
    else (n.px2 + 1, n.py1 - 1)
  let nb := s.Find p.1 p.2
  if nb.isNil then [] else [nb]

/-- `Quadtree::findNeighbourLeafNodesHV` (directions 0-3). -/
def fnlnHV (s : QState α) (n : QNode α) (dir : Nat) : List (QNode α) :=
  let ps : Int × Int × Int × Int :=
    if dir = 0 then (n.px1 - 1, n.py1, n.px1 - 1, n.py2)
    else if dir = 1 then (n.px1, n.py2 + 1, n.px2, n.py2 + 1)
    else if dir = 2 then (n.px2 + 1, n.py1, n.px2 + 1, n.py2)
    else (n.px1, n.py1 - 1, n.px2, n.py1 - 1)
  let p := s.findSmallestNodeCoveringRange ps.1 ps.2.1 ps.2.2.1 ps.2.2.2 (n.depth : Int)
  if p.isNil then [] else glad p (dir ^^^ 2)

/-- `Quadtree::FindNeighbourLeafNodes(node, direction, visitor)`; the result
lists the visited nodes in order. -/
def FindNeighbourLeafNodes (s : QState α) (n : QNode α) (dir : Nat) :
    List (QNode α) :=
  if dir ≥ 4 then s.fnlnDiagonal n dir else s.fnlnHV n dir

/-- `Quadtree(w, h, ssf, ...)`: a freshly constructed (empty) quadtree. -/
def init (w h : Int) (ssf : Option (Int → Int → Int → Bool)) : QState α :=
  { w := w, h := h, ssf := ssf, root := .nil, maxd := 0, ndt := fun _ => 0,
    numObjects := 0, numLeafNodes := 0 }

end QState

namespace QNode

/-- The number of objects stored in the subtree rooted at a node. -/
def subCount {α : Type} : QNode α → Nat
  | nil => 0
  | mk _ _ _ _ _ _ c0 c1 c2 c3 os =>
      os.length + (subCount c0 + subCount c1 + subCount c2 + subCount c3)

/-- All objects stored anywhere in the subtree (leaves and, should the code
ever leave objects behind in an internal node, those too), in preorder. -/
def treeObjects {α : Type} : QNode α → List (ObjKey α)
  | nil => []
  | mk _ _ _ _ _ _ c0 c1 c2 c3 os =>
      os ++ (treeObjects c0 ++ treeObjects c1 ++ treeObjects c2 ++ treeObjects c3)

end QNode

namespace QState

variable {α : Type} [DecidableEq α]

/-- Invariant I4 of the spec, as an executable check: every non-leaf node's
rectangle with its subtree object count is reported splittable. -/
def checkI4 (s : QState α) : Bool :=
  s.root.allNodes.all fun n =>
    n.leafFlag ∨ s.splitable n.px1 n.py1 n.px2 n.py2 (n.subCount : Int)

/-- Invariant I5 of the spec, as an executable check: every leaf is a single
cell or is reported not splittable for its own object count (`splitable`
already returns `false` on single cells). -/
def checkI5 (s : QState α) : Bool :=
  s.root.allNodes.all fun n =>
    ¬ n.leafFlag ∨ ¬ s.splitable n.px1 n.py1 n.px2 n.py2 (n.objs.length : Int)

end QState

/-! ## Concrete states exercising the code

These are the reachable states (a `Build` followed by `Add` calls on
explicitly given configurations) on which several claims are settled. -/

/-- The pure predicate "stop splitting iff the region holds no objects"
(`ssf(w, h, n) = n ≤ 0`).  Its stop-set is downward closed in
`(w, h, n)`, i.e. it is a monotone predicate. -/
def stopIfEmpty : Int → Int → Int → Bool := fun _ _ n => decide (n ≤ 0)

/-- `Quadtree(11, 11, stopIfEmpty)` after `Build(); Add(7, 0, 1)`.
Its 17 nodes include the depth-3 node `(6,0)-(7,1)` (internal) and its
sibling, the depth-3 leaf `(8,0)-(8,1)`. -/
def tree11 : QState Int := ((QState.init 11 11 (some stopIfEmpty)).Build).Add 7 0 1

/-- A predicate that always stops: the tree stays a single root leaf. -/
def alwaysStop : Int → Int → Int → Bool := fun _ _ _ => true

/-- `Quadtree(2, 2, alwaysStop)` after `Build()`: one root leaf, `maxd = 0`. -/
def tree2stop : QState Int := (QState.init 2 2 (some alwaysStop)).Build

/-- The pure predicate "stop splitting iff the region holds an object"
(`ssf(w, h, n) = n ≥ 1`); pure but not monotone in the object count. -/
def stopIfNonempty : Int → Int → Int → Bool := fun _ _ n => decide (1 ≤ n)

/-- `Quadtree(4, 4, stopIfNonempty)` after `Build(); Add(0, 0, 7)`:
`Build` splits the empty tree down to all 16 cells; the `Add` merges the
NW quadrant back into a leaf, leaving the root non-leaf with one object in
its subtree while `splitable(root.rect, 1) = false`. -/
def tree4 : QState Int := ((QState.init 4 4 (some stopIfNonempty)).Build).Add 0 0 7

/-- `Quadtree(2, 2, stopIfEmpty)` after `Build(); Add(0, 0, 5)`:
root plus four cell leaves, the object sitting in cell `(0,0)`. -/
def tree2 : QState Int := ((QState.init 2 2 (some stopIfEmpty)).Build).Add 0 0 5

/-- A pure but non-monotone predicate: a 4×4 region stops below 3 objects,
a 2×2 region stops below 2, everything else stops. -/
def ssfNM : Int → Int → Int → Bool := fun w h n =>
  if w = 4 ∧ h = 4 then decide (n ≤ 2)
  else if w = 2 ∧ h = 2 then decide (n ≤ 1) else true

/-- `Quadtree(4, 4, ssfNM)` after `Build(); Add(2,2,11); Add(2,3,12)`:
a single root leaf holding two objects. -/
def tree5 : QState Int :=
  (((QState.init 4 4 (some ssfNM)).Build).Add 2 2 11).Add 2 3 12

/-- A pure predicate on a 1-column region: stop at height ≤ 2, and stop a
height-4 strip iff it is empty. -/
def ssfCol : Int → Int → Int → Bool := fun _ h n => decide (h ≤ 2 ∨ (h = 4 ∧ n = 0))

/-- `Quadtree(1, 8, ssfCol)` after `Build(); Add(0, 0, 101)`: a one-column
tree whose root has children `[0..3]` (internal, flag pattern 0b101) and
`[4..7]` (leaf). -/
def tree8 : QState Int := ((QState.init 1 8 (some ssfCol)).Build).Add 0 0 101

/-- The leaf `(4,0)-(7,0)` of `tree8` (depth 1, no objects). -/
def tree8N : QNode Int := .mk true 1 4 0 7 0 .nil .nil .nil .nil []

/-- The leaf `(0,0)-(1,0)` of `tree8` (depth 2, holding the object). -/
def tree8M : QNode Int := .mk true 2 0 0 1 0 .nil .nil .nil .nil [(0, 0, 101)]

/-- `Quadtree(2, 2)` with no `ssf` after `Build()`: root plus 4 cells,
`maxd = 1`. -/
def tree2full : QState Int := (QState.init 2 2 none).Build

/-! ## Derived notions used by the verification -/

/-! ## Reachable states

A state is reachable when it is produced by `Build` on a fresh tree with
valid dimensions and then mutated by any sequence of `Add`/`Remove`. -/

/-- Reachability: `Build` on a fresh quadtree with valid dimensions,
followed by arbitrary `Add` / `Remove` calls. -/
inductive Reachable {α : Type} [DecidableEq α] : QState α → Prop where
  | build (w h : Int) (ssf : Option (Int → Int → Int → Bool))
      (hw1 : 1 ≤ w) (hw2 : w ≤ MAX_SIDE) (hh1 : 1 ≤ h) (hh2 : h ≤ MAX_SIDE) :
      Reachable ((QState.init w h ssf).Build)
  | add {s : QState α} (x y : Int) (o : α) : Reachable s → Reachable (s.Add x y o)
  | remove {s : QState α} (x y : Int) (o : α) : Reachable s → Reachable (s.Remove x y o)

namespace QNode

variable {α : Type}

/-- Number of nodes of depth `dd` in the subtree (as `Int`, to match the
`int` entries of `numDepthTable`). -/
def census : QNode α → Nat → Int
  | nil, _ => 0
  | mk _ d _ _ _ _ c0 c1 c2 c3 _, dd =>
      (if d = dd then 1 else 0) +
        (census c0 dd + census c1 dd + census c2 dd + census c3 dd)

/-- Every leaf of the tree owns no children (true of every tree the code
builds; needed because `removeLeafNode` accounts for a single node while
node deletion is recursive). -/
def leafOk : QNode α → Prop
  | nil => True
  | mk lf _ _ _ _ _ c0 c1 c2 c3 _ =>
      (lf = true → c0 = nil ∧ c1 = nil ∧ c2 = nil ∧ c3 = nil) ∧
        leafOk c0 ∧ leafOk c1 ∧ leafOk c2 ∧ leafOk c3

/-- Number of leaf nodes in the subtree (as `Int`, matching `numLeafNodes`). -/
def leafCensus : QNode α → Int
  | nil => 0
  | mk lf _ _ _ _ _ c0 c1 c2 c3 _ =>
      (if lf then 1 else 0) +
        (leafCensus c0 + leafCensus c1 + leafCensus c2 + leafCensus c3)

end QNode

namespace QNode

variable {α : Type}

/-- Exact well-formedness of a subtree of a `2^k × 2^k` quadtree: the node
at depth `d` manages dyadic block `(X, Y)` — the rectangle
`[X·2^(k-d), (X+1)·2^(k-d)-1] × [Y·2^(k-d), (Y+1)·2^(k-d)-1]` — a leaf owns
no children, and a non-leaf owns no objects and four live children on the
four half-blocks. -/
def WFb (k : Nat) : Nat → Nat → Nat → QNode α → Bool
  | _, _, _, nil => false
  | d, X, Y, mk lf d' x1 y1 x2 y2 c0 c1 c2 c3 os =>
      d' = d ∧ d ≤ k ∧ X < 2 ^ d ∧ Y < 2 ^ d ∧
      x1 = (X : Int) * 2 ^ (k - d) ∧ y1 = (Y : Int) * 2 ^ (k - d) ∧
      x2 = ((X : Int) + 1) * 2 ^ (k - d) - 1 ∧
      y2 = ((Y : Int) + 1) * 2 ^ (k - d) - 1 ∧
      (if lf then (c0.isNil ∧ c1.isNil ∧ c2.isNil ∧ c3.isNil : Bool)
       else (os.isEmpty ∧ d < k ∧
         WFb k (d + 1) (2 * X) (2 * Y) c0 ∧
         WFb k (d + 1) (2 * X) (2 * Y + 1) c1 ∧
         WFb k (d + 1) (2 * X + 1) (2 * Y) c2 ∧
         WFb k (d + 1) (2 * X + 1) (2 * Y + 1) c3))

/-- Two trees with identical structure (flags, depths, rectangles and
children), differing at most in the object containers. -/
def sameShape : QNode α → QNode α → Prop
  | nil, nil => True
  | mk lf d x1 y1 x2 y2 c0 c1 c2 c3 _,
      mk lf' d' x1' y1' x2' y2' c0' c1' c2' c3' _ =>
      lf = lf' ∧ d = d' ∧ x1 = x1' ∧ y1 = y1' ∧ x2 = x2' ∧ y2 = y2' ∧
      sameShape c0 c0' ∧ sameShape c1 c1' ∧ sameShape c2 c2' ∧ sameShape c3 c3'
  | _, _ => False

end QNode

/-- A monotone (downward-closed) stop predicate: once it stops a rectangle
at some count, it stops it at every smaller count.  A null `ssf` is
trivially monotone. -/
def MonoSsf : Option (Int → Int → Int → Bool) → Prop
  | none => True
  | some f => ∀ a b n m, m ≤ n → f a b n = true → f a b m = true

/-- The X block accumulated along a child path (each step descends into the
left or right half depending on the child index's high bit). -/
def pathXa : Nat → List Nat → Nat
  | X, [] => X
  | X, i :: q => pathXa (2 * X + i / 2) q

/-- The Y block accumulated along a child path (low bit of the index). -/
def pathYa : Nat → List Nat → Nat
  | Y, [] => Y
  | Y, i :: q => pathYa (2 * Y + i % 2) q

namespace QState

variable {α : Type} [DecidableEq α]

/-- The counter bookkeeping contract of `splitHelper1`: the state threaded
through it gains exactly the census of the created subtree in
`numDepthTable` and `numLeafNodes`, leaves everything else untouched, and
`maxd` grows to dominate (and be attained by) the created depths. -/
def sh1Ok (s : QState α) (r : QNode α × List (ObjKey α) × QState α) : Prop :=
  r.2.2.w = s.w ∧ r.2.2.h = s.h ∧ r.2.2.ssf = s.ssf ∧ r.2.2.root = s.root ∧
  r.2.2.numObjects = s.numObjects ∧
  (∀ dd, r.2.2.ndt dd = s.ndt dd + r.1.census dd) ∧
  r.2.2.numLeafNodes = s.numLeafNodes + r.1.leafCensus ∧
  s.maxd ≤ r.2.2.maxd ∧
  (∀ dd, r.1.census dd ≠ 0 → dd ≤ r.2.2.maxd) ∧
  (r.2.2.maxd = s.maxd ∨ r.1.census r.2.2.maxd ≠ 0) ∧
  r.1.leafOk

/-- The census invariant: `numDepthTable` is an exact per-depth census of
the live tree, `maxd` dominates every populated depth and is attained, and
every leaf owns no children. -/
structure CS (s : QState α) : Prop where
  acc : ∀ dd, s.ndt dd = s.root.census dd
  dom : ∀ dd, s.ndt dd ≠ 0 → dd ≤ s.maxd
  att : s.maxd = 0 ∨ s.ndt s.maxd ≠ 0
  lok : s.root.leafOk

/-- The census contribution a child removal takes away: one at the child's
own depth when the child is live, nothing when it is null. -/
def childDec (c : QNode α) (dd : Nat) : Int :=
  if c.isNil = false ∧ c.depth = dd then 1 else 0

end QState

/-- The state `Quadtree(2^29 - 1, 2^29 - 1, nullptr)` holds right after the
root leaf is created by `Build`, before `trySplitDown`. -/
def s1Max : QState Unit :=
  { (QState.init MAX_SIDE MAX_SIDE none : QState Unit).createEff true 0 with
    root := QNode.mk true 0 0 0 (MAX_SIDE - 1) (MAX_SIDE - 1)
      .nil .nil .nil .nil [] }

/-- Modelled from the spec (§4.1): the documented id formula
`(d << 58) | (⌊2^d·x/H⌋ << 29) | ⌊2^d·y/W⌋`, each component masked to its
6/29/29-bit field, with true powers of two and all arithmetic modulo
`2^64`. -/
def packSpec (d : Nat) (x y w h : Int) : Nat :=
  (((d <<< 58) % 2 ^ 64) &&& 0xfc00000000000000) |||
    ((((2 ^ d * toU64 x % 2 ^ 64) / toU64 h) <<< 29) % 2 ^ 64 &&& 0x3ffffffe0000000) |||
    ((2 ^ d * toU64 y % 2 ^ 64) / toU64 w &&& 0x1fffffff)

/-! ## C1 -/

/-- C1 (code bug): the claim says `Find(x, y)` returns a leaf whose
rectangle contains the in-range `(x, y)`, and `none` out of bounds.  On the
reachable state `tree11` (`Build`, one `Add`, `W = H = 11`), `Find(7, 0)`
returns the leaf `(8,0)-(8,1)`, whose rectangle does not contain `(7, 0)`;
and on `tree2stop` the out-of-bounds probe `Find(2^30, 0)` returns the root
instead of none, because `pack` wraps `2^30 / 2 = 2^29` to field 0. -/
theorem c1_find_breaks_containment_and_bounds :
    ((0 : Int) ≤ 7 ∧ (7 : Int) < tree11.h ∧ (0 : Int) ≤ 0 ∧ (0 : Int) < tree11.w) ∧
    (tree11.Find 7 0).leafFlag = true ∧
    (tree11.Find 7 0).rect = (8, 0, 8, 1) ∧
    ¬((tree11.Find 7 0).px1 ≤ 7 ∧ (7 : Int) ≤ (tree11.Find 7 0).px2) ∧
    ((2 : Int) ^ 30 ≥ tree2stop.h ∧
      (tree2stop.Find (2 ^ 30) 0).isNil = false ∧
      tree2stop.Find (2 ^ 30) 0 = tree2stop.root) := by
  decide

/-! ## C3 -/

/-- C3 (code bug): the claim says any two positions inside a live node's
rectangle pack to the same id at the node's depth.  The reachable state
`tree11` stores exactly one node with rectangle `(6,0)-(7,1)`, at depth 3;
the interior positions `(6,0)` and `(7,0)` pack to different ids (the node
is keyed under the first), because `⌊8·6/11⌋ = 4 ≠ 5 = ⌊8·7/11⌋`. -/
theorem c3_pack_not_constant_on_node :
    (tree11.root.allNodes.filter fun n => n.rect = (6, 0, 7, 1)).length = 1 ∧
    (∀ n ∈ tree11.root.allNodes, n.rect = (6, 0, 7, 1) → n.depth = 3) ∧
    pack 3 6 0 tree11.w tree11.h ≠ pack 3 7 0 tree11.w tree11.h ∧
    (∀ n ∈ tree11.root.allNodes, n.rect = (6, 0, 7, 1) →
      tree11.nodeId n = pack 3 6 0 tree11.w tree11.h) := by
  decide

/-! ## C4 -/

/-- C4 (code bug): the claim says `QueryRange` invokes the collector exactly
once for each stored object inside the query rectangle.  On `tree11` the
object `(7, 0, 1)` is stored (in the cell leaf `(7,0)-(7,0)`) and lies
inside the rectangle `(7,0)-(7,1)`, yet `QueryRange(7, 0, 7, 1)` collects
nothing: the covering-node search lands on the aliased leaf `(8,0)-(8,1)`
and the descent prunes everything. -/
theorem c4_queryrange_omits_object :
    ((7 : Int) ≤ 7 ∧ (0 : Int) ≤ 1) ∧
    (7, 0, 1) ∈ tree11.root.treeObjects ∧
    keyIn 7 0 7 1 ((7 : Int), (0 : Int), (1 : Int)) = true ∧
    tree11.QueryRange 7 0 7 1 = [] := by
  decide

/-! ## C5 -/

/-- C5 (code bug): the claim says that for in-bounds corners the function
returns the deepest live node whose rectangle contains both corners.  On
`tree11`: for corners `(6,0)` and `(7,0)` it returns the depth-2 node
`(6,0)-(8,2)` although the live depth-3 node `(6,0)-(7,1)` contains both;
and for corners `(7,0)` and `(7,1)` it returns the leaf `(8,0)-(8,1)`,
which contains neither corner. -/
theorem c5_covering_range_not_deepest :
    ((tree11.FindSmallestNodeCoveringRange 6 0 7 0).rect = (6, 0, 8, 2) ∧
      (tree11.FindSmallestNodeCoveringRange 6 0 7 0).depth = 2) ∧
    ((tree11.root.allNodes.filter fun n => n.rect = (6, 0, 7, 1) ∧ n.depth = 3).length = 1) ∧
    ((tree11.FindSmallestNodeCoveringRange 7 0 7 1).rect = (8, 0, 8, 1) ∧
      ¬((8 : Int) ≤ 7)) := by
  decide

/-! ## C8 -/

/-- C8 (code bug): the claim states neighbour symmetry
`M ∈ FNLN(N, d) → N ∈ FNLN(M, d xor 2)` for cardinal `d`.  In `tree8`
(one column, 8 rows) the leaf `M = (0,0)-(1,0)` is visited by
`FindNeighbourLeafNodes(N, 0)` for the leaf `N = (4,0)-(7,0)` — through the
jump-table row `0b101` whose South entry is `{2, 0}` instead of `{2, -1}` —
but `N` is not visited by `FindNeighbourLeafNodes(M, 2)`. -/
theorem c8_neighbour_symmetry_fails :
    tree8N ∈ tree8.root.allNodes ∧ tree8N.leafFlag = true ∧
    tree8M ∈ tree8.root.allNodes ∧ tree8M.leafFlag = true ∧
    tree8M ∈ tree8.FindNeighbourLeafNodes tree8N 0 ∧
    tree8N ∉ tree8.FindNeighbourLeafNodes tree8M (0 ^^^ 2) := by
  decide

/-! ## C2: counterexample -/

/-- C2 counterexample: after `Build(); Add(0, 0, 7)` on
`Quadtree(4, 4, stopIfNonempty)` — a pure predicate — the root is a
non-leaf whose subtree holds 1 object while the predicate reports its
rectangle not splittable with count 1, so invariant I4 fails between public
calls. -/
theorem c2_counterexample :
    tree4.root.leafFlag = false ∧
    tree4.root.subCount = 1 ∧
    tree4.splitable tree4.root.px1 tree4.root.py1 tree4.root.px2 tree4.root.py2 1 = false ∧
    tree4.checkI4 = false := by
  decide

/-! ## C10: counterexample -/

/-- C10 counterexample: `Add(x, y, o)` followed by `Remove(x, y, o)` does
not restore the node count in three reachable situations, forcing each
hypothesis of the amended claim: (a) on `tree2` the triple `(0,0,5)` is
already stored, so the `Add` is a no-op and the `Remove` merges 5 nodes to
1; (b) on `tree11` (monotone predicate but `W = H = 11` not powers of two)
the fresh triple `(7,0,2)` is routed to a wrong leaf by the id collision
and 17 nodes become 19; (c) on `tree5` (powers of two but non-monotone
predicate) the fresh triple `(0,0,13)` splits 1 node into 9 and the remove
cannot merge back past the internal SE child. -/
theorem c10_counterexample :
    ((0, 0, 5) ∈ tree2.root.treeObjects ∧
      ((tree2.Add 0 0 5).Remove 0 0 5).NumNodes = 1 ∧ tree2.NumNodes = 5) ∧
    ((7, 0, 2) ∉ tree11.root.treeObjects ∧
      ((tree11.Add 7 0 2).Remove 7 0 2).NumNodes = 19 ∧ tree11.NumNodes = 17) ∧
    ((0, 0, 13) ∉ tree5.root.treeObjects ∧
      ((tree5.Add 0 0 13).Remove 0 0 13).NumNodes = 9 ∧ tree5.NumNodes = 1) := by
  decide

/-! ## C9: counterexample -/

/-- C9 counterexample: the claim asserts (among other things) that `Find`
with upper bound `maxd` returns the containing leaf for every reachable
tree and in-range position; on `tree11`, `Find(7, 0)` returns the leaf
`(8,0)-(8,1)`, which does not contain the in-range position `(7, 0)`. -/
theorem c9_counterexample :
    ((0 : Int) ≤ 7 ∧ (7 : Int) < tree11.h ∧ (0 : Int) ≤ 0 ∧ (0 : Int) < tree11.w) ∧
    (tree11.Find 7 0).rect = (8, 0, 8, 1) ∧
    ¬((tree11.Find 7 0).px1 ≤ 7 ∧ (7 : Int) ≤ (tree11.Find 7 0).px2) := by
  decide

/-! ## C7 -/

/-- C7 counterexample: the claimed formula (with `2^d`) disagrees with the
code at `d = 31`, `x = 2`, `y = 0`, `w = h = 3` — within the claimed total
domain `d ∈ [0,63]`, `x ∈ [0,h)`, `y ∈ [0,w)` — because the code computes
`2^d` as `(1 << d)` in 32-bit signed `int` arithmetic, which for `d = 31`
sign-extends to `2^64 - 2^31` on conversion to `uint64_t`. -/
theorem c7_counterexample :
    pack 31 2 0 3 3 ≠ packSpec 31 2 0 3 3 := by
  decide

/-- C7 amended: for every depth `d ≤ 30` (in particular for every depth the
tree ever uses, since `MAX_DEPTH = 29`), `pack` computes exactly the
documented masked formula, purely and totally, for all arguments. -/
theorem c7_pack_eq_spec_below_31 (d : Nat) (x y w h : Int) (hd : d ≤ 30) :
    pack d x y w h = packSpec d x y w h := by
  have : cppShl1 d = 2 ^ d := by
    unfold cppShl1
    simp [hd]
  unfold pack packSpec
  rw [this]

/-- Witness for `c7_pack_eq_spec_below_31` at `d = 29`, `x = 3`, `y = 5`,
`w = 10`, `h = 8`. -/
theorem c7_pack_eq_spec_below_31_witness :
    pack 29 3 5 10 8 = packSpec 29 3 5 10 8 :=
  c7_pack_eq_spec_below_31 29 3 5 10 8 (by decide)


/-! ## The depth census invariant

`numDepthTable` is an exact census of live nodes by depth, `maxd` dominates
every live depth and is attained.  This invariant holds in every reachable
state and is what makes `maxd` the correct inclusive upper bound for the
binary searches. -/

namespace QNode

variable {α : Type}

theorem subAt_nil (p : List Nat) : (nil : QNode α).subAt p = nil := by
  induction p with
  | nil => rfl
  | cons i p ih => simpa [subAt, child] using ih

theorem child_add_four (lf : Bool) (d : Nat) (x1 y1 x2 y2 : Int)
    (c0 c1 c2 c3 : QNode α) (os : List (ObjKey α)) (m : Nat) :
    (mk lf d x1 y1 x2 y2 c0 c1 c2 c3 os).child (m + 4) = nil := rfl

theorem census_nonneg (t : QNode α) (dd : Nat) : 0 ≤ t.census dd := by
  induction t with
  | nil => simp [census]
  | mk lf d x1 y1 x2 y2 c0 c1 c2 c3 os h0 h1 h2 h3 =>
      simp only [census]
      have : (0 : Int) ≤ if d = dd then 1 else 0 := by split <;> omega
      omega

theorem census_pos_of_mem {t : QNode α} {n : QNode α} (h : n ∈ t.allNodes) :
    1 ≤ t.census n.depth := by
  induction t with
  | nil => simp [allNodes] at h
  | mk lf d x1 y1 x2 y2 c0 c1 c2 c3 os h0 h1 h2 h3 =>
      simp only [allNodes, List.mem_cons, List.mem_append, or_assoc] at h
      rcases h with h | h | h | h | h
      · subst h
        simp [census, depth]
        have n0 := census_nonneg c0 d
        have n1 := census_nonneg c1 d
        have n2 := census_nonneg c2 d
        have n3 := census_nonneg c3 d
        omega
      all_goals {
        simp only [census]
        have n0 := census_nonneg c0 n.depth
        have n1 := census_nonneg c1 n.depth
        have n2 := census_nonneg c2 n.depth
        have n3 := census_nonneg c3 n.depth
        have hb : (0 : Int) ≤ if d = n.depth then 1 else 0 := by split <;> omega
        first
        | (have hc := h0 h; omega)
        | (have hc := h1 h; omega)
        | (have hc := h2 h; omega)
        | (have hc := h3 h; omega) }

/-- A leaf subtree satisfying `leafOk` is a single node. -/
theorem census_of_leaf {t : QNode α} (hok : t.leafOk) (hleaf : t.leafFlag = true)
    (dd : Nat) : t.census dd = if t.depth = dd then 1 else 0 := by
  cases t with
  | nil => simp [leafFlag] at hleaf
  | mk lf d x1 y1 x2 y2 c0 c1 c2 c3 os =>
      simp only [leafFlag] at hleaf
      obtain ⟨hc, -⟩ := hok
      obtain ⟨e0, e1, e2, e3⟩ := hc hleaf
      subst e0 e1 e2 e3
      simp [census, depth]

theorem setAt_census {t : QNode α} {p : List Nat} (r : QNode α)
    (hv : (t.subAt p).isNil = false) (dd : Nat) :
    (t.setAt p r).census dd = t.census dd - (t.subAt p).census dd + r.census dd := by
  induction p generalizing t with
  | nil => simp only [setAt, subAt]; omega
  | cons i p ih =>
      cases t with
      | nil => rw [show (nil : QNode α).subAt (i :: p) = nil by
                    simp [subAt, child, subAt_nil]] at hv
               simp [isNil] at hv
      | mk lf d x1 y1 x2 y2 c0 c1 c2 c3 os =>
          match i with
          | 0 =>
              have := ih (t := c0) (by simpa [subAt, child] using hv)
              simp only [setAt, subAt, child, census] at *
              omega
          | 1 =>
              have := ih (t := c1) (by simpa [subAt, child] using hv)
              simp only [setAt, subAt, child, census] at *
              omega
          | 2 =>
              have := ih (t := c2) (by simpa [subAt, child] using hv)
              simp only [setAt, subAt, child, census] at *
              omega
          | 3 =>
              have := ih (t := c3) (by simpa [subAt, child] using hv)
              simp only [setAt, subAt, child, census] at *
              omega
          | (m + 4) =>
              rw [show (mk lf d x1 y1 x2 y2 c0 c1 c2 c3 os).subAt ((m + 4) :: p) = nil by
                    simp [subAt, child_add_four, subAt_nil]] at hv
              simp [isNil] at hv

theorem setAt_subAt {t : QNode α} {p : List Nat} (r : QNode α)
    (hv : (t.subAt p).isNil = false) : (t.setAt p r).subAt p = r := by
  induction p generalizing t with
  | nil => simp [setAt, subAt]
  | cons i p ih =>
      cases t with
      | nil => rw [show (nil : QNode α).subAt (i :: p) = nil by
                    simp [subAt, child, subAt_nil]] at hv
               simp [isNil] at hv
      | mk lf d x1 y1 x2 y2 c0 c1 c2 c3 os =>
          match i with
          | 0 => simpa [setAt, subAt, child] using ih (t := c0) (by simpa [subAt, child] using hv)
          | 1 => simpa [setAt, subAt, child] using ih (t := c1) (by simpa [subAt, child] using hv)
          | 2 => simpa [setAt, subAt, child] using ih (t := c2) (by simpa [subAt, child] using hv)
          | 3 => simpa [setAt, subAt, child] using ih (t := c3) (by simpa [subAt, child] using hv)
          | (m + 4) =>
              rw [show (mk lf d x1 y1 x2 y2 c0 c1 c2 c3 os).subAt ((m + 4) :: p) = nil by
                    simp [subAt, child_add_four, subAt_nil]] at hv
              simp [isNil] at hv

theorem leafOk_nil : (nil : QNode α).leafOk := by simp [leafOk]

theorem subAt_leafOk {t : QNode α} (hok : t.leafOk) (p : List Nat) :
    (t.subAt p).leafOk := by
  induction p generalizing t with
  | nil => simpa [subAt]
  | cons i p ih =>
      cases t with
      | nil => simpa [subAt, child] using ih (t := QNode.nil) leafOk_nil
      | mk lf d x1 y1 x2 y2 c0 c1 c2 c3 os =>
          obtain ⟨-, k0, k1, k2, k3⟩ := hok
          match i with
          | 0 => simpa [subAt, child] using ih k0
          | 1 => simpa [subAt, child] using ih k1
          | 2 => simpa [subAt, child] using ih k2
          | 3 => simpa [subAt, child] using ih k3
          | (m + 4) =>
              simpa [subAt, child_add_four] using ih (t := QNode.nil) leafOk_nil

theorem setAt_leafOk {t : QNode α} {p : List Nat} {r : QNode α}
    (hv : (t.subAt p).isNil = false) (hok : t.leafOk) (hr : r.leafOk) :
    (t.setAt p r).leafOk := by
  induction p generalizing t with
  | nil => simpa [setAt]
  | cons i p ih =>
      cases t with
      | nil => simpa [setAt] using leafOk_nil
      | mk lf d x1 y1 x2 y2 c0 c1 c2 c3 os =>
          obtain ⟨hc, k0, k1, k2, k3⟩ := hok
          have hnl : lf = false := by
            by_contra hlf
            rw [Bool.not_eq_false] at hlf
            obtain ⟨e0, e1, e2, e3⟩ := hc hlf
            have : (mk lf d x1 y1 x2 y2 c0 c1 c2 c3 os).subAt (i :: p) = nil := by
              have hcn : (mk lf d x1 y1 x2 y2 c0 c1 c2 c3 os).child i = nil := by
                match i with
                | 0 => simp [child, e0]
                | 1 => simp [child, e1]
                | 2 => simp [child, e2]
                | 3 => simp [child, e3]
                | (m + 4) => simp [child_add_four]
              simp [subAt, hcn, subAt_nil]
            rw [this] at hv
            simp [isNil] at hv
          subst hnl
          match i with
          | 0 =>
              exact ⟨by simp, ih (t := c0) (by simpa [subAt, child] using hv) k0, k1, k2, k3⟩
          | 1 =>
              exact ⟨by simp, k0, ih (t := c1) (by simpa [subAt, child] using hv) k1, k2, k3⟩
          | 2 =>
              exact ⟨by simp, k0, k1, ih (t := c2) (by simpa [subAt, child] using hv) k2, k3⟩
          | 3 =>
              exact ⟨by simp, k0, k1, k2, ih (t := c3) (by simpa [subAt, child] using hv) k3⟩
          | (m + 4) =>
              rw [show (mk false d x1 y1 x2 y2 c0 c1 c2 c3 os).subAt ((m + 4) :: p) = nil by
                    simp [subAt, child_add_four, subAt_nil]] at hv
              simp [isNil] at hv

theorem setObjs_census {n : QNode α} (os : List (ObjKey α)) (dd : Nat) :
    (n.setObjs os).census dd = n.census dd := by
  cases n <;> simp [setObjs, census]

theorem setObjs_leafOk {n : QNode α} (os : List (ObjKey α)) (h : n.leafOk) :
    (n.setObjs os).leafOk := by
  cases n <;> simpa [setObjs, leafOk] using h

theorem leafCensus_nonneg (t : QNode α) : 0 ≤ t.leafCensus := by
  induction t with
  | nil => simp [leafCensus]
  | mk lf d x1 y1 x2 y2 c0 c1 c2 c3 os h0 h1 h2 h3 =>
      simp only [leafCensus]
      have : (0 : Int) ≤ if lf then 1 else 0 := by split <;> omega
      omega

end QNode

namespace QState

variable {α : Type} [DecidableEq α]

theorem sh1Ok_id (s : QState α) (up : List (ObjKey α)) :
    sh1Ok s (QNode.nil, up, s) := by
  refine ⟨rfl, rfl, rfl, rfl, rfl, ?_, ?_, le_refl _, ?_, Or.inl rfl, QNode.leafOk_nil⟩
  · intro dd; simp [QNode.census]
  · simp [QNode.leafCensus]
  · intro dd h; simp [QNode.census] at h

theorem sh1Ok_leaf (s : QState α) (d : Nat) (x1 y1 x2 y2 : Int)
    (os up : List (ObjKey α)) :
    sh1Ok s (QNode.mk true d x1 y1 x2 y2 .nil .nil .nil .nil os, up,
      s.createEff true d) := by
  refine ⟨rfl, rfl, rfl, rfl, rfl, ?_, ?_, le_max_left _ _, ?_, ?_, ?_⟩
  · intro dd
    simp only [createEff, QNode.census]
    by_cases hdd : dd = d
    · subst hdd; simp
    · simp [hdd, Ne.symm hdd]
  · simp [createEff, QNode.leafCensus]
  · intro dd h
    simp only [QNode.census] at h
    by_cases hdd : d = dd
    · subst hdd; simp [createEff]
    · simp [hdd, QNode.census] at h
  · rcases max_choice s.maxd d with h | h
    · exact Or.inl (by simp [createEff, h])
    · refine Or.inr ?_
      have : (s.createEff true d).maxd = d := by simp [createEff, h]
      rw [this]
      simp [QNode.census]
  · exact ⟨fun _ => ⟨rfl, rfl, rfl, rfl⟩, trivial, trivial, trivial, trivial⟩

theorem sh1Ok_internal (s : QState α) (d : Nat) (x1 y1 x2 y2 : Int)
    (os up : List (ObjKey α))
    (r0 r1 r2 r3 : QNode α × List (ObjKey α) × QState α)
    (H0 : sh1Ok (s.createEff false d) r0)
    (H1 : sh1Ok r0.2.2 r1) (H2 : sh1Ok r1.2.2 r2) (H3 : sh1Ok r2.2.2 r3) :
    sh1Ok s (QNode.mk false d x1 y1 x2 y2 r0.1 r1.1 r2.1 r3.1 os, up, r3.2.2) := by
  obtain ⟨w0, h0, f0, t0, o0, n0, l0, m0, c0, a0, k0⟩ := H0
  obtain ⟨w1, h1, f1, t1, o1, n1, l1, m1, c1, a1, k1⟩ := H1
  obtain ⟨w2, h2, f2, t2, o2, n2, l2, m2, c2, a2, k2⟩ := H2
  obtain ⟨w3, h3, f3, t3, o3, n3, l3, m3, c3, a3, k3⟩ := H3
  have ew : (s.createEff false d).w = s.w := rfl
  have eh : (s.createEff false d).h = s.h := rfl
  have ef : (s.createEff false d).ssf = s.ssf := rfl
  have et : (s.createEff false d).root = s.root := rfl
  have eo : (s.createEff false d).numObjects = s.numObjects := rfl
  have el : (s.createEff false d).numLeafNodes = s.numLeafNodes := rfl
  have em : (s.createEff false d).maxd = max s.maxd d := rfl
  have en : ∀ dd, (s.createEff false d).ndt dd =
      s.ndt dd + (if d = dd then 1 else 0) := by
    intro dd
    simp only [createEff]
    by_cases hdd : dd = d
    · subst hdd; simp
    · simp [hdd, Ne.symm hdd]
  refine ⟨?_, ?_, ?_, ?_, ?_, ?_, ?_, ?_, ?_, ?_, ?_⟩
  · rw [w3, w2, w1, w0, ew]
  · rw [h3, h2, h1, h0, eh]
  · rw [f3, f2, f1, f0, ef]
  · rw [t3, t2, t1, t0, et]
  · rw [o3, o2, o1, o0, eo]
  · intro dd
    have := n0 dd
    have := n1 dd
    have := n2 dd
    have := n3 dd
    have := en dd
    simp only [QNode.census]
    omega
  · simp only [QNode.leafCensus]
    rw [l3, l2, l1, l0, el]
    simp only [if_neg (by simp : ¬ (false = true))]
    omega
  · calc s.maxd ≤ max s.maxd d := le_max_left _ _
      _ = (s.createEff false d).maxd := em.symm
      _ ≤ r0.2.2.maxd := m0
      _ ≤ r1.2.2.maxd := m1
      _ ≤ r2.2.2.maxd := m2
      _ ≤ r3.2.2.maxd := m3
  · intro dd hdd
    have hd0 : d ≤ r3.2.2.maxd := by
      calc d ≤ max s.maxd d := le_max_right _ _
        _ = (s.createEff false d).maxd := em.symm
        _ ≤ r0.2.2.maxd := m0
        _ ≤ r1.2.2.maxd := m1
        _ ≤ r2.2.2.maxd := m2
        _ ≤ r3.2.2.maxd := m3
    simp only [QNode.census] at hdd
    have q0 := QNode.census_nonneg r0.1 dd
    have q1 := QNode.census_nonneg r1.1 dd
    have q2 := QNode.census_nonneg r2.1 dd
    have q3 := QNode.census_nonneg r3.1 dd
    by_cases hd : d = dd
    · exact hd ▸ hd0
    · have hsplit : r0.1.census dd ≠ 0 ∨ r1.1.census dd ≠ 0 ∨
          r2.1.census dd ≠ 0 ∨ r3.1.census dd ≠ 0 := by
        rw [if_neg hd] at hdd
        omega
      rcases hsplit with h | h | h | h
      · exact le_trans (c0 dd h) (le_trans m1 (le_trans m2 m3))
      · exact le_trans (c1 dd h) (le_trans m2 m3)
      · exact le_trans (c2 dd h) m3
      · exact c3 dd h
  · have pos : ∀ t : QNode α, ∀ dd, t.census dd ≠ 0 →
        QNode.census (QNode.mk false d x1 y1 x2 y2 r0.1 r1.1 r2.1 r3.1 os) dd ≠ 0 →
        True := fun _ _ _ _ => trivial
    have mk_ne : ∀ dd, (r0.1.census dd ≠ 0 ∨ r1.1.census dd ≠ 0 ∨
        r2.1.census dd ≠ 0 ∨ r3.1.census dd ≠ 0 ∨ d = dd) →
        QNode.census (QNode.mk false d x1 y1 x2 y2 r0.1 r1.1 r2.1 r3.1 os) dd ≠ 0 := by
      intro dd hone
      simp only [QNode.census]
      have q0 := QNode.census_nonneg r0.1 dd
      have q1 := QNode.census_nonneg r1.1 dd
      have q2 := QNode.census_nonneg r2.1 dd
      have q3 := QNode.census_nonneg r3.1 dd
      have hb : (0 : Int) ≤ if d = dd then 1 else 0 := by split <;> omega
      rcases hone with h | h | h | h | h
      · omega
      · omega
      · omega
      · omega
      · rw [if_pos h]; omega
    rcases a3 with a3 | a3
    case inr => exact Or.inr (mk_ne _ (Or.inr (Or.inr (Or.inr (Or.inl a3)))))
    rw [a3]
    rcases a2 with a2 | a2
    case inr => exact Or.inr (mk_ne _ (Or.inr (Or.inr (Or.inl a2))))
    rw [a2]
    rcases a1 with a1 | a1
    case inr => exact Or.inr (mk_ne _ (Or.inr (Or.inl a1)))
    rw [a1]
    rcases a0 with a0 | a0
    case inr => exact Or.inr (mk_ne _ (Or.inl a0))
    rw [a0, em]
    rcases max_choice s.maxd d with h | h
    · exact Or.inl h
    · exact Or.inr (mk_ne _ (Or.inr (Or.inr (Or.inr (Or.inr h.symm)))))
  · exact ⟨fun h => by simp at h, k0, k1, k2, k3⟩

theorem fixMaxd_le (ndt : Nat → Int) (m : Nat) : fixMaxd ndt m ≤ m := by
  induction m with
  | zero => simp [fixMaxd]
  | succ m ih =>
      rw [fixMaxd]
      split
      · omega
      · omega

theorem fixMaxd_ge (ndt : Nat → Int) (m d : Nat) (hd : d ≤ m) (hne : ndt d ≠ 0) :
    d ≤ fixMaxd ndt m := by
  induction m with
  | zero => omega
  | succ m ih =>
      rw [fixMaxd]
      split
      · rename_i hz
        have : d ≠ m + 1 := fun e => hne (e ▸ hz)
        exact ih (by omega)
      · exact hd

theorem fixMaxd_att (ndt : Nat → Int) (m : Nat) :
    fixMaxd ndt m = 0 ∨ ndt (fixMaxd ndt m) ≠ 0 := by
  induction m with
  | zero => exact Or.inl rfl
  | succ m ih =>
      rw [fixMaxd]
      split
      · exact ih
      · rename_i hz
        exact Or.inr hz

/-- ndt-level contract of `removeLeafNode`'s counter bookkeeping. -/
theorem removeEff_spec (s : QState α) (d : Nat)
    (hdom : ∀ dd, s.ndt dd ≠ 0 → dd ≤ s.maxd)
    (hatt : s.maxd = 0 ∨ s.ndt s.maxd ≠ 0) (h1 : 1 ≤ s.ndt d) :
    (s.removeEff d).w = s.w ∧ (s.removeEff d).h = s.h ∧
    (s.removeEff d).ssf = s.ssf ∧ (s.removeEff d).root = s.root ∧
    (s.removeEff d).numObjects = s.numObjects ∧
    (s.removeEff d).numLeafNodes = s.numLeafNodes - 1 ∧
    (∀ dd, (s.removeEff d).ndt dd = s.ndt dd - (if dd = d then 1 else 0)) ∧
    (s.removeEff d).maxd ≤ s.maxd ∧
    (∀ dd, (s.removeEff d).ndt dd ≠ 0 → dd ≤ (s.removeEff d).maxd) ∧
    ((s.removeEff d).maxd = 0 ∨ (s.removeEff d).ndt (s.removeEff d).maxd ≠ 0) := by
  have endt : ∀ dd, (s.removeEff d).ndt dd = s.ndt dd - (if dd = d then 1 else 0) := by
    intro dd
    simp only [removeEff]
    by_cases hdd : dd = d
    · subst hdd; simp
    · simp [hdd]
  refine ⟨rfl, rfl, rfl, rfl, rfl, rfl, endt, ?_, ?_, ?_⟩
  · simp only [removeEff]
    split
    · exact fixMaxd_le _ _
    · exact le_refl _
  · intro dd hne
    rw [endt dd] at hne
    have hsd : s.ndt dd ≠ 0 ∨ dd = d := by
      by_cases h : dd = d
      · exact Or.inr h
      · rw [if_neg h] at hne; exact Or.inl (by omega)
    simp only [removeEff]
    split
    · rename_i hdm
      apply fixMaxd_ge
      · rcases hsd with h | h
        · exact hdom dd h
        · omega
      · show (fun i => if i = d then s.ndt d - 1 else s.ndt i) dd ≠ 0
        simp only []
        by_cases h : dd = d
        · subst h; rw [if_pos rfl]; rw [if_pos rfl] at hne; omega
        · rw [if_neg h]; rw [if_neg h] at hne; omega
    · rename_i hdm
      rcases hsd with h | h
      · exact hdom dd h
      · subst h
        exact hdom dd (by omega)
  · simp only [removeEff]
    split
    · exact fixMaxd_att _ _
    · rename_i hdm
      rcases hatt with hz | hz
      · exact Or.inl hz
      · refine Or.inr ?_
        show (fun i => if i = d then s.ndt d - 1 else s.ndt i) s.maxd ≠ 0
        simp only []
        rw [if_neg (fun e => hdm e.symm)]
        exact hz

/-- `splitHelper1` satisfies its bookkeeping contract. -/
theorem sh1_spec :
    ∀ (fuel : Nat) (s : QState α) (d : Nat) (x1 y1 x2 y2 : Int)
      (up : List (ObjKey α)), sh1Ok s (sh1 fuel s d x1 y1 x2 y2 up) := by
  intro fuel
  induction fuel with
  | zero =>
      intro s d x1 y1 x2 y2 up
      exact sh1Ok_id s up
  | succ fuel ih =>
      intro s d x1 y1 x2 y2 up
      rw [sh1]
      by_cases h1 : ¬(0 ≤ x1 ∧ x1 < s.h ∧ 0 ≤ y1 ∧ y1 < s.w)
      · rw [if_pos h1]; exact sh1Ok_id s up
      rw [if_neg h1]
      by_cases h2 : ¬(0 ≤ x2 ∧ x2 < s.h ∧ 0 ≤ y2 ∧ y2 < s.w)
      · rw [if_pos h2]; exact sh1Ok_id s up
      rw [if_neg h2]
      by_cases h3 : ¬(x1 ≤ x2 ∧ y1 ≤ y2)
      · rw [if_pos h3]; exact sh1Ok_id s up
      rw [if_neg h3]
      simp only []
      by_cases h4 : ¬ s.splitable x1 y1 x2 y2 (up.filter (keyIn x1 y1 x2 y2)).length
      · rw [if_pos h4]
        exact sh1Ok_leaf s d x1 y1 x2 y2 _ _
      · rw [if_neg h4]
        exact sh1Ok_internal s d x1 y1 x2 y2 _ _ _ _ _ _
          (ih _ _ _ _ _ _ _) (ih _ _ _ _ _ _ _) (ih _ _ _ _ _ _ _) (ih _ _ _ _ _ _ _)

end QState

namespace QNode

variable {α : Type}

theorem census_subAt_le (t : QNode α) (p : List Nat) (dd : Nat) :
    (t.subAt p).census dd ≤ t.census dd := by
  induction p generalizing t with
  | nil => simp [subAt]
  | cons i p ih =>
      cases t with
      | nil => rw [show (nil : QNode α).subAt (i :: p) = nil by
                    simp [subAt, child, subAt_nil]]
      | mk lf d x1 y1 x2 y2 c0 c1 c2 c3 os =>
          have hb : (0 : Int) ≤ if d = dd then 1 else 0 := by split <;> omega
          have q0 := census_nonneg c0 dd
          have q1 := census_nonneg c1 dd
          have q2 := census_nonneg c2 dd
          have q3 := census_nonneg c3 dd
          match i with
          | 0 =>
              have := ih (t := c0)
              simp only [subAt, child, census] at *
              omega
          | 1 =>
              have := ih (t := c1)
              simp only [subAt, child, census] at *
              omega
          | 2 =>
              have := ih (t := c2)
              simp only [subAt, child, census] at *
              omega
          | 3 =>
              have := ih (t := c3)
              simp only [subAt, child, census] at *
              omega
          | (m + 4) =>
              rw [show (mk lf d x1 y1 x2 y2 c0 c1 c2 c3 os).subAt ((m + 4) :: p) = nil by
                    simp [subAt, child_add_four, subAt_nil]]
              simp only [census]
              omega

theorem census_children (t : QNode α) (hv : t.isNil = false) (dd : Nat) :
    t.census dd = (if t.depth = dd then 1 else 0) +
      ((t.child 0).census dd + (t.child 1).census dd +
        (t.child 2).census dd + (t.child 3).census dd) := by
  cases t
  · simp [isNil] at hv
  · rfl

theorem leafOk_child {t : QNode α} (h : t.leafOk) (i : Nat) :
    (t.child i).leafOk := by
  cases t with
  | nil => exact leafOk_nil
  | mk lf d x1 y1 x2 y2 c0 c1 c2 c3 os =>
      obtain ⟨-, k0, k1, k2, k3⟩ := h
      match i with
      | 0 => exact k0
      | 1 => exact k1
      | 2 => exact k2
      | 3 => exact k3
      | (m + 4) => rw [child_add_four]; exact leafOk_nil

end QNode

namespace QState

variable {α : Type} [DecidableEq α]

theorem findIdAux_sound {s : QState α} {id : Nat} :
    ∀ {t : QNode α} {p : List Nat}, s.findIdAux id t = some p →
      (t.subAt p).isNil = false ∧ s.nodeId (t.subAt p) = id := by
  intro t
  induction t with
  | nil => intro p h; simp [findIdAux] at h
  | mk lf d x1 y1 x2 y2 c0 c1 c2 c3 os h0 h1 h2 h3 =>
      intro p h
      rw [findIdAux] at h
      by_cases hid : s.nodeId (QNode.mk lf d x1 y1 x2 y2 c0 c1 c2 c3 os) = id
      · rw [if_pos hid] at h
        cases h
        exact ⟨rfl, hid⟩
      · rw [if_neg hid] at h
        cases e0 : s.findIdAux id c0 with
        | some q =>
            rw [e0] at h
            cases h
            simpa [QNode.subAt, QNode.child] using h0 e0
        | none =>
        rw [e0] at h
        cases e1 : s.findIdAux id c1 with
        | some q =>
            rw [e1] at h
            cases h
            simpa [QNode.subAt, QNode.child] using h1 e1
        | none =>
        rw [e1] at h
        cases e2 : s.findIdAux id c2 with
        | some q =>
            rw [e2] at h
            cases h
            simpa [QNode.subAt, QNode.child] using h2 e2
        | none =>
        rw [e2] at h
        cases e3 : s.findIdAux id c3 with
        | some q =>
            rw [e3] at h
            cases h
            simpa [QNode.subAt, QNode.child] using h3 e3
        | none =>
            rw [e3] at h
            cases h

theorem mFindP_sound {s : QState α} {id : Nat} {p : List Nat}
    (h : s.mFindP id = some p) :
    (s.root.subAt p).isNil = false ∧ s.nodeId (s.root.subAt p) = id :=
  findIdAux_sound h

theorem findLoopP_sound {s : QState α} {x y : Int} :
    ∀ {fuel : Nat} {l r : Int} {p : List Nat}, s.findLoopP x y fuel l r = some p →
      (s.root.subAt p).isNil = false ∧ (s.root.subAt p).leafFlag = true := by
  intro fuel
  induction fuel with
  | zero => intro l r p h; simp [findLoopP] at h
  | succ fuel ih =>
      intro l r p h
      rw [findLoopP] at h
      by_cases hlr : l ≤ r
      · rw [if_pos hlr] at h
        simp only [] at h
        cases e : s.mFindP (pack ((l + r) / 2).toNat x y s.w s.h) with
        | none => rw [e] at h; exact ih h
        | some q =>
            rw [e] at h
            have h' : (if (s.root.subAt q).leafFlag = true then some q
                else s.findLoopP x y fuel ((l + r) / 2 + 1) r) = some p := h
            by_cases hq : (s.root.subAt q).leafFlag = true
            · rw [if_pos hq] at h'
              cases h'
              exact ⟨(mFindP_sound e).1, hq⟩
            · rw [if_neg hq] at h'
              exact ih h'
      · rw [if_neg hlr] at h
        cases h

/-- The census invariant survives `splitHelper2At` on a live leaf. -/
theorem splitHelper2At_CS {s : QState α} {p : List Nat}
    (hv : (s.root.subAt p).isNil = false)
    (hleaf : (s.root.subAt p).leafFlag = true) (H : CS s) :
    CS (s.splitHelper2At p) ∧
    (s.splitHelper2At p).w = s.w ∧ (s.splitHelper2At p).h = s.h ∧
    (s.splitHelper2At p).ssf = s.ssf ∧
    (s.splitHelper2At p).numObjects = s.numObjects := by
  obtain ⟨acc, dom, att, lok⟩ := H
  rw [splitHelper2At]
  simp only []
  rw [if_pos hleaf]
  set n := s.root.subAt p with hn
  set d := n.depth with hd
  set x1 := n.px1
  set y1 := n.py1
  set x2 := n.px2
  set y2 := n.py2
  set x3 := x1 + (x2 - x1) / 2
  set y3 := y1 + (y2 - y1) / 2
  set r0 := sh1 64 s (d + 1) x1 y1 x3 y3 n.objs with hr0
  set r1 := sh1 64 r0.2.2 (d + 1) x1 (y3 + 1) x3 y2 r0.2.1 with hr1
  set r2 := sh1 64 r1.2.2 (d + 1) (x3 + 1) y1 x2 y3 r1.2.1 with hr2
  set r3 := sh1 64 r2.2.2 (d + 1) (x3 + 1) (y3 + 1) x2 y2 r2.2.1 with hr3
  obtain ⟨w0, h0, f0, t0, o0, n0, l0, m0, c0, a0, k0⟩ := sh1_spec 64 s (d + 1) x1 y1 x3 y3 n.objs
  obtain ⟨w1, h1, f1, t1, o1, n1, l1, m1, c1, a1, k1⟩ :=
    sh1_spec 64 r0.2.2 (d + 1) x1 (y3 + 1) x3 y2 r0.2.1
  obtain ⟨w2, h2, f2, t2, o2, n2, l2, m2, c2, a2, k2⟩ :=
    sh1_spec 64 r1.2.2 (d + 1) (x3 + 1) y1 x2 y3 r1.2.1
  obtain ⟨w3, h3, f3, t3, o3, n3, l3, m3, c3, a3, k3⟩ :=
    sh1_spec 64 r2.2.2 (d + 1) (x3 + 1) (y3 + 1) x2 y2 r2.2.1
  rw [← hr0] at w0 h0 f0 t0 o0 n0 l0 m0 c0 a0 k0
  rw [← hr1] at w1 h1 f1 t1 o1 n1 l1 m1 c1 a1 k1
  rw [← hr2] at w2 h2 f2 t2 o2 n2 l2 m2 c2 a2 k2
  rw [← hr3] at w3 h3 f3 t3 o3 n3 l3 m3 c3 a3 k3
  have troot : r3.2.2.root = s.root := by rw [t3, t2, t1, t0]
  set newNode : QNode α :=
    QNode.mk false d x1 y1 x2 y2 r0.1 r1.1 r2.1 r3.1 r3.2.1 with hnew
  have hsub : ∀ dd, n.census dd = if d = dd then 1 else 0 := fun dd =>
    QNode.census_of_leaf (QNode.subAt_leafOk lok p) hleaf dd
  have hnewc : ∀ dd, newNode.census dd =
      (if d = dd then 1 else 0) +
        (r0.1.census dd + r1.1.census dd + r2.1.census dd + r3.1.census dd) := by
    intro dd; rfl
  have hnn : ∀ dd, 0 ≤ s.ndt dd := fun dd =>
    (acc dd) ▸ QNode.census_nonneg s.root dd
  have hndt : ∀ dd, r3.2.2.ndt dd = s.ndt dd +
      (r0.1.census dd + r1.1.census dd + r2.1.census dd + r3.1.census dd) := by
    intro dd
    have := n0 dd
    have := n1 dd
    have := n2 dd
    have := n3 dd
    omega
  have hmax : s.maxd ≤ r3.2.2.maxd := le_trans m0 (le_trans m1 (le_trans m2 m3))
  refine ⟨⟨?_, ?_, ?_, ?_⟩, ?_, ?_, ?_, ?_⟩
  · show ∀ dd, r3.2.2.ndt dd = ((r3.2.2.root).setAt p newNode).census dd
    rw [troot]
    intro dd
    have hset := QNode.setAt_census newNode hv dd
    simp only [← hn] at hset
    simp only [hset, hsub dd, hnewc dd, hndt dd]
    have hacc := acc dd
    omega
  · show ∀ dd, r3.2.2.ndt dd ≠ 0 → dd ≤ r3.2.2.maxd
    intro dd hne
    rw [hndt dd] at hne
    have q0 := QNode.census_nonneg r0.1 dd
    have q1 := QNode.census_nonneg r1.1 dd
    have q2 := QNode.census_nonneg r2.1 dd
    have q3 := QNode.census_nonneg r3.1 dd
    have : s.ndt dd ≠ 0 ∨ r0.1.census dd ≠ 0 ∨ r1.1.census dd ≠ 0 ∨
        r2.1.census dd ≠ 0 ∨ r3.1.census dd ≠ 0 := by
      have := hnn dd
      omega
    rcases this with h | h | h | h | h
    · exact le_trans (dom dd h) hmax
    · exact le_trans (c0 dd h) (le_trans m1 (le_trans m2 m3))
    · exact le_trans (c1 dd h) (le_trans m2 m3)
    · exact le_trans (c2 dd h) m3
    · exact c3 dd h
  · show r3.2.2.maxd = 0 ∨ r3.2.2.ndt r3.2.2.maxd ≠ 0
    have key : r3.2.2.maxd = s.maxd ∨
        (r0.1.census r3.2.2.maxd ≠ 0 ∨ r1.1.census r3.2.2.maxd ≠ 0 ∨
          r2.1.census r3.2.2.maxd ≠ 0 ∨ r3.1.census r3.2.2.maxd ≠ 0) := by
      rcases a3 with a3 | a3
      case inr => exact Or.inr (Or.inr (Or.inr (Or.inr a3)))
      rw [a3]
      rcases a2 with a2 | a2
      case inr => exact Or.inr (Or.inr (Or.inr (Or.inl a2)))
      rw [a2]
      rcases a1 with a1 | a1
      case inr => exact Or.inr (Or.inr (Or.inl a1))
      rw [a1]
      rcases a0 with a0 | a0
      case inr => exact Or.inr (Or.inl a0)
      rw [a0]
      exact Or.inl rfl
    have q0 := QNode.census_nonneg r0.1 r3.2.2.maxd
    have q1 := QNode.census_nonneg r1.1 r3.2.2.maxd
    have q2 := QNode.census_nonneg r2.1 r3.2.2.maxd
    have q3 := QNode.census_nonneg r3.1 r3.2.2.maxd
    rcases key with key | key
    · rcases att with hz | hz
      · left
        exact key.trans hz
      · right
        rw [hndt, key]
        have p0 := QNode.census_nonneg r0.1 s.maxd
        have p1 := QNode.census_nonneg r1.1 s.maxd
        have p2 := QNode.census_nonneg r2.1 s.maxd
        have p3 := QNode.census_nonneg r3.1 s.maxd
        have hs := hnn s.maxd
        omega
    · right
      rw [hndt]
      have := hnn r3.2.2.maxd
      omega
  · show ((r3.2.2.root).setAt p newNode).leafOk
    rw [troot]
    refine QNode.setAt_leafOk hv lok ?_
    exact ⟨fun h => by simp at h, k0, k1, k2, k3⟩
  · show r3.2.2.w = s.w
    rw [w3, w2, w1, w0]
  · show r3.2.2.h = s.h
    rw [h3, h2, h1, h0]
  · show r3.2.2.ssf = s.ssf
    rw [f3, f2, f1, f0]
  · show r3.2.2.numObjects = s.numObjects
    rw [o3, o2, o1, o0]

theorem isNil_false_of_leafFlag {t : QNode α} (h : t.leafFlag = true) :
    t.isNil = false := by
  cases t
  · simp [QNode.leafFlag] at h
  · rfl

/-- `trySplitDown` preserves the census invariant. -/
theorem trySplitDownAt_CS {s : QState α} {p : List Nat} (H : CS s) :
    CS (s.trySplitDownAt p).1 ∧
    (s.trySplitDownAt p).1.w = s.w ∧ (s.trySplitDownAt p).1.h = s.h ∧
    (s.trySplitDownAt p).1.ssf = s.ssf ∧
    (s.trySplitDownAt p).1.numObjects = s.numObjects := by
  rw [trySplitDownAt]
  split
  · rename_i hc
    exact splitHelper2At_CS (isNil_false_of_leafFlag hc.1) hc.1 H
  · exact ⟨H, rfl, rfl, rfl, rfl⟩

theorem childDec_nonneg (c : QNode α) (dd : Nat) : 0 ≤ childDec c dd := by
  rw [childDec]; split <;> omega

theorem childDec_le_census (c : QNode α) (dd : Nat) :
    childDec c dd ≤ c.census dd := by
  cases c with
  | nil => simp [childDec, QNode.isNil, QNode.census]
  | mk lf d x1 y1 x2 y2 c0 c1 c2 c3 os =>
      have q0 := QNode.census_nonneg c0 dd
      have q1 := QNode.census_nonneg c1 dd
      have q2 := QNode.census_nonneg c2 dd
      have q3 := QNode.census_nonneg c3 dd
      have hb : (0 : Int) ≤ if d = dd then 1 else 0 := by split <;> omega
      rw [childDec]
      simp only [QNode.isNil, QNode.depth, QNode.census]
      split
      · rename_i hc
        rw [if_pos hc.2]
        omega
      · omega

theorem childDec_self {c : QNode α} (hn : c.isNil = false) :
    childDec c c.depth = 1 := by
  rw [childDec, if_pos ⟨hn, rfl⟩]

theorem census_eq_childDec {c : QNode α} (hok : c.leafOk)
    (hc : c.isNil = true ∨ c.leafFlag = true) (dd : Nat) :
    c.census dd = childDec c dd := by
  rcases hc with h | h
  · cases c
    · simp [QNode.census, childDec, QNode.isNil]
    · simp [QNode.isNil] at h
  · rw [QNode.census_of_leaf hok h dd, childDec]
    have hn : c.isNil = false := isNil_false_of_leafFlag h
    by_cases hd : c.depth = dd
    · rw [if_pos hd, if_pos ⟨hn, hd⟩]
    · rw [if_neg hd, if_neg (fun e => hd e.2)]

/-- What `mergeable` guarantees about the parent node it returns: it is a
live node and each of its four child slots is null or a leaf. -/
theorem mergeableAt_sound {s : QState α} {p pp : List Nat}
    (h : s.mergeableAt p = some pp) :
    (s.root.subAt pp).isNil = false ∧
    (((s.root.subAt pp).child 0).isNil = true ∨
      ((s.root.subAt pp).child 0).leafFlag = true) ∧
    (((s.root.subAt pp).child 1).isNil = true ∨
      ((s.root.subAt pp).child 1).leafFlag = true) ∧
    (((s.root.subAt pp).child 2).isNil = true ∨
      ((s.root.subAt pp).child 2).leafFlag = true) ∧
    (((s.root.subAt pp).child 3).isNil = true ∨
      ((s.root.subAt pp).child 3).leafFlag = true) := by
  rw [mergeableAt] at h
  split at h
  · exact absurd h (by simp)
  · simp only [] at h
    split at h
    · exact absurd h (by simp)
    · split at h
      · exact absurd h (by simp)
      · split at h
        · exact absurd h (by simp)
        · rename_i pp0 heq
          split at h
          · exact absurd h (by simp)
          · rename_i hok
            split at h
            · exact absurd h (by simp)
            · rename_i hsp
              rw [Option.some.injEq] at h
              subst h
              refine ⟨(mFindP_sound heq).1, ?_⟩
              simp only [not_not, decide_eq_true_eq] at hok
              exact hok

/-- Effect of one `mergeHelper` iteration on the counters. -/
theorem mergeStep_spec (acc : List (ObjKey α) × QState α) (c : QNode α)
    (hdom : ∀ dd, acc.2.ndt dd ≠ 0 → dd ≤ acc.2.maxd)
    (hatt : acc.2.maxd = 0 ∨ acc.2.ndt acc.2.maxd ≠ 0)
    (h1 : c.isNil = false → 1 ≤ acc.2.ndt c.depth) :
    (mergeStep acc c).2.w = acc.2.w ∧ (mergeStep acc c).2.h = acc.2.h ∧
    (mergeStep acc c).2.ssf = acc.2.ssf ∧
    (mergeStep acc c).2.root = acc.2.root ∧
    (mergeStep acc c).2.numObjects = acc.2.numObjects ∧
    (∀ dd, (mergeStep acc c).2.ndt dd = acc.2.ndt dd - childDec c dd) ∧
    (mergeStep acc c).2.maxd ≤ acc.2.maxd ∧
    (∀ dd, (mergeStep acc c).2.ndt dd ≠ 0 → dd ≤ (mergeStep acc c).2.maxd) ∧
    ((mergeStep acc c).2.maxd = 0 ∨
      (mergeStep acc c).2.ndt (mergeStep acc c).2.maxd ≠ 0) := by
  by_cases hn : c.isNil = true
  · rw [mergeStep, if_pos hn]
    refine ⟨rfl, rfl, rfl, rfl, rfl, ?_, le_refl _, hdom, hatt⟩
    intro dd
    rw [childDec, if_neg (by simp [hn])]
    omega
  · have hn' : c.isNil = false := by simpa using hn
    rw [mergeStep, if_neg hn]
    obtain ⟨ew, eh, ef, er, eo, el, endt, em, edom, eatt⟩ :=
      removeEff_spec acc.2 c.depth hdom hatt (h1 hn')
    refine ⟨ew, eh, ef, er, eo, ?_, em, edom, eatt⟩
    intro dd
    rw [endt dd, childDec]
    by_cases hdd : c.depth = dd
    · simp [hn', hdd]
    · simp [hdd, Ne.symm hdd]

/-- `mergeHelper` preserves the census invariant. -/
theorem mergeHelperAt_CS :
    ∀ (fuel : Nat) (s : QState α) (p : List Nat), CS s →
      CS (s.mergeHelperAt fuel p).1 ∧
      (s.mergeHelperAt fuel p).1.w = s.w ∧ (s.mergeHelperAt fuel p).1.h = s.h ∧
      (s.mergeHelperAt fuel p).1.ssf = s.ssf ∧
      (s.mergeHelperAt fuel p).1.numObjects = s.numObjects := by
  intro fuel
  induction fuel with
  | zero => intro s p H; exact ⟨H, rfl, rfl, rfl, rfl⟩
  | succ fuel ih =>
      intro s p H
      obtain ⟨acc, dom, att, lok⟩ := H
      rw [mergeHelperAt]
      cases e : s.mergeableAt p with
      | none => exact ⟨⟨acc, dom, att, lok⟩, rfl, rfl, rfl, rfl⟩
      | some pp =>
          simp only []
          obtain ⟨hv, ok0, ok1, ok2, ok3⟩ := mergeableAt_sound e
          have lokp := QNode.subAt_leafOk lok pp
          set par := s.root.subAt pp with hpar
          have lokc0 := QNode.leafOk_child lokp 0
          have lokc1 := QNode.leafOk_child lokp 1
          have lokc2 := QNode.leafOk_child lokp 2
          have lokc3 := QNode.leafOk_child lokp 3
          have hub : ∀ dd, childDec (par.child 0) dd + childDec (par.child 1) dd +
              childDec (par.child 2) dd + childDec (par.child 3) dd ≤ s.ndt dd := by
            intro dd
            have hc := QNode.census_subAt_le s.root pp dd
            rw [← hpar] at hc
            have hd := QNode.census_children par hv dd
            have e0 := childDec_le_census (par.child 0) dd
            have e1 := childDec_le_census (par.child 1) dd
            have e2 := childDec_le_census (par.child 2) dd
            have e3 := childDec_le_census (par.child 3) dd
            have hind : (0 : Int) ≤ if par.depth = dd then 1 else 0 := by
              split <;> omega
            rw [acc dd]
            omega
          have h10 : (par.child 0).isNil = false → 1 ≤ s.ndt (par.child 0).depth := by
            intro hn
            have hu := hub (par.child 0).depth
            have hs := childDec_self hn
            have q1 := childDec_nonneg (par.child 1) (par.child 0).depth
            have q2 := childDec_nonneg (par.child 2) (par.child 0).depth
            have q3 := childDec_nonneg (par.child 3) (par.child 0).depth
            omega
          obtain ⟨w0, hh0, f0, t0, o0, n0, m0, d0, a0⟩ :=
            mergeStep_spec (par.objs, s) (par.child 0) dom att h10
          simp only [] at w0 hh0 f0 t0 o0 n0 m0 d0 a0
          set b0 := mergeStep (par.objs, s) (par.child 0) with hb0
          have h11 : (par.child 1).isNil = false → 1 ≤ b0.2.ndt (par.child 1).depth := by
            intro hn
            rw [n0 (par.child 1).depth]
            have hu := hub (par.child 1).depth
            have hs := childDec_self hn
            have q0 := childDec_nonneg (par.child 0) (par.child 1).depth
            have q2 := childDec_nonneg (par.child 2) (par.child 1).depth
            have q3 := childDec_nonneg (par.child 3) (par.child 1).depth
            omega
          obtain ⟨w1, hh1, f1, t1, o1, n1, m1, d1, a1⟩ :=
            mergeStep_spec b0 (par.child 1) d0 a0 h11
          set b1 := mergeStep b0 (par.child 1) with hb1
          have h12 : (par.child 2).isNil = false → 1 ≤ b1.2.ndt (par.child 2).depth := by
            intro hn
            rw [n1 (par.child 2).depth, n0 (par.child 2).depth]
            have hu := hub (par.child 2).depth
            have hs := childDec_self hn
            have q0 := childDec_nonneg (par.child 0) (par.child 2).depth
            have q1 := childDec_nonneg (par.child 1) (par.child 2).depth
            have q3 := childDec_nonneg (par.child 3) (par.child 2).depth
            omega
          obtain ⟨w2, hh2, f2, t2, o2, n2, m2, d2, a2⟩ :=
            mergeStep_spec b1 (par.child 2) d1 a1 h12
          set b2 := mergeStep b1 (par.child 2) with hb2
          have h13 : (par.child 3).isNil = false → 1 ≤ b2.2.ndt (par.child 3).depth := by
            intro hn
            rw [n2 (par.child 3).depth, n1 (par.child 3).depth, n0 (par.child 3).depth]
            have hu := hub (par.child 3).depth
            have hs := childDec_self hn
            have q0 := childDec_nonneg (par.child 0) (par.child 3).depth
            have q1 := childDec_nonneg (par.child 1) (par.child 3).depth
            have q2 := childDec_nonneg (par.child 2) (par.child 3).depth
            omega
          obtain ⟨w3, hh3, f3, t3, o3, n3, m3, d3, a3⟩ :=
            mergeStep_spec b2 (par.child 3) d2 a2 h13
          set b3 := mergeStep b2 (par.child 3) with hb3
          have troot : b3.2.root = s.root := by rw [t3, t2, t1, t0]
          have hndt : ∀ dd, b3.2.ndt dd = s.ndt dd -
              (childDec (par.child 0) dd + childDec (par.child 1) dd +
                childDec (par.child 2) dd + childDec (par.child 3) dd) := by
            intro dd
            rw [n3 dd, n2 dd, n1 dd, n0 dd]
            omega
          have hCS : CS { b3.2 with
              root := b3.2.root.setAt pp (QNode.mk true par.depth par.px1 par.py1
                par.px2 par.py2 .nil .nil .nil .nil b3.1),
              numLeafNodes := b3.2.numLeafNodes + 1 } := by
            refine ⟨?_, ?_, ?_, ?_⟩
            · show ∀ dd, b3.2.ndt dd =
                ((b3.2.root.setAt pp (QNode.mk true par.depth par.px1 par.py1
                  par.px2 par.py2 .nil .nil .nil .nil b3.1)).census dd)
              rw [troot]
              intro dd
              have hset := QNode.setAt_census (QNode.mk true par.depth par.px1 par.py1
                par.px2 par.py2 .nil .nil .nil .nil b3.1) hv dd
              rw [← hpar] at hset
              have hnewc : (QNode.mk true par.depth par.px1 par.py1
                  par.px2 par.py2 (QNode.nil) (QNode.nil) (QNode.nil) (QNode.nil)
                  b3.1).census dd = (if par.depth = dd then 1 else 0) := by
                simp [QNode.census]
              have hd := QNode.census_children par hv dd
              have ec0 := census_eq_childDec lokc0 ok0 dd
              have ec1 := census_eq_childDec lokc1 ok1 dd
              have ec2 := census_eq_childDec lokc2 ok2 dd
              have ec3 := census_eq_childDec lokc3 ok3 dd
              have hacc := acc dd
              rw [hndt dd, hset, hnewc]
              omega
            · show ∀ dd, b3.2.ndt dd ≠ 0 → dd ≤ b3.2.maxd
              exact d3
            · show b3.2.maxd = 0 ∨ b3.2.ndt b3.2.maxd ≠ 0
              exact a3
            · show (b3.2.root.setAt pp (QNode.mk true par.depth par.px1 par.py1
                par.px2 par.py2 .nil .nil .nil .nil b3.1)).leafOk
              rw [troot]
              exact QNode.setAt_leafOk hv lok
                ⟨fun _ => ⟨rfl, rfl, rfl, rfl⟩, trivial, trivial, trivial, trivial⟩
          obtain ⟨HF, wF, hF, fF, oF⟩ := ih _ pp hCS
          refine ⟨HF, ?_, ?_, ?_, ?_⟩
          · rw [wF]
            show b3.2.w = s.w
            rw [w3, w2, w1, w0]
          · rw [hF]
            show b3.2.h = s.h
            rw [hh3, hh2, hh1, hh0]
          · rw [fF]
            show b3.2.ssf = s.ssf
            rw [f3, f2, f1, f0]
          · rw [oF]
            show b3.2.numObjects = s.numObjects
            rw [o3, o2, o1, o0]

/-- `tryMergeUp` preserves the census invariant. -/
theorem tryMergeUpAt_CS {s : QState α} {p : List Nat} (H : CS s) :
    CS (s.tryMergeUpAt p).1 ∧
    (s.tryMergeUpAt p).1.w = s.w ∧ (s.tryMergeUpAt p).1.h = s.h ∧
    (s.tryMergeUpAt p).1.ssf = s.ssf ∧
    (s.tryMergeUpAt p).1.numObjects = s.numObjects := by
  rw [tryMergeUpAt]
  exact mergeHelperAt_CS 64 s p H

/-- Replacing only the object container of a live node (and the `numObjects`
counter) keeps the census invariant. -/
theorem setObjsAt_CS {s : QState α} {p : List Nat}
    (hv : (s.root.subAt p).isNil = false) (os : List (ObjKey α)) (no : Int)
    (H : CS s) :
    CS { s with
         root := s.root.setAt p ((s.root.subAt p).setObjs os),
         numObjects := no } := by
  obtain ⟨acc, dom, att, lok⟩ := H
  refine ⟨?_, dom, att, ?_⟩
  · intro dd
    show s.ndt dd = (s.root.setAt p ((s.root.subAt p).setObjs os)).census dd
    rw [QNode.setAt_census _ hv dd, QNode.setObjs_census]
    have := acc dd
    omega
  · show (s.root.setAt p ((s.root.subAt p).setObjs os)).leafOk
    exact QNode.setAt_leafOk hv lok
      (QNode.setObjs_leafOk os (QNode.subAt_leafOk lok p))

/-- `Add` preserves the census invariant. -/
theorem Add_CS {s : QState α} (x y : Int) (o : α) (H : CS s) :
    CS (s.Add x y o) := by
  rw [Add]
  split
  · exact H
  · cases e : s.findLoopP x y 64 0 (s.maxd : Int) with
    | none => exact H
    | some p =>
        obtain ⟨hv, hleaf⟩ := findLoopP_sound e
        simp only []
        split
        · exact H
        · have H1 := setObjsAt_CS hv ((x, y, o) :: (s.root.subAt p).objs)
            (s.numObjects + 1) H
          split
          · exact (trySplitDownAt_CS H1).1
          · exact (tryMergeUpAt_CS (trySplitDownAt_CS H1).1).1

/-- `Remove` preserves the census invariant. -/
theorem Remove_CS {s : QState α} (x y : Int) (o : α) (H : CS s) :
    CS (s.Remove x y o) := by
  rw [Remove]
  split
  · exact H
  · cases e : s.findLoopP x y 64 0 (s.maxd : Int) with
    | none => exact H
    | some p =>
        obtain ⟨hv, hleaf⟩ := findLoopP_sound e
        simp only []
        split
        · have H1 := setObjsAt_CS hv
            ((s.root.subAt p).objs.erase (x, y, o)) (s.numObjects - 1) H
          split
          · exact (tryMergeUpAt_CS H1).1
          · exact (trySplitDownAt_CS (tryMergeUpAt_CS H1).1).1
        · exact H

/-- A freshly built tree satisfies the census invariant. -/
theorem Build_CS (w h : Int) (ssf : Option (Int → Int → Int → Bool)) :
    CS ((init w h ssf : QState α).Build) := by
  have H1 : CS (({ ((init w h ssf : QState α)).createEff true 0 with
      root := QNode.mk true 0 0 0 (h - 1) (w - 1) .nil .nil .nil .nil [] } :
        QState α)) := by
    refine ⟨?_, ?_, ?_, ?_⟩
    · intro dd
      by_cases hdd : dd = 0
      · subst hdd
        simp [init, createEff, QNode.census]
      · simp [init, createEff, QNode.census, hdd, Ne.symm hdd]
    · intro dd hne
      by_cases hdd : dd = 0
      · subst hdd
        exact Nat.zero_le _
      · exfalso
        apply hne
        simp [init, createEff, hdd]
    · exact Or.inl rfl
    · exact ⟨fun _ => ⟨rfl, rfl, rfl, rfl⟩, trivial, trivial, trivial, trivial⟩
  rw [Build]
  exact (trySplitDownAt_CS H1).1

/-- Every reachable state satisfies the census invariant. -/
theorem Reachable_CS {s : QState α} (h : Reachable s) : CS s := by
  induction h with
  | build w h ssf hw1 hw2 hh1 hh2 => exact Build_CS w h ssf
  | add x y o a ih => exact Add_CS x y o ih
  | remove x y o a ih => exact Remove_CS x y o ih

/-- The depth of every live node of a reachable tree is at most `Depth()`. -/
theorem depth_le_Depth {s : QState α} (hs : Reachable s) {n : QNode α}
    (hn : n ∈ s.root.allNodes) : n.depth ≤ s.Depth := by
  obtain ⟨hacc, hdom, hatt, -⟩ := Reachable_CS hs
  show n.depth ≤ s.maxd
  apply hdom
  rw [hacc n.depth]
  have := QNode.census_pos_of_mem hn
  omega

theorem length_filter_split {γ : Type} (l : List γ) (f : γ → Bool) :
    (l.filter f).length + (l.filter (fun a => ¬ f a)).length = l.length := by
  have hfe : (fun a => (¬ f a : Bool)) = (fun a => !f a) := by
    funext a
    by_cases h : f a = true <;> simp [h]
  rw [hfe]
  exact (List.length_eq_length_filter_add f).symm

theorem splitable_congr {s s' : QState α} (h : s.ssf = s'.ssf)
    (x1 y1 x2 y2 n : Int) :
    s.splitable x1 y1 x2 y2 n = s'.splitable x1 y1 x2 y2 n := by
  rw [splitable, splitable, h]

/-- `splitHelper1` conserves objects: what the built subtree holds plus what
flows back upstream is exactly what came from upstream. -/
theorem sh1_conserve :
    ∀ (fuel : Nat) (s : QState α) (d : Nat) (x1 y1 x2 y2 : Int)
      (up : List (ObjKey α)),
      (sh1 fuel s d x1 y1 x2 y2 up).1.subCount +
        (sh1 fuel s d x1 y1 x2 y2 up).2.1.length = up.length := by
  intro fuel
  induction fuel with
  | zero =>
      intro s d x1 y1 x2 y2 up
      simp [sh1, QNode.subCount]
  | succ fuel ih =>
      intro s d x1 y1 x2 y2 up
      rw [sh1]
      by_cases h1 : ¬(0 ≤ x1 ∧ x1 < s.h ∧ 0 ≤ y1 ∧ y1 < s.w)
      · rw [if_pos h1]; simp [QNode.subCount]
      rw [if_neg h1]
      by_cases h2 : ¬(0 ≤ x2 ∧ x2 < s.h ∧ 0 ≤ y2 ∧ y2 < s.w)
      · rw [if_pos h2]; simp [QNode.subCount]
      rw [if_neg h2]
      by_cases h3 : ¬(x1 ≤ x2 ∧ y1 ≤ y2)
      · rw [if_pos h3]; simp [QNode.subCount]
      rw [if_neg h3]
      simp only []
      set objs := up.filter (keyIn x1 y1 x2 y2) with hobjs
      set up2 := up.filter (fun k => ¬ keyIn x1 y1 x2 y2 k) with hup2
      have hsplit : objs.length + up2.length = up.length := by
        rw [hobjs, hup2]
        exact length_filter_split up (keyIn x1 y1 x2 y2)
      by_cases h4 : ¬ s.splitable x1 y1 x2 y2 objs.length
      · rw [if_pos h4]
        simp only [QNode.subCount]
        omega
      · rw [if_neg h4]
        set x3 := x1 + (x2 - x1) / 2 with hx3
        set y3 := y1 + (y2 - y1) / 2 with hy3
        set r0 := sh1 fuel (s.createEff false d) (d + 1) x1 y1 x3 y3 objs with hr0
        set r1 := sh1 fuel r0.2.2 (d + 1) x1 (y3 + 1) x3 y2 r0.2.1 with hr1
        set r2 := sh1 fuel r1.2.2 (d + 1) (x3 + 1) y1 x2 y3 r1.2.1 with hr2
        set r3 := sh1 fuel r2.2.2 (d + 1) (x3 + 1) (y3 + 1) x2 y2 r2.2.1 with hr3
        have i0 := ih (s.createEff false d) (d + 1) x1 y1 x3 y3 objs
        have i1 := ih r0.2.2 (d + 1) x1 (y3 + 1) x3 y2 r0.2.1
        have i2 := ih r1.2.2 (d + 1) (x3 + 1) y1 x2 y3 r1.2.1
        have i3 := ih r2.2.2 (d + 1) (x3 + 1) (y3 + 1) x2 y2 r2.2.1
        rw [← hr0] at i0
        rw [← hr1] at i1
        rw [← hr2] at i2
        rw [← hr3] at i3
        simp only [QNode.subCount]
        omega

/-- Every node of a subtree that `splitHelper1` builds satisfies the two
node-local invariants: a non-leaf is reported splittable for its rectangle
and its subtree object count, a leaf is reported not splittable for its
rectangle and its own object count. -/
theorem sh1_I4I5 :
    ∀ (fuel : Nat) (s : QState α) (d : Nat) (x1 y1 x2 y2 : Int)
      (up : List (ObjKey α)) (n : QNode α),
      n ∈ (sh1 fuel s d x1 y1 x2 y2 up).1.allNodes →
      (n.leafFlag = false →
        s.splitable n.px1 n.py1 n.px2 n.py2 (n.subCount : Int) = true) ∧
      (n.leafFlag = true →
        s.splitable n.px1 n.py1 n.px2 n.py2 (n.objs.length : Int) = false) := by
  intro fuel
  induction fuel with
  | zero =>
      intro s d x1 y1 x2 y2 up n hn
      simp [sh1, QNode.allNodes] at hn
  | succ fuel ih =>
      intro s d x1 y1 x2 y2 up n hn
      rw [sh1] at hn
      by_cases h1 : ¬(0 ≤ x1 ∧ x1 < s.h ∧ 0 ≤ y1 ∧ y1 < s.w)
      · rw [if_pos h1] at hn; simp [QNode.allNodes] at hn
      rw [if_neg h1] at hn
      by_cases h2 : ¬(0 ≤ x2 ∧ x2 < s.h ∧ 0 ≤ y2 ∧ y2 < s.w)
      · rw [if_pos h2] at hn; simp [QNode.allNodes] at hn
      rw [if_neg h2] at hn
      by_cases h3 : ¬(x1 ≤ x2 ∧ y1 ≤ y2)
      · rw [if_pos h3] at hn; simp [QNode.allNodes] at hn
      rw [if_neg h3] at hn
      simp only [] at hn
      set objs := up.filter (keyIn x1 y1 x2 y2) with hobjs
      by_cases h4 : ¬ s.splitable x1 y1 x2 y2 objs.length
      · rw [if_pos h4] at hn
        simp only [QNode.allNodes, List.append_nil] at hn
        have hn' : n = QNode.mk true d x1 y1 x2 y2 .nil .nil .nil .nil objs := by
          simpa [QNode.allNodes] using hn
        subst hn'
        refine ⟨fun h => by simp [QNode.leafFlag] at h, fun _ => ?_⟩
        simp only [QNode.px1, QNode.py1, QNode.px2, QNode.py2, QNode.objs]
        simp only [Bool.not_eq_true] at h4
        exact h4
      · rw [if_neg h4] at hn
        rw [not_not] at h4
        set x3 := x1 + (x2 - x1) / 2 with hx3
        set y3 := y1 + (y2 - y1) / 2 with hy3
        set r0 := sh1 fuel (s.createEff false d) (d + 1) x1 y1 x3 y3 objs with hr0
        set r1 := sh1 fuel r0.2.2 (d + 1) x1 (y3 + 1) x3 y2 r0.2.1 with hr1
        set r2 := sh1 fuel r1.2.2 (d + 1) (x3 + 1) y1 x2 y3 r1.2.1 with hr2
        set r3 := sh1 fuel r2.2.2 (d + 1) (x3 + 1) (y3 + 1) x2 y2 r2.2.1 with hr3
        have ef0 : (s.createEff false d).ssf = s.ssf := rfl
        have ef1 : r0.2.2.ssf = s.ssf := by
          have := (sh1_spec fuel (s.createEff false d) (d + 1) x1 y1 x3 y3 objs).2.2.1
          rw [← hr0] at this
          rw [this]
          exact ef0
        have ef2 : r1.2.2.ssf = s.ssf := by
          have := (sh1_spec fuel r0.2.2 (d + 1) x1 (y3 + 1) x3 y2 r0.2.1).2.2.1
          rw [← hr1] at this
          rw [this, ef1]
        have ef3 : r2.2.2.ssf = s.ssf := by
          have := (sh1_spec fuel r1.2.2 (d + 1) (x3 + 1) y1 x2 y3 r1.2.1).2.2.1
          rw [← hr2] at this
          rw [this, ef2]
        simp only [QNode.allNodes, List.mem_cons, List.mem_append, or_assoc] at hn
        rcases hn with hn | hn | hn | hn | hn
        · subst hn
          refine ⟨fun _ => ?_, fun h => by simp [QNode.leafFlag] at h⟩
          have i0 := sh1_conserve fuel (s.createEff false d) (d + 1) x1 y1 x3 y3 objs
          have i1 := sh1_conserve fuel r0.2.2 (d + 1) x1 (y3 + 1) x3 y2 r0.2.1
          have i2 := sh1_conserve fuel r1.2.2 (d + 1) (x3 + 1) y1 x2 y3 r1.2.1
          have i3 := sh1_conserve fuel r2.2.2 (d + 1) (x3 + 1) (y3 + 1) x2 y2 r2.2.1
          rw [← hr0] at i0
          rw [← hr1] at i1
          rw [← hr2] at i2
          rw [← hr3] at i3
          have hsc : (QNode.mk false d x1 y1 x2 y2 r0.1 r1.1 r2.1 r3.1
              r3.2.1).subCount = objs.length := by
            simp only [QNode.subCount]
            omega
          simp only [QNode.px1, QNode.py1, QNode.px2, QNode.py2]
          rw [hsc]
          exact h4
        · have base := ih (s.createEff false d) (d + 1) x1 y1 x3 y3 objs n hn
          rw [splitable_congr ef0 n.px1 n.py1 n.px2 n.py2 (n.subCount : Int),
            splitable_congr ef0 n.px1 n.py1 n.px2 n.py2 (n.objs.length : Int)] at base
          exact base
        · have base := ih r0.2.2 (d + 1) x1 (y3 + 1) x3 y2 r0.2.1 n hn
          rw [splitable_congr ef1 n.px1 n.py1 n.px2 n.py2 (n.subCount : Int),
            splitable_congr ef1 n.px1 n.py1 n.px2 n.py2 (n.objs.length : Int)] at base
          exact base
        · have base := ih r1.2.2 (d + 1) (x3 + 1) y1 x2 y3 r1.2.1 n hn
          rw [splitable_congr ef2 n.px1 n.py1 n.px2 n.py2 (n.subCount : Int),
            splitable_congr ef2 n.px1 n.py1 n.px2 n.py2 (n.objs.length : Int)] at base
          exact base
        · have base := ih r2.2.2 (d + 1) (x3 + 1) (y3 + 1) x2 y2 r2.2.1 n hn
          rw [splitable_congr ef3 n.px1 n.py1 n.px2 n.py2 (n.subCount : Int),
            splitable_congr ef3 n.px1 n.py1 n.px2 n.py2 (n.objs.length : Int)] at base
          exact base

theorem checkI4_iff (s : QState α) :
    checkI4 s = true ↔ ∀ n ∈ s.root.allNodes, n.leafFlag = true ∨
      s.splitable n.px1 n.py1 n.px2 n.py2 (n.subCount : Int) = true := by
  simp [checkI4]

theorem checkI5_iff (s : QState α) :
    checkI5 s = true ↔ ∀ n ∈ s.root.allNodes, n.leafFlag = false ∨
      s.splitable n.px1 n.py1 n.px2 n.py2 (n.objs.length : Int) = false := by
  simp [checkI5]

/-- After `splitHelper2` on a live leaf whose rectangle is splittable for
its object count, every node of the rebuilt subtree satisfies both local
invariants, and the predicate is unchanged. -/
theorem splitHelper2At_I4I5 {s : QState α} {p : List Nat}
    (hv : (s.root.subAt p).isNil = false)
    (hleaf : (s.root.subAt p).leafFlag = true)
    (hsp : s.splitable (s.root.subAt p).px1 (s.root.subAt p).py1
      (s.root.subAt p).px2 (s.root.subAt p).py2
      ((s.root.subAt p).objs.length : Int) = true) :
    (s.splitHelper2At p).ssf = s.ssf ∧
    ∀ n ∈ ((s.splitHelper2At p).root.subAt p).allNodes,
      (n.leafFlag = false →
        s.splitable n.px1 n.py1 n.px2 n.py2 (n.subCount : Int) = true) ∧
      (n.leafFlag = true →
        s.splitable n.px1 n.py1 n.px2 n.py2 (n.objs.length : Int) = false) := by
  rw [splitHelper2At]
  simp only []
  rw [if_pos hleaf]
  set n := s.root.subAt p with hn
  set d := n.depth with hd
  set x1 := n.px1
  set y1 := n.py1
  set x2 := n.px2
  set y2 := n.py2
  set x3 := x1 + (x2 - x1) / 2
  set y3 := y1 + (y2 - y1) / 2
  set r0 := sh1 64 s (d + 1) x1 y1 x3 y3 n.objs with hr0
  set r1 := sh1 64 r0.2.2 (d + 1) x1 (y3 + 1) x3 y2 r0.2.1 with hr1
  set r2 := sh1 64 r1.2.2 (d + 1) (x3 + 1) y1 x2 y3 r1.2.1 with hr2
  set r3 := sh1 64 r2.2.2 (d + 1) (x3 + 1) (y3 + 1) x2 y2 r2.2.1 with hr3
  obtain ⟨-, -, f0, t0, -, -, -, -, -, -, -⟩ := sh1_spec 64 s (d + 1) x1 y1 x3 y3 n.objs
  obtain ⟨-, -, f1, t1, -, -, -, -, -, -, -⟩ :=
    sh1_spec 64 r0.2.2 (d + 1) x1 (y3 + 1) x3 y2 r0.2.1
  obtain ⟨-, -, f2, t2, -, -, -, -, -, -, -⟩ :=
    sh1_spec 64 r1.2.2 (d + 1) (x3 + 1) y1 x2 y3 r1.2.1
  obtain ⟨-, -, f3, t3, -, -, -, -, -, -, -⟩ :=
    sh1_spec 64 r2.2.2 (d + 1) (x3 + 1) (y3 + 1) x2 y2 r2.2.1
  rw [← hr0] at f0 t0
  rw [← hr1] at f1 t1
  rw [← hr2] at f2 t2
  rw [← hr3] at f3 t3
  have troot : r3.2.2.root = s.root := by rw [t3, t2, t1, t0]
  have ef0 : s.ssf = s.ssf := rfl
  have ef1 : r0.2.2.ssf = s.ssf := f0
  have ef2 : r1.2.2.ssf = s.ssf := by rw [f1, ef1]
  have ef3 : r2.2.2.ssf = s.ssf := by rw [f2, ef2]
  have i0 := sh1_conserve 64 s (d + 1) x1 y1 x3 y3 n.objs
  have i1 := sh1_conserve 64 r0.2.2 (d + 1) x1 (y3 + 1) x3 y2 r0.2.1
  have i2 := sh1_conserve 64 r1.2.2 (d + 1) (x3 + 1) y1 x2 y3 r1.2.1
  have i3 := sh1_conserve 64 r2.2.2 (d + 1) (x3 + 1) (y3 + 1) x2 y2 r2.2.1
  rw [← hr0] at i0
  rw [← hr1] at i1
  rw [← hr2] at i2
  rw [← hr3] at i3
  constructor
  · show r3.2.2.ssf = s.ssf
    rw [f3, ef3]
  · show ∀ nn ∈ (((r3.2.2.root).setAt p
        (QNode.mk false d x1 y1 x2 y2 r0.1 r1.1 r2.1 r3.1 r3.2.1)).subAt
          p).allNodes, _
    rw [troot, QNode.setAt_subAt _ hv]
    intro nn hnn
    simp only [QNode.allNodes, List.mem_cons, List.mem_append, or_assoc] at hnn
    rcases hnn with hnn | hnn | hnn | hnn | hnn
    · subst hnn
      refine ⟨fun _ => ?_, fun hh => by simp [QNode.leafFlag] at hh⟩
      have hsc : (QNode.mk false d x1 y1 x2 y2 r0.1 r1.1 r2.1 r3.1
          r3.2.1).subCount = n.objs.length := by
        simp only [QNode.subCount]
        omega
      simp only [QNode.px1, QNode.py1, QNode.px2, QNode.py2]
      rw [hsc]
      exact hsp
    · exact sh1_I4I5 64 s (d + 1) x1 y1 x3 y3 n.objs nn hnn
    · have base := sh1_I4I5 64 r0.2.2 (d + 1) x1 (y3 + 1) x3 y2 r0.2.1 nn hnn
      rw [splitable_congr ef1 nn.px1 nn.py1 nn.px2 nn.py2 (nn.subCount : Int),
        splitable_congr ef1 nn.px1 nn.py1 nn.px2 nn.py2 (nn.objs.length : Int)] at base
      exact base
    · have base := sh1_I4I5 64 r1.2.2 (d + 1) (x3 + 1) y1 x2 y3 r1.2.1 nn hnn
      rw [splitable_congr ef2 nn.px1 nn.py1 nn.px2 nn.py2 (nn.subCount : Int),
        splitable_congr ef2 nn.px1 nn.py1 nn.px2 nn.py2 (nn.objs.length : Int)] at base
      exact base
    · have base := sh1_I4I5 64 r2.2.2 (d + 1) (x3 + 1) (y3 + 1) x2 y2 r2.2.1 nn hnn
      rw [splitable_congr ef3 nn.px1 nn.py1 nn.px2 nn.py2 (nn.subCount : Int),
        splitable_congr ef3 nn.px1 nn.py1 nn.px2 nn.py2 (nn.objs.length : Int)] at base
      exact base

/-- A freshly built tree satisfies both I4 and I5, for every configuration
and every predicate. -/
theorem Build_I4I5 (w h : Int) (ssf : Option (Int → Int → Int → Bool)) :
    checkI4 ((init w h ssf : QState α).Build) = true ∧
    checkI5 ((init w h ssf : QState α).Build) = true := by
  set s1 : QState α := { (init w h ssf : QState α).createEff true 0 with
    root := QNode.mk true 0 0 0 (h - 1) (w - 1) .nil .nil .nil .nil [] } with hs1
  have hBuild : (init w h ssf : QState α).Build = (s1.trySplitDownAt []).1 := rfl
  rw [hBuild, trySplitDownAt]
  simp only []
  by_cases hc : (s1.root.subAt []).leafFlag = true ∧
      s1.splitable (s1.root.subAt []).px1 (s1.root.subAt []).py1
        (s1.root.subAt []).px2 (s1.root.subAt []).py2
        (((s1.root.subAt []).objs.length : Nat) : Int) = true
  · rw [if_pos hc]
    have hv : (s1.root.subAt []).isNil = false := rfl
    obtain ⟨hf, hmem⟩ := splitHelper2At_I4I5 hv hc.1 hc.2
    have hmem' : ∀ nn ∈ (s1.splitHelper2At []).root.allNodes,
        (nn.leafFlag = false → (s1.splitHelper2At []).splitable nn.px1 nn.py1
          nn.px2 nn.py2 (nn.subCount : Int) = true) ∧
        (nn.leafFlag = true → (s1.splitHelper2At []).splitable nn.px1 nn.py1
          nn.px2 nn.py2 (nn.objs.length : Int) = false) := by
      intro nn hnn
      have base := hmem nn hnn
      rw [← splitable_congr hf nn.px1 nn.py1 nn.px2 nn.py2 (nn.subCount : Int),
        ← splitable_congr hf nn.px1 nn.py1 nn.px2 nn.py2
          (nn.objs.length : Int)] at base
      exact base
    constructor
    · rw [checkI4_iff]
      intro nn hnn
      by_cases hl : nn.leafFlag = true
      · exact Or.inl hl
      · exact Or.inr ((hmem' nn hnn).1 (by simpa using hl))
    · rw [checkI5_iff]
      intro nn hnn
      by_cases hl : nn.leafFlag = true
      · exact Or.inr ((hmem' nn hnn).2 hl)
      · exact Or.inl (by simpa using hl)
  · rw [if_neg hc]
    have hsp : s1.splitable (s1.root.subAt []).px1 (s1.root.subAt []).py1
        (s1.root.subAt []).px2 (s1.root.subAt []).py2
        (((s1.root.subAt []).objs.length : Nat) : Int) = false := by
      by_cases hx : s1.splitable (s1.root.subAt []).px1 (s1.root.subAt []).py1
          (s1.root.subAt []).px2 (s1.root.subAt []).py2
          (((s1.root.subAt []).objs.length : Nat) : Int) = true
      · exact absurd ⟨rfl, hx⟩ hc
      · simpa using hx
    constructor
    · rw [checkI4_iff]
      intro nn hnn
      have hnn' : nn = QNode.mk true 0 0 0 (h - 1) (w - 1) .nil .nil .nil .nil
          ([] : List (ObjKey α)) := by
        simpa [hs1, QNode.allNodes] using hnn
      subst hnn'
      exact Or.inl rfl
    · rw [checkI5_iff]
      intro nn hnn
      have hnn' : nn = QNode.mk true 0 0 0 (h - 1) (w - 1) .nil .nil .nil .nil
          ([] : List (ObjKey α)) := by
        simpa [hs1, QNode.allNodes] using hnn
      subst hnn'
      exact Or.inr hsp

/-- With no stop predicate, `splitHelper1` on a square power-of-two region
of side `2^m` creates a node `m` levels below the call depth (the NW-corner
chain splits all the way down to a single cell). -/
theorem sh1_deep :
    ∀ (m fuel : Nat) (s : QState α) (d : Nat) (x1 y1 : Int)
      (up : List (ObjKey α)),
      m < fuel → s.ssf = none → 0 ≤ x1 → x1 + 2 ^ m ≤ s.h → 0 ≤ y1 →
      y1 + 2 ^ m ≤ s.w →
      ∃ n ∈ (sh1 fuel s d x1 y1 (x1 + 2 ^ m - 1) (y1 + 2 ^ m - 1) up).1.allNodes,
        n.depth = d + m := by
  intro m
  induction m with
  | zero =>
      intro fuel s d x1 y1 up hfuel hssf hx1 hxh hy1 hyw
      cases fuel with
      | zero => omega
      | succ f =>
          rw [pow_zero] at hxh hyw ⊢
          have hx2 : x1 + 1 - 1 = x1 := by omega
          have hy2 : y1 + 1 - 1 = y1 := by omega
          rw [hx2, hy2, sh1]
          rw [if_neg (not_not_intro ⟨hx1, by omega, hy1, by omega⟩)]
          rw [if_neg (not_not_intro ⟨hx1, by omega, hy1, by omega⟩)]
          rw [if_neg (not_not_intro ⟨le_refl x1, le_refl y1⟩)]
          simp only []
          have hsp : s.splitable x1 y1 x1 y1
              (((up.filter (keyIn x1 y1 x1 y1)).length : Nat) : Int) = false := by
            rw [splitable]
            rw [if_pos ⟨rfl, rfl⟩]
          rw [if_pos (by simp [hsp])]
          exact ⟨_, List.mem_cons_self _ _, by simp [QNode.depth]⟩
  | succ m ihm =>
      intro fuel s d x1 y1 up hfuel hssf hx1 hxh hy1 hyw
      cases fuel with
      | zero => omega
      | succ f =>
          have hp : (2 : Int) ^ (m + 1) = 2 ^ m * 2 := pow_succ 2 m
          have hpm : (0 : Int) < 2 ^ m := pow_pos (by norm_num) m
          rw [sh1]
          rw [if_neg (not_not_intro ⟨hx1, by omega, hy1, by omega⟩)]
          rw [if_neg (not_not_intro ⟨by omega, by omega, by omega, by omega⟩)]
          rw [if_neg (not_not_intro ⟨by omega, by omega⟩)]
          simp only []
          have hsp : s.splitable x1 y1 (x1 + 2 ^ (m + 1) - 1)
              (y1 + 2 ^ (m + 1) - 1)
              (((up.filter (keyIn x1 y1 (x1 + 2 ^ (m + 1) - 1)
                (y1 + 2 ^ (m + 1) - 1))).length : Nat) : Int) = true := by
            rw [splitable, hssf]
            rw [if_neg (by rintro ⟨e, -⟩; omega)]
          rw [if_neg (by simp [hsp])]
          have hx3 : x1 + (x1 + 2 ^ (m + 1) - 1 - x1) / 2 = x1 + 2 ^ m - 1 := by
            omega
          have hy3 : y1 + (y1 + 2 ^ (m + 1) - 1 - y1) / 2 = y1 + 2 ^ m - 1 := by
            omega
          rw [hx3, hy3]
          have hrec := ihm f (s.createEff false d) (d + 1) x1 y1
            (up.filter (keyIn x1 y1 (x1 + 2 ^ (m + 1) - 1) (y1 + 2 ^ (m + 1) - 1)))
            (by omega) hssf hx1
            (show x1 + 2 ^ m ≤ (s.createEff false d).h by
              show x1 + 2 ^ m ≤ s.h
              omega)
            hy1
            (show y1 + 2 ^ m ≤ (s.createEff false d).w by
              show y1 + 2 ^ m ≤ s.w
              omega)
          obtain ⟨n, hn, hdn⟩ := hrec
          refine ⟨n, ?_, by omega⟩
          simp only [QNode.allNodes, List.mem_cons, List.mem_append, or_assoc]
          exact Or.inr (Or.inl hn)

/-- Every node of the NW subtree that `splitHelper2` builds is a node of
the rebuilt subtree. -/
theorem splitHelper2At_contains_r0 {s : QState α} {p : List Nat}
    (hv : (s.root.subAt p).isNil = false)
    (hleaf : (s.root.subAt p).leafFlag = true) :
    ∀ nn ∈ (sh1 64 s ((s.root.subAt p).depth + 1) (s.root.subAt p).px1
      (s.root.subAt p).py1
      ((s.root.subAt p).px1 +
        ((s.root.subAt p).px2 - (s.root.subAt p).px1) / 2)
      ((s.root.subAt p).py1 +
        ((s.root.subAt p).py2 - (s.root.subAt p).py1) / 2)
      (s.root.subAt p).objs).1.allNodes,
      nn ∈ ((s.splitHelper2At p).root.subAt p).allNodes := by
  rw [splitHelper2At]
  simp only []
  rw [if_pos hleaf]
  set n := s.root.subAt p with hn
  set d := n.depth with hd
  set x1 := n.px1
  set y1 := n.py1
  set x2 := n.px2
  set y2 := n.py2
  set x3 := x1 + (x2 - x1) / 2
  set y3 := y1 + (y2 - y1) / 2
  set r0 := sh1 64 s (d + 1) x1 y1 x3 y3 n.objs with hr0
  set r1 := sh1 64 r0.2.2 (d + 1) x1 (y3 + 1) x3 y2 r0.2.1 with hr1
  set r2 := sh1 64 r1.2.2 (d + 1) (x3 + 1) y1 x2 y3 r1.2.1 with hr2
  set r3 := sh1 64 r2.2.2 (d + 1) (x3 + 1) (y3 + 1) x2 y2 r2.2.1 with hr3
  obtain ⟨-, -, -, t0, -, -, -, -, -, -, -⟩ :=
    sh1_spec 64 s (d + 1) x1 y1 x3 y3 n.objs
  obtain ⟨-, -, -, t1, -, -, -, -, -, -, -⟩ :=
    sh1_spec 64 r0.2.2 (d + 1) x1 (y3 + 1) x3 y2 r0.2.1
  obtain ⟨-, -, -, t2, -, -, -, -, -, -, -⟩ :=
    sh1_spec 64 r1.2.2 (d + 1) (x3 + 1) y1 x2 y3 r1.2.1
  obtain ⟨-, -, -, t3, -, -, -, -, -, -, -⟩ :=
    sh1_spec 64 r2.2.2 (d + 1) (x3 + 1) (y3 + 1) x2 y2 r2.2.1
  rw [← hr0] at t0
  rw [← hr1] at t1
  rw [← hr2] at t2
  rw [← hr3] at t3
  have troot : r3.2.2.root = s.root := by rw [t3, t2, t1, t0]
  intro nn hnn
  show nn ∈ (((r3.2.2.root).setAt p
    (QNode.mk false d x1 y1 x2 y2 r0.1 r1.1 r2.1 r3.1 r3.2.1)).subAt p).allNodes
  rw [troot, QNode.setAt_subAt _ hv]
  simp only [QNode.allNodes, List.mem_cons, List.mem_append, or_assoc]
  exact Or.inr (Or.inl hnn)

end QState

/-! ## C9 (amended) -/

/-- C9 (corrected): in every reachable tree, `maxd` — the value `Depth()`
returns — is an inclusive upper bound on the depth of every live node, so
`r = maxd` is the sound initial upper bound for the depth binary search;
and the `quadtree.cpp` variant `find` (which starts at `r = maxd - 1`) is
not extensionally equal to `Quadtree::Find` of `quadtree.hpp`: on the
reachable state `tree2full` (`Build` of an empty 2×2 tree, `maxd = 1`) at
the in-range position `(1, 1)`, `Find` returns the cell leaf `(1,1)-(1,1)`
while the cpp variant returns null.  (The claim's further assertion that
`Find` always returns the *containing* leaf is refuted separately by
`c9_counterexample`.) -/
theorem c9_maxd_is_the_correct_bound :
    (∀ s : QState Int, Reachable s → ∀ n ∈ s.root.allNodes, n.depth ≤ s.Depth) ∧
    Reachable tree2full ∧
    ((0 : Int) ≤ 1 ∧ (1 : Int) < tree2full.h ∧
      (0 : Int) ≤ 1 ∧ (1 : Int) < tree2full.w) ∧
    tree2full.FindCpp 1 1 ≠ tree2full.Find 1 1 ∧
    tree2full.FindCpp 1 1 = QNode.nil ∧
    (tree2full.Find 1 1).leafFlag = true ∧
    (tree2full.Find 1 1).rect = (1, 1, 1, 1) := by
  refine ⟨?_, ?_, by decide, by decide, by decide, by decide, by decide⟩
  · intro s hs n hn
    exact QState.depth_le_Depth hs hn
  · exact Reachable.build 2 2 none (by decide) (by decide) (by decide) (by decide)

/-! ## C2 (amended) -/

/-- C2 (corrected): the canonical-shape invariant holds right after
`Build()` — for every configuration `(w, h)` and every pure predicate,
every non-leaf of the built tree is reported splittable for its rectangle
and subtree count, and every leaf is reported not splittable for its
rectangle and own count (single cells are never splittable).  The claim's
stronger assertion that the invariant also survives `Add`/`Remove` is
false: `tree4` is reachable (`Build(); Add(0,0,7)` with the pure predicate
`stopIfNonempty`) yet violates I4. -/
theorem c2_invariant_holds_after_build :
    (∀ (w h : Int) (ssf : Option (Int → Int → Int → Bool)),
      QState.checkI4 ((QState.init w h ssf : QState Int).Build) = true ∧
      QState.checkI5 ((QState.init w h ssf : QState Int).Build) = true) ∧
    Reachable tree4 ∧ tree4.checkI4 = false := by
  refine ⟨fun w h ssf => QState.Build_I4I5 w h ssf, ?_, by decide⟩
  exact Reachable.add 0 0 7 (Reachable.build 4 4 (some stopIfNonempty)
    (by decide) (by decide) (by decide) (by decide))

/-! ## C6 -/

/-- C6 (code bug): with the maximal supported configuration
`W = H = 2^29 - 1` and no stop predicate, `Build()` creates a node of depth
`MAX_DEPTH = 29` (the NW chain has sides `2^29 - 1, 2^28, 2^27, …, 2, 1`),
so `createNode` executes `++numDepthTable[29]` — one past the end of the
29-element array `numDepthTable[MAX_DEPTH]` — and the census the model
keeps at index `MAX_DEPTH` is indeed populated. -/
theorem c6_numdepthtable_overflow :
    (∃ n ∈ ((QState.init MAX_SIDE MAX_SIDE none : QState Unit).Build).root.allNodes,
      n.depth = MAX_DEPTH) ∧
    1 ≤ ((QState.init MAX_SIDE MAX_SIDE none : QState Unit).Build).ndt MAX_DEPTH := by
  have hBuild : (QState.init MAX_SIDE MAX_SIDE none : QState Unit).Build
      = (s1Max.trySplitDownAt []).1 := rfl
  have hguard : (s1Max.root.subAt []).leafFlag = true ∧
      s1Max.splitable (s1Max.root.subAt []).px1 (s1Max.root.subAt []).py1
        (s1Max.root.subAt []).px2 (s1Max.root.subAt []).py2
        (((s1Max.root.subAt []).objs.length : Nat) : Int) = true := by
    constructor
    · rfl
    · decide
  have hex : ∃ n ∈ ((QState.init MAX_SIDE MAX_SIDE none :
      QState Unit).Build).root.allNodes, n.depth = MAX_DEPTH := by
    have hc0 := QState.splitHelper2At_contains_r0 (s := s1Max) (p := [])
      rfl rfl
    rw [show (s1Max.root.subAt []) = QNode.mk true 0 0 0 (MAX_SIDE - 1)
      (MAX_SIDE - 1) .nil .nil .nil .nil ([] : List (ObjKey Unit))
      from rfl] at hc0
    simp only [QNode.px1, QNode.py1, QNode.px2, QNode.py2, QNode.depth,
      QNode.objs] at hc0
    have hx3 : (0 : Int) + (MAX_SIDE - 1 - 0) / 2 = 0 + 2 ^ 28 - 1 := by
      decide
    rw [hx3] at hc0
    obtain ⟨n, hn, hdn⟩ := QState.sh1_deep 28 64 s1Max (0 + 1) 0 0
      ([] : List (ObjKey Unit)) (by norm_num) rfl (by norm_num) (by decide)
      (by norm_num) (by decide)
    have hmem := hc0 n hn
    have hsub : ((s1Max.splitHelper2At []).root.subAt []) =
        (s1Max.splitHelper2At []).root := rfl
    rw [hsub] at hmem
    have hroot : ((QState.init MAX_SIDE MAX_SIDE none :
        QState Unit).Build).root = (s1Max.splitHelper2At []).root := by
      rw [hBuild, QState.trySplitDownAt]
      rw [if_pos hguard]
    rw [hroot]
    exact ⟨n, hmem, by rw [hdn]; decide⟩
  refine ⟨hex, ?_⟩
  obtain ⟨accB, -, -, -⟩ := @QState.Build_CS Unit _ MAX_SIDE MAX_SIDE none
  rw [accB MAX_DEPTH]
  obtain ⟨n, hn, hdn⟩ := hex
  have := QNode.census_pos_of_mem hn
  rw [hdn] at this
  exact this

/-! ## C10: power-of-two well-formedness -/


namespace QNode

variable {α : Type}

theorem sameShape_refl (t : QNode α) : sameShape t t := by
  induction t with
  | nil => trivial
  | mk lf d x1 y1 x2 y2 c0 c1 c2 c3 os ih0 ih1 ih2 ih3 =>
      exact ⟨rfl, rfl, rfl, rfl, rfl, rfl, ih0, ih1, ih2, ih3⟩

theorem sameShape_setObjsAt {t : QNode α} :
    ∀ {p : List Nat}, (t.subAt p).isNil = false → ∀ os : List (ObjKey α),
      sameShape t (t.setAt p ((t.subAt p).setObjs os)) := by
  induction t with
  | nil =>
      intro p hv os
      rw [subAt_nil] at hv
      simp [isNil] at hv
  | mk lf d x1 y1 x2 y2 c0 c1 c2 c3 o ih0 ih1 ih2 ih3 =>
      intro p hv os
      match p with
      | [] =>
          exact ⟨rfl, rfl, rfl, rfl, rfl, rfl, sameShape_refl c0,
            sameShape_refl c1, sameShape_refl c2, sameShape_refl c3⟩
      | 0 :: p =>
          exact ⟨rfl, rfl, rfl, rfl, rfl, rfl,
            ih0 (by simpa [subAt, child] using hv) os, sameShape_refl c1,
            sameShape_refl c2, sameShape_refl c3⟩
      | 1 :: p =>
          exact ⟨rfl, rfl, rfl, rfl, rfl, rfl, sameShape_refl c0,
            ih1 (by simpa [subAt, child] using hv) os,
            sameShape_refl c2, sameShape_refl c3⟩
      | 2 :: p =>
          exact ⟨rfl, rfl, rfl, rfl, rfl, rfl, sameShape_refl c0,
            sameShape_refl c1, ih2 (by simpa [subAt, child] using hv) os,
            sameShape_refl c3⟩
      | 3 :: p =>
          exact ⟨rfl, rfl, rfl, rfl, rfl, rfl, sameShape_refl c0,
            sameShape_refl c1, sameShape_refl c2,
            ih3 (by simpa [subAt, child] using hv) os⟩
      | (m + 4) :: p =>
          rw [show (mk lf d x1 y1 x2 y2 c0 c1 c2 c3 o).subAt ((m + 4) :: p)
            = nil by simp [subAt, child_add_four, subAt_nil]] at hv
          simp [isNil] at hv

theorem sameShape_isNil {a b : QNode α} (h : sameShape a b) :
    a.isNil = b.isNil := by
  cases a <;> cases b <;> simp [isNil] <;> exact h

theorem sameShape_leafFlag {a b : QNode α} (h : sameShape a b) :
    a.leafFlag = b.leafFlag := by
  cases a <;> cases b
  · rfl
  · exact absurd h (by simp [sameShape])
  · exact absurd h (by simp [sameShape])
  · simpa [leafFlag] using h.1

theorem sameShape_depth {a b : QNode α} (h : sameShape a b) :
    a.depth = b.depth := by
  cases a <;> cases b
  · rfl
  · exact absurd h (by simp [sameShape])
  · exact absurd h (by simp [sameShape])
  · simpa [depth] using h.2.1

theorem sameShape_px1 {a b : QNode α} (h : sameShape a b) : a.px1 = b.px1 := by
  cases a <;> cases b
  · rfl
  · exact absurd h (by simp [sameShape])
  · exact absurd h (by simp [sameShape])
  · simpa [px1] using h.2.2.1

theorem sameShape_py1 {a b : QNode α} (h : sameShape a b) : a.py1 = b.py1 := by
  cases a <;> cases b
  · rfl
  · exact absurd h (by simp [sameShape])
  · exact absurd h (by simp [sameShape])
  · simpa [py1] using h.2.2.2.1

theorem sameShape_child {a b : QNode α} (h : sameShape a b) (i : Nat) :
    sameShape (a.child i) (b.child i) := by
  cases a <;> cases b
  · simp only [child]; trivial
  · exact absurd h (by simp [sameShape])
  · exact absurd h (by simp [sameShape])
  · obtain ⟨-, -, -, -, -, -, h0, h1, h2, h3⟩ := h
    match i with
    | 0 => exact h0
    | 1 => exact h1
    | 2 => exact h2
    | 3 => exact h3
    | (m + 4) => rw [child_add_four, child_add_four]; trivial

theorem sameShape_subAt {a b : QNode α} (h : sameShape a b) (q : List Nat) :
    sameShape (a.subAt q) (b.subAt q) := by
  induction q generalizing a b with
  | nil => exact h
  | cons i q ih => exact ih (sameShape_child h i)

end QNode

namespace QState

variable {α : Type} [DecidableEq α]

/-- The derived id map only reads the shape of the tree: it is invariant
under object-container changes. -/
theorem findIdAux_congr {s s' : QState α} (hw : s.w = s'.w) (hh : s.h = s'.h)
    (id : Nat) :
    ∀ {t t' : QNode α}, QNode.sameShape t t' →
      s.findIdAux id t = s'.findIdAux id t' := by
  intro t
  induction t with
  | nil =>
      intro t' hs
      cases t' with
      | nil => rfl
      | mk lf d x1 y1 x2 y2 c0 c1 c2 c3 os =>
          exact absurd hs (by simp [QNode.sameShape])
  | mk lf d x1 y1 x2 y2 c0 c1 c2 c3 os ih0 ih1 ih2 ih3 =>
      intro t' hs
      cases t' with
      | nil => exact absurd hs (by simp [QNode.sameShape])
      | mk lf' d' x1' y1' x2' y2' c0' c1' c2' c3' os' =>
          obtain ⟨helf, hed, hex1, hey1, hex2, hey2, h0, h1, h2, h3⟩ := hs
          subst helf
          subst hed
          subst hex1
          subst hey1
          subst hex2
          subst hey2
          rw [findIdAux, findIdAux]
          have hid : s.nodeId (QNode.mk lf d x1 y1 x2 y2 c0 c1 c2 c3 os) =
              s'.nodeId (QNode.mk lf d x1 y1 x2 y2 c0' c1' c2' c3' os') := by
            rw [nodeId, nodeId, hw, hh]
            rfl
          rw [hid, ih0 h0, ih1 h1, ih2 h2, ih3 h3]

/-- The binary search of `Find` only reads the shape of the tree. -/
theorem findLoopP_congr {s s' : QState α} (hw : s.w = s'.w) (hh : s.h = s'.h)
    (hroot : QNode.sameShape s.root s'.root) (x y : Int) :
    ∀ (fuel : Nat) (l r : Int),
      s.findLoopP x y fuel l r = s'.findLoopP x y fuel l r := by
  intro fuel
  induction fuel with
  | zero => intro l r; rfl
  | succ fuel ih =>
      intro l r
      rw [findLoopP, findLoopP]
      by_cases hlr : l ≤ r
      · rw [if_pos hlr, if_pos hlr]
        simp only []
        have hm : s.mFindP (pack ((l + r) / 2).toNat x y s.w s.h) =
            s'.mFindP (pack ((l + r) / 2).toNat x y s'.w s'.h) := by
          rw [← hw, ← hh]
          exact findIdAux_congr hw hh _ hroot
        rw [hm]
        cases e : s'.mFindP (pack ((l + r) / 2).toNat x y s'.w s'.h) with
        | none => exact ih _ _
        | some p =>
            show (if (s.root.subAt p).leafFlag = true then some p
                else s.findLoopP x y fuel ((l + r) / 2 + 1) r) =
              (if (s'.root.subAt p).leafFlag = true then some p
                else s'.findLoopP x y fuel ((l + r) / 2 + 1) r)
            have hlf : (s.root.subAt p).leafFlag = (s'.root.subAt p).leafFlag :=
              QNode.sameShape_leafFlag (QNode.sameShape_subAt hroot p)
            rw [hlf]
            by_cases hq : (s'.root.subAt p).leafFlag = true
            · rw [if_pos hq, if_pos hq]
            · rw [if_neg hq, if_neg hq]
              exact ih _ _
      · rw [if_neg hlr, if_neg hlr]

end QState

namespace QNode

variable {α : Type}

theorem subAt_append (t : QNode α) (q r : List Nat) :
    t.subAt (q ++ r) = (t.subAt q).subAt r := by
  induction q generalizing t with
  | nil => rfl
  | cons i q ih => exact ih (t.child i)

theorem setObjs_isNil (n : QNode α) (os : List (ObjKey α)) :
    (n.setObjs os).isNil = n.isNil := by
  cases n <;> rfl

theorem setObjs_leafFlag (n : QNode α) (os : List (ObjKey α)) :
    (n.setObjs os).leafFlag = n.leafFlag := by
  cases n <;> rfl

theorem setObjs_depth (n : QNode α) (os : List (ObjKey α)) :
    (n.setObjs os).depth = n.depth := by
  cases n <;> rfl

theorem setObjs_px1 (n : QNode α) (os : List (ObjKey α)) :
    (n.setObjs os).px1 = n.px1 := by
  cases n <;> rfl

theorem setObjs_py1 (n : QNode α) (os : List (ObjKey α)) :
    (n.setObjs os).py1 = n.py1 := by
  cases n <;> rfl

theorem setObjs_px2 (n : QNode α) (os : List (ObjKey α)) :
    (n.setObjs os).px2 = n.px2 := by
  cases n <;> rfl

theorem setObjs_py2 (n : QNode α) (os : List (ObjKey α)) :
    (n.setObjs os).py2 = n.py2 := by
  cases n <;> rfl

theorem setObjs_child (n : QNode α) (os : List (ObjKey α)) (i : Nat) :
    (n.setObjs os).child i = n.child i := by
  cases n
  · rfl
  · match i with
    | 0 => rfl
    | 1 => rfl
    | 2 => rfl
    | 3 => rfl
    | (m + 4) => simp only [setObjs]; rw [child_add_four, child_add_four]

theorem setObjs_objs {n : QNode α} (hv : n.isNil = false)
    (os : List (ObjKey α)) : (n.setObjs os).objs = os := by
  cases n
  · simp [isNil] at hv
  · rfl

theorem setObjs_setObjs (n : QNode α) (a b : List (ObjKey α)) :
    (n.setObjs a).setObjs b = n.setObjs b := by
  cases n <;> rfl

theorem setObjs_objs_self (n : QNode α) : n.setObjs n.objs = n := by
  cases n <;> rfl

theorem isNil_child_lt {m : QNode α} {i : Nat}
    (h : (m.child i).isNil = false) : i < 4 := by
  cases m with
  | nil => simp [child, isNil] at h
  | mk lf d x1 y1 x2 y2 c0 c1 c2 c3 os =>
      match i with
      | 0 => omega
      | 1 => omega
      | 2 => omega
      | 3 => omega
      | (j + 4) => rw [child_add_four] at h; simp [isNil] at h

theorem isNil_of_child {m : QNode α} {i : Nat}
    (h : (m.child i).isNil = false) : m.isNil = false := by
  cases m
  · simp [child, isNil] at h
  · rfl

theorem setAt_setAt :
    ∀ (p : List Nat) (t r r' : QNode α), (t.setAt p r).setAt p r' = t.setAt p r' := by
  intro p
  induction p with
  | nil => intro t r r'; simp only [setAt]
  | cons i p ih =>
      intro t r r'
      cases t with
      | nil => rfl
      | mk lf d x1 y1 x2 y2 c0 c1 c2 c3 os =>
          match i with
          | 0 => simp only [setAt]; rw [ih]
          | 1 => simp only [setAt]; rw [ih]
          | 2 => simp only [setAt]; rw [ih]
          | 3 => simp only [setAt]; rw [ih]
          | (m + 4) => simp only [setAt]; rw [ih]

theorem setAt_self :
    ∀ (p : List Nat) (t : QNode α), (t.subAt p).isNil = false →
      t.setAt p (t.subAt p) = t := by
  intro p
  induction p with
  | nil => intro t hv; simp only [setAt, subAt]
  | cons i p ih =>
      intro t hv
      cases t with
      | nil =>
          rw [show (nil : QNode α).subAt (i :: p) = nil by
            simp [subAt, child, subAt_nil]] at hv
          simp [isNil] at hv
      | mk lf d x1 y1 x2 y2 c0 c1 c2 c3 os =>
          match i with
          | 0 => simp only [setAt, subAt, child]; rw [ih _ (by simpa [subAt, child] using hv)]
          | 1 => simp only [setAt, subAt, child]; rw [ih _ (by simpa [subAt, child] using hv)]
          | 2 => simp only [setAt, subAt, child]; rw [ih _ (by simpa [subAt, child] using hv)]
          | 3 => simp only [setAt, subAt, child]; rw [ih _ (by simpa [subAt, child] using hv)]
          | (m + 4) =>
              rw [show (mk lf d x1 y1 x2 y2 c0 c1 c2 c3 os).subAt ((m + 4) :: p) = nil by
                simp [subAt, child_add_four, subAt_nil]] at hv
              simp [isNil] at hv

theorem subAt_setAt_prefix :
    ∀ (q : List Nat) (t : QNode α) (i : Nat) (r'' : List Nat) (rep : QNode α),
      (t.setAt (q ++ i :: r'') rep).subAt q = (t.subAt q).setAt (i :: r'') rep := by
  intro q
  induction q with
  | nil => intro t i r'' rep; simp only [List.nil_append, setAt, subAt]
  | cons j q ih =>
      intro t i r'' rep
      cases t with
      | nil =>
          simp [subAt_nil, setAt]
      | mk lf d x1 y1 x2 y2 c0 c1 c2 c3 os =>
          match j with
          | 0 => simp only [List.cons_append, setAt, subAt, child]; exact ih c0 i r'' rep
          | 1 => simp only [List.cons_append, setAt, subAt, child]; exact ih c1 i r'' rep
          | 2 => simp only [List.cons_append, setAt, subAt, child]; exact ih c2 i r'' rep
          | 3 => simp only [List.cons_append, setAt, subAt, child]; exact ih c3 i r'' rep
          | (m + 4) =>
              simp only [List.cons_append, setAt, subAt, child_add_four,
                subAt_nil]

end QNode

theorem toU64_small {z : Int} (h0 : 0 ≤ z) (h1 : z < 2 ^ 64) :
    toU64 z = z.toNat := by
  rw [toU64, Int.emod_eq_of_lt h0 h1]

theorem land_mul_pow {n w a : Nat} (h : a < 2 ^ w) :
    (2 ^ n * a) &&& (2 ^ n * (2 ^ w - 1)) = 2 ^ n * a := by
  apply Nat.eq_of_testBit_eq
  intro i
  rw [Nat.testBit_land, Nat.testBit_mul_pow_two, Nat.testBit_mul_pow_two,
    Nat.testBit_two_pow_sub_one]
  by_cases hi : i ≥ n
  · by_cases hw : i - n < w
    · simp [hi, hw]
    · have hz : a.testBit (i - n) = false :=
        Nat.testBit_lt_two_pow
          (lt_of_lt_of_le h (Nat.pow_le_pow_right (by norm_num) (by omega)))
      simp [hi, hw, hz]
  · simp [hi]

theorem land_pow_sub_one {w a : Nat} (h : a < 2 ^ w) :
    a &&& (2 ^ w - 1) = a := by
  apply Nat.eq_of_testBit_eq
  intro i
  rw [Nat.testBit_land, Nat.testBit_two_pow_sub_one]
  by_cases hw : i < w
  · simp [hw]
  · have hz : a.testBit i = false :=
      Nat.testBit_lt_two_pow
        (lt_of_lt_of_le h (Nat.pow_le_pow_right (by norm_num) (by omega)))
    simp [hz]

theorem lor_mul_pow_add {n a b : Nat} (h : b < 2 ^ n) :
    (2 ^ n * a) ||| b = 2 ^ n * a + b := by
  apply Nat.eq_of_testBit_eq
  intro i
  rw [Nat.testBit_lor, Nat.testBit_mul_pow_two, Nat.testBit_mul_pow_two_add a h i]
  by_cases hi : i < n
  · have hni : ¬ (i ≥ n) := by omega
    simp [hi, hni]
  · have hb : b.testBit i = false :=
      Nat.testBit_lt_two_pow
        (lt_of_lt_of_le h (Nat.pow_le_pow_right (by norm_num) (by omega)))
    have hni : i ≥ n := by omega
    simp [hi, hni, hb]

/-- The id codec on a power-of-two square region, additively: for
`d ≤ k ≤ 29` and in-range coordinates no mask truncates and the three
fields are disjoint. -/
theorem pack_po2 (k d : Nat) (x y : Int) (hk : k ≤ 29) (hd : d ≤ k)
    (hx : 0 ≤ x) (hx2 : x < 2 ^ k) (hy : 0 ≤ y) (hy2 : y < 2 ^ k) :
    pack d x y (2 ^ k) (2 ^ k) =
      2 ^ 58 * d + 2 ^ 29 * (x.toNat / 2 ^ (k - d)) + y.toNat / 2 ^ (k - d) := by
  have h2k64 : (2 : Int) ^ k < 2 ^ 64 := by
    have : (2 : Int) ^ k ≤ 2 ^ 29 := pow_le_pow_right (by norm_num) hk
    have : (2 : Int) ^ 29 < 2 ^ 64 := by norm_num
    omega
  have hxb : x < 2 ^ 64 := lt_trans hx2 h2k64
  have hyb : y < 2 ^ 64 := lt_trans hy2 h2k64
  have hpk : ((2 : Int) ^ k).toNat = 2 ^ k := by
    rw [show ((2 : Int) ^ k) = ((2 ^ k : Nat) : Int) by push_cast; ring]
    exact Int.toNat_natCast _
  have hxk : x.toNat < 2 ^ k := by
    have := (Int.toNat_lt_toNat (show (0 : Int) < 2 ^ k by positivity)).mpr hx2
    rwa [hpk] at this
  have hyk : y.toNat < 2 ^ k := by
    have := (Int.toNat_lt_toNat (show (0 : Int) < 2 ^ k by positivity)).mpr hy2
    rwa [hpk] at this
  have hkd : (2 : Nat) ^ k = 2 ^ d * 2 ^ (k - d) := by
    rw [← pow_add]
    congr 1
    omega
  have hXlt : x.toNat / 2 ^ (k - d) < 2 ^ d := by
    rw [Nat.div_lt_iff_lt_mul (pow_pos (by norm_num) _)]
    calc x.toNat < 2 ^ k := hxk
    _ = 2 ^ d * 2 ^ (k - d) := hkd
  have hYlt : y.toNat / 2 ^ (k - d) < 2 ^ d := by
    rw [Nat.div_lt_iff_lt_mul (pow_pos (by norm_num) _)]
    calc y.toNat < 2 ^ k := hyk
    _ = 2 ^ d * 2 ^ (k - d) := hkd
  have hd29 : (2 : Nat) ^ d ≤ 2 ^ 29 := Nat.pow_le_pow_right (by norm_num) (by omega)
  rw [pack]
  rw [toU64_small hx hxb, toU64_small hy hyb,
    toU64_small (by positivity) h2k64, hpk]
  rw [show cppShl1 d = 2 ^ d from if_pos (by omega)]
  have hxm : 2 ^ d * x.toNat % 2 ^ 64 = 2 ^ d * x.toNat := by
    apply Nat.mod_eq_of_lt
    calc 2 ^ d * x.toNat < 2 ^ d * 2 ^ k :=
          Nat.mul_lt_mul_of_pos_left hxk (pow_pos (by norm_num) _)
    _ ≤ 2 ^ 29 * 2 ^ 29 := Nat.mul_le_mul hd29 (Nat.pow_le_pow_right (by norm_num) hk)
    _ < 2 ^ 64 := by norm_num
  have hym : 2 ^ d * y.toNat % 2 ^ 64 = 2 ^ d * y.toNat := by
    apply Nat.mod_eq_of_lt
    calc 2 ^ d * y.toNat < 2 ^ d * 2 ^ k :=
          Nat.mul_lt_mul_of_pos_left hyk (pow_pos (by norm_num) _)
    _ ≤ 2 ^ 29 * 2 ^ 29 := Nat.mul_le_mul hd29 (Nat.pow_le_pow_right (by norm_num) hk)
    _ < 2 ^ 64 := by norm_num
  rw [hxm, hym]
  have hdiv : ∀ a : Nat, 2 ^ d * a / 2 ^ k = a / 2 ^ (k - d) := by
    intro a
    rw [hkd, Nat.mul_div_mul_left _ _ (pow_pos (by norm_num) d)]
  rw [hdiv, hdiv]
  set X := x.toNat / 2 ^ (k - d) with hX
  set Y := y.toNat / 2 ^ (k - d) with hY
  have hX29 : X < 2 ^ 29 := lt_of_lt_of_le hXlt hd29
  have hY29 : Y < 2 ^ 29 := lt_of_lt_of_le hYlt hd29
  have hd64 : d < 2 ^ 6 := by omega
  rw [Nat.shiftLeft_eq, Nat.shiftLeft_eq]
  rw [show d * 2 ^ 58 = 2 ^ 58 * d by ring, show X * 2 ^ 29 = 2 ^ 29 * X by ring]
  have hdm : 2 ^ 58 * d % 2 ^ 64 = 2 ^ 58 * d := by
    apply Nat.mod_eq_of_lt
    calc 2 ^ 58 * d < 2 ^ 58 * 2 ^ 6 :=
          Nat.mul_lt_mul_of_pos_left hd64 (by norm_num)
    _ = 2 ^ 64 := by norm_num
  have hXm : 2 ^ 29 * X % 2 ^ 64 = 2 ^ 29 * X := by
    apply Nat.mod_eq_of_lt
    calc 2 ^ 29 * X < 2 ^ 29 * 2 ^ 29 :=
          Nat.mul_lt_mul_of_pos_left hX29 (by norm_num)
    _ < 2 ^ 64 := by norm_num
  rw [hdm, hXm]
  rw [show (0xfc00000000000000 : Nat) = 2 ^ 58 * (2 ^ 6 - 1) by norm_num]
  rw [show (0x3ffffffe0000000 : Nat) = 2 ^ 29 * (2 ^ 29 - 1) by norm_num]
  rw [show (0x1fffffff : Nat) = 2 ^ 29 - 1 by norm_num]
  rw [land_mul_pow hd64, land_mul_pow hX29, land_pow_sub_one hY29]
  rw [Nat.lor_assoc]
  rw [lor_mul_pow_add hY29]
  have hsum : 2 ^ 29 * X + Y < 2 ^ 58 := by
    calc 2 ^ 29 * X + Y < 2 ^ 29 * X + 2 ^ 29 := by omega
    _ = 2 ^ 29 * (X + 1) := by ring
    _ ≤ 2 ^ 29 * 2 ^ 29 := Nat.mul_le_mul_left _ (by omega)
    _ = 2 ^ 58 := by norm_num
  rw [lor_mul_pow_add hsum]
  ring

namespace QNode

variable {α : Type}

theorem WFb_elim {k d X Y : Nat} {t : QNode α} (h : WFb k d X Y t = true) :
    t.isNil = false ∧ t.depth = d ∧ d ≤ k ∧ X < 2 ^ d ∧ Y < 2 ^ d ∧
    t.px1 = (X : Int) * 2 ^ (k - d) ∧ t.py1 = (Y : Int) * 2 ^ (k - d) ∧
    t.px2 = ((X : Int) + 1) * 2 ^ (k - d) - 1 ∧
    t.py2 = ((Y : Int) + 1) * 2 ^ (k - d) - 1 := by
  cases t with
  | nil => simp [WFb] at h
  | mk lf d' x1 y1 x2 y2 c0 c1 c2 c3 os =>
      simp only [WFb, decide_eq_true_eq] at h
      obtain ⟨h1, h2, h3, h4, h5, h6, h7, h8, -⟩ := h
      subst h1
      exact ⟨rfl, rfl, h2, h3, h4, h5, h6, h7, h8⟩

theorem WFb_leaf {k d X Y : Nat} {t : QNode α} (h : WFb k d X Y t = true)
    (hl : t.leafFlag = true) :
    t.child 0 = nil ∧ t.child 1 = nil ∧ t.child 2 = nil ∧ t.child 3 = nil := by
  cases t with
  | nil => simp [WFb] at h
  | mk lf d' x1 y1 x2 y2 c0 c1 c2 c3 os =>
      simp only [leafFlag] at hl
      subst hl
      simp only [WFb, decide_eq_true_eq] at h
      obtain ⟨-, -, -, -, -, -, -, -, h9⟩ := h
      rw [if_pos trivial] at h9
      simp only [decide_eq_true_eq] at h9
      obtain ⟨e0, e1, e2, e3⟩ := h9
      refine ⟨?_, ?_, ?_, ?_⟩
      · cases c0
        · rfl
        · simp [isNil] at e0
      · cases c1
        · rfl
        · simp [isNil] at e1
      · cases c2
        · rfl
        · simp [isNil] at e2
      · cases c3
        · rfl
        · simp [isNil] at e3

theorem WFb_internal {k d X Y : Nat} {t : QNode α} (h : WFb k d X Y t = true)
    (hl : t.leafFlag = false) :
    t.objs = [] ∧ d < k ∧
    WFb k (d + 1) (2 * X) (2 * Y) (t.child 0) = true ∧
    WFb k (d + 1) (2 * X) (2 * Y + 1) (t.child 1) = true ∧
    WFb k (d + 1) (2 * X + 1) (2 * Y) (t.child 2) = true ∧
    WFb k (d + 1) (2 * X + 1) (2 * Y + 1) (t.child 3) = true := by
  cases t with
  | nil => simp [WFb] at h
  | mk lf d' x1 y1 x2 y2 c0 c1 c2 c3 os =>
      simp only [leafFlag] at hl
      subst hl
      simp only [WFb, decide_eq_true_eq] at h
      obtain ⟨-, -, -, -, -, -, -, -, h9⟩ := h
      rw [if_neg (by simp)] at h9
      simp only [decide_eq_true_eq] at h9
      obtain ⟨he, hdk, w0, w1, w2, w3⟩ := h9
      exact ⟨by simpa [objs, List.isEmpty_iff] using he, hdk, w0, w1, w2, w3⟩

theorem WFb_child_blk {k d X Y : Nat} {t : QNode α} (h : WFb k d X Y t = true)
    {i : Nat} (hi : (t.child i).isNil = false) :
    WFb k (d + 1) (2 * X + i / 2) (2 * Y + i % 2) (t.child i) = true := by
  have hi4 : i < 4 := isNil_child_lt hi
  by_cases hl : t.leafFlag = true
  · obtain ⟨e0, e1, e2, e3⟩ := WFb_leaf h hl
    exfalso
    match i, hi4 with
    | 0, _ => rw [e0] at hi; simp [isNil] at hi
    | 1, _ => rw [e1] at hi; simp [isNil] at hi
    | 2, _ => rw [e2] at hi; simp [isNil] at hi
    | 3, _ => rw [e3] at hi; simp [isNil] at hi
  · obtain ⟨-, -, w0, w1, w2, w3⟩ := WFb_internal h (by simpa using hl)
    match i, hi4 with
    | 0, _ => simpa using w0
    | 1, _ => simpa using w1
    | 2, _ => simpa using w2
    | 3, _ => simpa using w3

end QNode

namespace QNode

variable {α : Type}

/-- Along a valid path, well-formedness is preserved with the node's block
computed from the path. -/
theorem WFb_path {k : Nat} :
    ∀ (q : List Nat) (t : QNode α) (d X Y : Nat), WFb k d X Y t = true →
      (t.subAt q).isNil = false →
      WFb k (d + q.length) (pathXa X q) (pathYa Y q) (t.subAt q) = true := by
  intro q
  induction q with
  | nil =>
      intro t d X Y h hv
      simpa [pathXa, pathYa] using h
  | cons i q ih =>
      intro t d X Y h hv
      rw [show t.subAt (i :: q) = (t.child i).subAt q from rfl] at hv
      have hci : (t.child i).isNil = false := by
        by_contra hc
        rw [show (t.child i) = nil by
          cases e : t.child i
          · rfl
          · rw [e] at hc; simp [isNil] at hc] at hv
        rw [show (nil : QNode α).subAt q = nil from subAt_nil q] at hv
        simp [isNil] at hv
      have hrec := ih (t.child i) (d + 1) (2 * X + i / 2) (2 * Y + i % 2)
        (WFb_child_blk h hci) hv
      rw [show d + (i :: q).length = (d + 1) + q.length by simp; omega]
      rw [show t.subAt (i :: q) = (t.child i).subAt q from rfl]
      exact hrec

end QNode

theorem pathXa_bounds :
    ∀ (q : List Nat) (X : Nat), (∀ j ∈ q, j < 4) →
      2 ^ q.length * X ≤ pathXa X q ∧ pathXa X q < 2 ^ q.length * (X + 1) := by
  intro q
  induction q with
  | nil => intro X hq; simp [pathXa]
  | cons i q ih =>
      intro X hq
      have hi4 : i < 4 := hq i (List.mem_cons_self i q)
      obtain ⟨l1, l2⟩ := ih (2 * X + i / 2)
        (fun j hj => hq j (List.mem_cons_of_mem i hj))
      have hp : (2 : Nat) ^ (i :: q).length = 2 ^ q.length * 2 := by
        simp [List.length_cons, pow_succ]
      constructor
      · calc 2 ^ (i :: q).length * X = 2 ^ q.length * (2 * X) := by
              rw [hp]; ring
        _ ≤ 2 ^ q.length * (2 * X + i / 2) :=
              Nat.mul_le_mul_left _ (by omega)
        _ ≤ pathXa (2 * X + i / 2) q := l1
      · calc pathXa X (i :: q) = pathXa (2 * X + i / 2) q := rfl
        _ < 2 ^ q.length * (2 * X + i / 2 + 1) := l2
        _ ≤ 2 ^ q.length * (2 * (X + 1)) :=
              Nat.mul_le_mul_left _ (by omega)
        _ = 2 ^ (i :: q).length * (X + 1) := by rw [hp]; ring

theorem pathYa_bounds :
    ∀ (q : List Nat) (Y : Nat),
      2 ^ q.length * Y ≤ pathYa Y q ∧ pathYa Y q < 2 ^ q.length * (Y + 1) := by
  intro q
  induction q with
  | nil => intro Y; simp [pathYa]
  | cons i q ih =>
      intro Y
      obtain ⟨l1, l2⟩ := ih (2 * Y + i % 2)
      have hi2 : i % 2 ≤ 1 := by omega
      have hp : (2 : Nat) ^ (i :: q).length = 2 ^ q.length * 2 := by
        simp [List.length_cons, pow_succ]
      constructor
      · calc 2 ^ (i :: q).length * Y = 2 ^ q.length * (2 * Y) := by
              rw [hp]; ring
        _ ≤ 2 ^ q.length * (2 * Y + i % 2) :=
              Nat.mul_le_mul_left _ (by omega)
        _ ≤ pathYa (2 * Y + i % 2) q := l1
      · calc pathYa Y (i :: q) = pathYa (2 * Y + i % 2) q := rfl
        _ < 2 ^ q.length * (2 * Y + i % 2 + 1) := l2
        _ ≤ 2 ^ q.length * (2 * (Y + 1)) :=
              Nat.mul_le_mul_left _ (by omega)
        _ = 2 ^ (i :: q).length * (Y + 1) := by rw [hp]; ring

/-- A valid child path is determined by its length and its block codes. -/
theorem path_inj :
    ∀ (q1 q2 : List Nat) (X Y : Nat), (∀ j ∈ q1, j < 4) → (∀ j ∈ q2, j < 4) →
      q1.length = q2.length → pathXa X q1 = pathXa X q2 →
      pathYa Y q1 = pathYa Y q2 → q1 = q2 := by
  intro q1
  induction q1 with
  | nil =>
      intro q2 X Y h1 h2 hlen hx hy
      cases q2 with
      | nil => rfl
      | cons j q2 => simp at hlen
  | cons i q1 ih =>
      intro q2 X Y h1 h2 hlen hx hy
      cases q2 with
      | nil => simp at hlen
      | cons j q2 =>
          have hi4 : i < 4 := h1 i (List.mem_cons_self _ _)
          have hj4 : j < 4 := h2 j (List.mem_cons_self _ _)
          have h1' : ∀ t ∈ q1, t < 4 := fun t ht => h1 t (List.mem_cons_of_mem _ ht)
          have h2' : ∀ t ∈ q2, t < 4 := fun t ht => h2 t (List.mem_cons_of_mem _ ht)
          have hlen' : q1.length = q2.length := by simpa using hlen
          rw [show pathXa X (i :: q1) = pathXa (2 * X + i / 2) q1 from rfl,
            show pathXa X (j :: q2) = pathXa (2 * X + j / 2) q2 from rfl] at hx
          rw [show pathYa Y (i :: q1) = pathYa (2 * Y + i % 2) q1 from rfl,
            show pathYa Y (j :: q2) = pathYa (2 * Y + j % 2) q2 from rfl] at hy
          have hbX : i / 2 = j / 2 := by
            by_contra hne
            obtain ⟨a1, b1⟩ := pathXa_bounds q1 (2 * X + i / 2) h1'
            obtain ⟨a2, b2⟩ := pathXa_bounds q2 (2 * X + j / 2) h2'
            rw [hlen'] at a1 b1
            rcases Nat.lt_or_ge (i / 2) (j / 2) with hlt | hge
            · have hc : 2 ^ q2.length * (2 * X + i / 2 + 1) ≤
                  2 ^ q2.length * (2 * X + j / 2) :=
                Nat.mul_le_mul_left _ (by omega)
              omega
            · have hlt2 : j / 2 < i / 2 := by omega
              have hc : 2 ^ q2.length * (2 * X + j / 2 + 1) ≤
                  2 ^ q2.length * (2 * X + i / 2) :=
                Nat.mul_le_mul_left _ (by omega)
              omega
          have hbY : i % 2 = j % 2 := by
            by_contra hne
            obtain ⟨a1, b1⟩ := pathYa_bounds q1 (2 * Y + i % 2)
            obtain ⟨a2, b2⟩ := pathYa_bounds q2 (2 * Y + j % 2)
            rw [hlen'] at a1 b1
            rcases Nat.lt_or_ge (i % 2) (j % 2) with hlt | hge
            · have hc : 2 ^ q2.length * (2 * Y + i % 2 + 1) ≤
                  2 ^ q2.length * (2 * Y + j % 2) :=
                Nat.mul_le_mul_left _ (by omega)
              omega
            · have hlt2 : j % 2 < i % 2 := by omega
              have hc : 2 ^ q2.length * (2 * Y + j % 2 + 1) ≤
                  2 ^ q2.length * (2 * Y + i % 2) :=
                Nat.mul_le_mul_left _ (by omega)
              omega
          have hij : i = j := by omega
          subst hij
          have : q1 = q2 := ih q2 (2 * X + i / 2) (2 * Y + i % 2) h1' h2'
            hlen' hx hy
          rw [this]

namespace QNode

variable {α : Type}

theorem subAt_valid_entries :
    ∀ (q : List Nat) (t : QNode α), (t.subAt q).isNil = false →
      ∀ j ∈ q, j < 4 := by
  intro q
  induction q with
  | nil => intro t hv j hj; simp at hj
  | cons i q ih =>
      intro t hv j hj
      rw [show t.subAt (i :: q) = (t.child i).subAt q from rfl] at hv
      have hci : (t.child i).isNil = false := by
        by_contra hc
        rw [show (t.child i) = nil by
          cases e : t.child i
          · rfl
          · rw [e] at hc; simp [isNil] at hc] at hv
        rw [subAt_nil] at hv
        simp [isNil] at hv
      rcases List.mem_cons.mp hj with hj | hj
      · subst hj; exact isNil_child_lt hci
      · exact ih (t.child i) hv j hj

theorem subAt_mem_allNodes :
    ∀ (q : List Nat) (t : QNode α), (t.subAt q).isNil = false →
      t.subAt q ∈ t.allNodes := by
  intro q
  induction q with
  | nil =>
      intro t hv
      cases t with
      | nil => simp [subAt, isNil] at hv
      | mk lf d x1 y1 x2 y2 c0 c1 c2 c3 os =>
          exact List.mem_cons_self _ _
  | cons i q ih =>
      intro t hv
      rw [show t.subAt (i :: q) = (t.child i).subAt q from rfl] at hv ⊢
      have hci : (t.child i).isNil = false := by
        by_contra hc
        rw [show (t.child i) = nil by
          cases e : t.child i
          · rfl
          · rw [e] at hc; simp [isNil] at hc] at hv
        rw [subAt_nil] at hv
        simp [isNil] at hv
      have hi4 : i < 4 := isNil_child_lt hci
      have hmem := ih (t.child i) hv
      cases t with
      | nil => simp [child, isNil] at hci
      | mk lf d x1 y1 x2 y2 c0 c1 c2 c3 os =>
          simp only [allNodes, List.mem_cons, List.mem_append, or_assoc]
          match i, hi4 with
          | 0, _ => exact Or.inr (Or.inl hmem)
          | 1, _ => exact Or.inr (Or.inr (Or.inl hmem))
          | 2, _ => exact Or.inr (Or.inr (Or.inr (Or.inl hmem)))
          | 3, _ => exact Or.inr (Or.inr (Or.inr (Or.inr hmem)))

end QNode

namespace QState

variable {α : Type} [DecidableEq α]

/-- If the derived lookup misses, no live node carries that id. -/
theorem findIdAux_complete {s : QState α} {id : Nat} :
    ∀ {t : QNode α}, s.findIdAux id t = none →
      ∀ nn ∈ t.allNodes, nn.isNil = false → s.nodeId nn ≠ id := by
  intro t
  induction t with
  | nil => intro h nn hnn; simp [QNode.allNodes] at hnn
  | mk lf d x1 y1 x2 y2 c0 c1 c2 c3 os ih0 ih1 ih2 ih3 =>
      intro h nn hnn hnil
      rw [findIdAux] at h
      by_cases hq : s.nodeId (QNode.mk lf d x1 y1 x2 y2 c0 c1 c2 c3 os) = id
      · rw [if_pos hq] at h
        exact absurd h (by simp)
      · rw [if_neg hq] at h
        cases e0 : s.findIdAux id c0 with
        | some p =>
            rw [e0] at h
            exact absurd h (by simp)
        | none =>
        rw [e0] at h
        cases e1 : s.findIdAux id c1 with
        | some p =>
            rw [e1] at h
            exact absurd h (by simp)
        | none =>
        rw [e1] at h
        cases e2 : s.findIdAux id c2 with
        | some p =>
            rw [e2] at h
            exact absurd h (by simp)
        | none =>
        rw [e2] at h
        cases e3 : s.findIdAux id c3 with
        | some p =>
            rw [e3] at h
            exact absurd h (by simp)
        | none =>
        simp only [QNode.allNodes, List.mem_cons, List.mem_append, or_assoc] at hnn
        rcases hnn with hnn | hnn | hnn | hnn | hnn
        · subst hnn; exact hq
        · exact ih0 e0 nn hnn hnil
        · exact ih1 e1 nn hnn hnil
        · exact ih2 e2 nn hnn hnil
        · exact ih3 e3 nn hnn hnil

end QState

namespace QState

variable {α : Type} [DecidableEq α]

/-- On a power-of-two square region, a well-formed node's id is its
`(depth, X-block, Y-block)` triple, packed additively into disjoint
fields. -/
theorem nodeId_of_WFb {s : QState α} {k dt Xt Yt : Nat} {t : QNode α}
    (hk : k ≤ 29) (hw : s.w = 2 ^ k) (hh : s.h = 2 ^ k)
    (hWF : QNode.WFb k dt Xt Yt t = true) :
    s.nodeId t = 2 ^ 58 * dt + 2 ^ 29 * Xt + Yt := by
  obtain ⟨-, hd, hdk, hX, hY, hx1, hy1, -, -⟩ := QNode.WFb_elim hWF
  have hppos : (0 : Int) < 2 ^ (k - dt) := by positivity
  have hxlt : t.px1 < 2 ^ k := by
    rw [hx1]
    have h1 : ((Xt : Int) + 1) * 2 ^ (k - dt) ≤ (2 ^ dt : Int) * 2 ^ (k - dt) := by
      have : ((Xt : Int) + 1) ≤ (2 ^ dt : Int) := by exact_mod_cast hX
      exact mul_le_mul_of_nonneg_right this (by positivity)
    have h2 : ((2 : Int) ^ dt) * 2 ^ (k - dt) = 2 ^ k := by
      rw [← pow_add]
      congr 1
      omega
    nlinarith
  have hylt : t.py1 < 2 ^ k := by
    rw [hy1]
    have h1 : ((Yt : Int) + 1) * 2 ^ (k - dt) ≤ (2 ^ dt : Int) * 2 ^ (k - dt) := by
      have : ((Yt : Int) + 1) ≤ (2 ^ dt : Int) := by exact_mod_cast hY
      exact mul_le_mul_of_nonneg_right this (by positivity)
    have h2 : ((2 : Int) ^ dt) * 2 ^ (k - dt) = 2 ^ k := by
      rw [← pow_add]
      congr 1
      omega
    nlinarith
  have hx0 : 0 ≤ t.px1 := by rw [hx1]; positivity
  have hy0 : 0 ≤ t.py1 := by rw [hy1]; positivity
  rw [nodeId, hw, hh, hd]
  rw [pack_po2 k dt t.px1 t.py1 hk hdk hx0 hxlt hy0 hylt]
  have ex : t.px1.toNat = Xt * 2 ^ (k - dt) := by
    rw [hx1]
    rw [show ((Xt : Int) * 2 ^ (k - dt)) = ((Xt * 2 ^ (k - dt) : Nat) : Int) by
      push_cast; ring]
    exact Int.toNat_natCast _
  have ey : t.py1.toNat = Yt * 2 ^ (k - dt) := by
    rw [hy1]
    rw [show ((Yt : Int) * 2 ^ (k - dt)) = ((Yt * 2 ^ (k - dt) : Nat) : Int) by
      push_cast; ring]
    exact Int.toNat_natCast _
  rw [ex, ey, Nat.mul_div_cancel _ (pow_pos (by norm_num) _),
    Nat.mul_div_cancel _ (pow_pos (by norm_num) _)]

/-- On a well-formed power-of-two tree the derived map lookup of a live
node's id returns exactly that node's path. -/
theorem mFindP_locates {s : QState α} {k : Nat}
    (hk : k ≤ 29) (hw : s.w = 2 ^ k) (hh : s.h = 2 ^ k)
    (hWF : QNode.WFb k 0 0 0 s.root = true)
    {q : List Nat} (hq : (s.root.subAt q).isNil = false) :
    s.mFindP (s.nodeId (s.root.subAt q)) = some q := by
  have hmem := QNode.subAt_mem_allNodes q s.root hq
  cases e : s.mFindP (s.nodeId (s.root.subAt q)) with
  | none =>
      exact absurd rfl (findIdAux_complete e (s.root.subAt q) hmem hq)
  | some pp =>
      obtain ⟨hpp, hid⟩ := mFindP_sound e
      -- well-formedness of both nodes with path-determined triples
      have hWq := QNode.WFb_path q s.root 0 0 0 hWF hq
      have hWp := QNode.WFb_path pp s.root 0 0 0 hWF hpp
      rw [show (0 : Nat) + q.length = q.length by omega] at hWq
      rw [show (0 : Nat) + pp.length = pp.length by omega] at hWp
      have hidq := nodeId_of_WFb hk hw hh hWq
      have hidp := nodeId_of_WFb hk hw hh hWp
      rw [hidq, hidp] at hid
      -- bounds to split the fields
      obtain ⟨-, -, hdq, hXq, hYq, -, -, -, -⟩ := QNode.WFb_elim hWq
      obtain ⟨-, -, hdp, hXp, hYp, -, -, -, -⟩ := QNode.WFb_elim hWp
      have hb : (2 : Nat) ^ q.length ≤ 2 ^ 29 :=
        Nat.pow_le_pow_right (by norm_num) (by omega)
      have hb' : (2 : Nat) ^ pp.length ≤ 2 ^ 29 :=
        Nat.pow_le_pow_right (by norm_num) (by omega)
      have hXq' : pathXa 0 q < 2 ^ 29 := lt_of_lt_of_le hXq hb
      have hYq' : pathYa 0 q < 2 ^ 29 := lt_of_lt_of_le hYq hb
      have hXp' : pathXa 0 pp < 2 ^ 29 := lt_of_lt_of_le hXp hb'
      have hYp' : pathYa 0 pp < 2 ^ 29 := lt_of_lt_of_le hYp hb'
      have hdq' : q.length ≤ 29 := by omega
      have hdp' : pp.length ≤ 29 := by omega
      have hlen : pp.length = q.length := by omega
      have hXe : pathXa 0 pp = pathXa 0 q := by omega
      have hYe : pathYa 0 pp = pathYa 0 q := by omega
      rw [path_inj pp q 0 0 (QNode.subAt_valid_entries pp s.root hpp)
        (QNode.subAt_valid_entries q s.root hq) hlen hXe hYe]

end QState

namespace QNode

variable {α : Type}

theorem sameShape_symm {a b : QNode α} :
    sameShape a b → sameShape b a := by
  induction a generalizing b with
  | nil =>
      intro h
      cases b with
      | nil => trivial
      | mk lf d x1 y1 x2 y2 c0 c1 c2 c3 os => exact absurd h (by simp [sameShape])
  | mk lf d x1 y1 x2 y2 c0 c1 c2 c3 os ih0 ih1 ih2 ih3 =>
      intro h
      cases b with
      | nil => exact absurd h (by simp [sameShape])
      | mk lf' d' x1' y1' x2' y2' c0' c1' c2' c3' os' =>
          obtain ⟨e1, e2, e3, e4, e5, e6, h0, h1, h2, h3⟩ := h
          exact ⟨e1.symm, e2.symm, e3.symm, e4.symm, e5.symm, e6.symm,
            ih0 h0, ih1 h1, ih2 h2, ih3 h3⟩

theorem setAt_nilpath (t r : QNode α) : t.setAt [] r = r := by
  cases t <;> rfl

theorem subAt_concat_child (t : QNode α) (q : List Nat) (i : Nat) :
    t.subAt (q ++ [i]) = (t.subAt q).child i := by
  rw [subAt_append]
  rfl

theorem setAt_single_px1 (m : QNode α) (i : Nat) (rep : QNode α) :
    (m.setAt [i] rep).px1 = m.px1 := by
  cases m
  · rfl
  · match i with
    | 0 => rfl
    | 1 => rfl
    | 2 => rfl
    | 3 => rfl
    | (j + 4) => rfl

theorem setAt_single_py1 (m : QNode α) (i : Nat) (rep : QNode α) :
    (m.setAt [i] rep).py1 = m.py1 := by
  cases m
  · rfl
  · match i with
    | 0 => rfl
    | 1 => rfl
    | 2 => rfl
    | 3 => rfl
    | (j + 4) => rfl

theorem setAt_single_px2 (m : QNode α) (i : Nat) (rep : QNode α) :
    (m.setAt [i] rep).px2 = m.px2 := by
  cases m
  · rfl
  · match i with
    | 0 => rfl
    | 1 => rfl
    | 2 => rfl
    | 3 => rfl
    | (j + 4) => rfl

theorem setAt_single_py2 (m : QNode α) (i : Nat) (rep : QNode α) :
    (m.setAt [i] rep).py2 = m.py2 := by
  cases m
  · rfl
  · match i with
    | 0 => rfl
    | 1 => rfl
    | 2 => rfl
    | 3 => rfl
    | (j + 4) => rfl

theorem setAt_single_child_self {m : QNode α} (hm : m.isNil = false)
    {i : Nat} (hi : i < 4) (rep : QNode α) :
    (m.setAt [i] rep).child i = rep := by
  cases m with
  | nil => simp [isNil] at hm
  | mk lf d x1 y1 x2 y2 c0 c1 c2 c3 os =>
      match i, hi with
      | 0, _ => exact setAt_nilpath c0 rep
      | 1, _ => exact setAt_nilpath c1 rep
      | 2, _ => exact setAt_nilpath c2 rep
      | 3, _ => exact setAt_nilpath c3 rep

theorem setAt_single_child_other {m : QNode α} {i j : Nat} (hne : j ≠ i)
    (hi : i < 4) (hj : j < 4) (rep : QNode α) :
    (m.setAt [i] rep).child j = m.child j := by
  cases m with
  | nil => rfl
  | mk lf d x1 y1 x2 y2 c0 c1 c2 c3 os =>
      match i, j, hi, hj, hne with
      | 0, 0, _, _, hc => exact absurd rfl hc
      | 1, 1, _, _, hc => exact absurd rfl hc
      | 2, 2, _, _, hc => exact absurd rfl hc
      | 3, 3, _, _, hc => exact absurd rfl hc
      | 0, 1, _, _, _ => rfl
      | 0, 2, _, _, _ => rfl
      | 0, 3, _, _, _ => rfl
      | 1, 0, _, _, _ => rfl
      | 1, 2, _, _, _ => rfl
      | 1, 3, _, _, _ => rfl
      | 2, 0, _, _, _ => rfl
      | 2, 1, _, _, _ => rfl
      | 2, 3, _, _, _ => rfl
      | 3, 0, _, _, _ => rfl
      | 3, 1, _, _, _ => rfl
      | 3, 2, _, _, _ => rfl

theorem subCount_children (m : QNode α) (hm : m.isNil = false) :
    m.subCount = m.objs.length +
      ((m.child 0).subCount + (m.child 1).subCount +
        (m.child 2).subCount + (m.child 3).subCount) := by
  cases m
  · simp [isNil] at hm
  · rfl

theorem subCount_of_children_nil {c : QNode α} (h0 : c.child 0 = nil)
    (h1 : c.child 1 = nil) (h2 : c.child 2 = nil) (h3 : c.child 3 = nil) :
    c.subCount = c.objs.length := by
  cases c with
  | nil => rfl
  | mk lf d x1 y1 x2 y2 c0 c1 c2 c3 os =>
      simp only [child] at h0 h1 h2 h3
      subst h0
      subst h1
      subst h2
      subst h3
      simp [subCount, objs]

end QNode

theorem div_pow_succ (a e : Nat) : a * 2 ^ e / 2 ^ (e + 1) = a / 2 := by
  rw [pow_succ, show a * 2 ^ e = 2 ^ e * a by ring,
    show (2 : Nat) ^ e * 2 = 2 ^ e * 2 by rfl,
    Nat.mul_div_mul_left _ _ (pow_pos (by norm_num) e)]

namespace QState

variable {α : Type} [DecidableEq α]

theorem splitable_mono {s : QState α} (hm : MonoSsf s.ssf) {x1 y1 x2 y2 : Int}
    {n n' : Int} (hle : n ≤ n') (h : s.splitable x1 y1 x2 y2 n = true) :
    s.splitable x1 y1 x2 y2 n' = true := by
  rw [splitable] at h ⊢
  by_cases hc : x1 = x2 ∧ y1 = y2
  · rw [if_pos hc] at h
    cases h
  · rw [if_neg hc] at h ⊢
    cases e : s.ssf with
    | none => rfl
    | some f =>
        rw [e] at h
        have h' : (if f (y2 - y1 + 1) (x2 - x1 + 1) n = true then false
            else true) = true := h
        show (if f (y2 - y1 + 1) (x2 - x1 + 1) n' = true then false
            else true) = true
        have hm' : ∀ a b n m, m ≤ n → f a b n = true → f a b m = true := by
          rw [e] at hm
          exact hm
        have hfn : ¬ f (y2 - y1 + 1) (x2 - x1 + 1) n = true := by
          intro hf
          rw [if_pos hf] at h'
          cases h'
        by_cases hf' : f (y2 - y1 + 1) (x2 - x1 + 1) n' = true
        · exact absurd (hm' _ _ n' n hle hf') hfn
        · rw [if_neg hf']

end QState

namespace QNode

variable {α : Type}

theorem WFb_coord_bounds {k dt Xt Yt : Nat} {t : QNode α}
    (h : WFb k dt Xt Yt t = true) :
    0 ≤ t.px1 ∧ t.px1 < (2 ^ k : Int) ∧ t.px1.toNat = Xt * 2 ^ (k - dt) ∧
    0 ≤ t.py1 ∧ t.py1 < (2 ^ k : Int) ∧ t.py1.toNat = Yt * 2 ^ (k - dt) := by
  obtain ⟨-, hd, hdk, hX, hY, hx1, hy1, -, -⟩ := WFb_elim h
  have h2 : ((2 : Int) ^ dt) * 2 ^ (k - dt) = 2 ^ k := by
    rw [← pow_add]
    congr 1
    omega
  refine ⟨?_, ?_, ?_, ?_, ?_, ?_⟩
  · rw [hx1]; positivity
  · rw [hx1]
    have he : (0 : Int) < 2 ^ (k - dt) := by positivity
    have h1 : ((Xt : Int) + 1) * 2 ^ (k - dt) ≤ (2 ^ dt : Int) * 2 ^ (k - dt) := by
      have : ((Xt : Int) + 1) ≤ (2 ^ dt : Int) := by exact_mod_cast hX
      exact mul_le_mul_of_nonneg_right this (by positivity)
    have h3 : ((Xt : Int) + 1) * 2 ^ (k - dt) =
        (Xt : Int) * 2 ^ (k - dt) + 2 ^ (k - dt) := by ring
    linarith
  · rw [hx1]
    rw [show ((Xt : Int) * 2 ^ (k - dt)) = ((Xt * 2 ^ (k - dt) : Nat) : Int) by
      push_cast; ring]
    exact Int.toNat_natCast _
  · rw [hy1]; positivity
  · rw [hy1]
    have he : (0 : Int) < 2 ^ (k - dt) := by positivity
    have h1 : ((Yt : Int) + 1) * 2 ^ (k - dt) ≤ (2 ^ dt : Int) * 2 ^ (k - dt) := by
      have : ((Yt : Int) + 1) ≤ (2 ^ dt : Int) := by exact_mod_cast hY
      exact mul_le_mul_of_nonneg_right this (by positivity)
    have h3 : ((Yt : Int) + 1) * 2 ^ (k - dt) =
        (Yt : Int) * 2 ^ (k - dt) + 2 ^ (k - dt) := by ring
    linarith
  · rw [hy1]
    rw [show ((Yt : Int) * 2 ^ (k - dt)) = ((Yt * 2 ^ (k - dt) : Nat) : Int) by
      push_cast; ring]
    exact Int.toNat_natCast _

end QNode

namespace QState

variable {α : Type} [DecidableEq α]

theorem guard_split_none {s t : QState α}
    (hmono : MonoSsf s.ssf) (htf : t.ssf = s.ssf)
    (x1 y1 x2 y2 m n : Int) (q : List Nat) (G : Prop) [Decidable G]
    (hI4 : s.splitable x1 y1 x2 y2 m = true) (hmn : G → m ≤ n) :
    (if ¬G then (none : Option (List Nat)) else
      if t.splitable x1 y1 x2 y2 n = true then none else some q) = none := by
  by_cases hG : G
  · have hsp : t.splitable x1 y1 x2 y2 n = true := by
      rw [splitable_congr htf]
      exact splitable_mono hmono (hmn hG) hI4
    rw [if_neg (not_not_intro hG), if_pos hsp]
  · rw [if_pos hG]

/-- On a well-formed power-of-two tree satisfying I4 under a monotone
predicate, `mergeable` never fires — also on any objects-only variant of
the tree whose target leaf holds at least as many objects as before. -/
theorem mergeableAt_none_po2 {s t : QState α} {k : Nat} {p : List Nat}
    {os : List (ObjKey α)}
    (hk : k ≤ 29) (hw : s.w = 2 ^ k) (hh : s.h = 2 ^ k)
    (hWF : QNode.WFb k 0 0 0 s.root = true)
    (hI4 : s.checkI4 = true) (hmono : MonoSsf s.ssf)
    (hv : (s.root.subAt p).isNil = false)
    (htw : t.w = s.w) (hth : t.h = s.h) (htf : t.ssf = s.ssf)
    (htroot : t.root = s.root.setAt p ((s.root.subAt p).setObjs os))
    (hlen : (s.root.subAt p).objs.length ≤ os.length) :
    t.mergeableAt p = none := by
  rw [mergeableAt]
  by_cases hp : p = []
  · rw [if_pos hp]
  rw [if_neg hp]
  simp only []
  have hnt : t.root.subAt p = (s.root.subAt p).setObjs os := by
    rw [htroot, QNode.setAt_subAt _ hv]
  by_cases hlf : (s.root.subAt p).leafFlag = true
  case neg =>
    have hlfn : (t.root.subAt p).leafFlag = false := by
      rw [hnt, QNode.setObjs_leafFlag]
      simpa using hlf
    rw [if_pos (by simp [hlfn])]
  case pos =>
  have hlft : (t.root.subAt p).leafFlag = true := by
    rw [hnt, QNode.setObjs_leafFlag]
    exact hlf
  rw [if_neg (by simp [hlft])]
  by_cases hd0 : (t.root.subAt p).depth = 0
  · rw [if_pos hd0]
  rw [if_neg hd0]
  rcases List.eq_nil_or_concat p with hpe | ⟨q, i, hpq⟩
  · exact absurd hpe hp
  subst hpq
  simp only [List.concat_eq_append] at hv hnt hlf hlft hd0 htroot hlen ⊢
  set M := s.root.subAt q with hM
  have hci : (M.child i).isNil = false := by
    rw [hM, ← QNode.subAt_concat_child]
    exact hv
  have hvq : M.isNil = false := QNode.isNil_of_child hci
  have hi4 : i < 4 := QNode.isNil_child_lt hci
  have hvq' : (s.root.subAt q).isNil = false := by rw [← hM]; exact hvq
  have hWm := QNode.WFb_path q s.root 0 0 0 hWF hvq'
  rw [show (0 : Nat) + q.length = q.length by omega] at hWm
  rw [← hM] at hWm
  have hlfm : M.leafFlag = false := by
    by_cases hx : M.leafFlag = true
    · obtain ⟨e0, e1, e2, e3⟩ := QNode.WFb_leaf hWm hx
      exfalso
      match i, hi4 with
      | 0, _ => rw [e0] at hci; simp [QNode.isNil] at hci
      | 1, _ => rw [e1] at hci; simp [QNode.isNil] at hci
      | 2, _ => rw [e2] at hci; simp [QNode.isNil] at hci
      | 3, _ => rw [e3] at hci; simp [QNode.isNil] at hci
    · simpa using hx
  have hWn := QNode.WFb_child_blk hWm hci
  obtain ⟨-, hdn, hdnk, hXn, hYn, -, -, -, -⟩ := QNode.WFb_elim hWn
  have hchild : s.root.subAt (q ++ [i]) = M.child i := by
    rw [QNode.subAt_concat_child, ← hM]
  rw [hchild] at hnt hlf hlen
  have hnleaf : (M.child i).leafFlag = true := hlf
  have hdt : (t.root.subAt (q ++ [i])).depth = q.length + 1 := by
    rw [hnt, QNode.setObjs_depth, hdn]
  have hpxt : (t.root.subAt (q ++ [i])).px1 = (M.child i).px1 := by
    rw [hnt, QNode.setObjs_px1]
  have hpyt : (t.root.subAt (q ++ [i])).py1 = (M.child i).py1 := by
    rw [hnt, QNode.setObjs_py1]
  rw [hdt, hpxt, hpyt, htw, hth, hw, hh]
  rw [show q.length + 1 - 1 = q.length from rfl]
  obtain ⟨-, hdm, hdmk, hXm, hYm, -, -, -, -⟩ := QNode.WFb_elim hWm
  obtain ⟨hdklt⟩ := And.intro (QNode.WFb_internal hWm hlfm).2.1 trivial
  obtain ⟨h0x, hkx, hex, h0y, hky, hey⟩ := QNode.WFb_coord_bounds hWn
  have hidm := nodeId_of_WFb hk hw hh hWm
  have hpack : pack q.length (M.child i).px1 (M.child i).py1 (2 ^ k) (2 ^ k) =
      s.nodeId M := by
    rw [pack_po2 k q.length _ _ hk hdmk h0x hkx h0y hky]
    rw [hex, hey]
    rw [show k - q.length = (k - (q.length + 1)) + 1 by omega]
    rw [div_pow_succ, div_pow_succ]
    rw [show (2 * pathXa 0 q + i / 2) / 2 = pathXa 0 q by omega]
    rw [show (2 * pathYa 0 q + i % 2) / 2 = pathYa 0 q by omega]
    rw [hidm]
  rw [hpack]
  have hshape : QNode.sameShape t.root s.root := by
    rw [htroot]
    exact QNode.sameShape_symm (QNode.sameShape_setObjsAt hv os)
  have hfm : t.mFindP (s.nodeId M) = s.mFindP (s.nodeId M) := by
    rw [mFindP, mFindP]
    exact findIdAux_congr htw hth _ hshape
  have hloc : s.mFindP (s.nodeId M) = some q := by
    rw [hM]
    exact mFindP_locates hk hw hh hWF hvq'
  rw [hfm, hloc]
  simp only []
  have hpart : t.root.subAt q = M.setAt [i] ((M.child i).setObjs os) := by
    rw [htroot, QNode.subAt_setAt_prefix q s.root i [], hchild, ← hM]
  rw [hpart]
  rw [QNode.setAt_single_px1, QNode.setAt_single_py1, QNode.setAt_single_px2,
    QNode.setAt_single_py2]
  have hchild0 : ∀ j, j < 4 →
      (M.setAt [i] ((M.child i).setObjs os)).child j =
        if j = i then (M.child i).setObjs os else M.child j := by
    intro j hj
    by_cases hji : j = i
    · subst hji
      rw [if_pos rfl]
      exact QNode.setAt_single_child_self hvq hi4 _
    · rw [if_neg hji]
      exact QNode.setAt_single_child_other hji hi4 hj _
  rw [hchild0 0 (by omega), hchild0 1 (by omega), hchild0 2 (by omega),
    hchild0 3 (by omega)]
  obtain ⟨hOm, -, hw0, hw1, hw2, hw3⟩ := QNode.WFb_internal hWm hlfm
  have hnn0 : (M.child 0).isNil = false := (QNode.WFb_elim hw0).1
  have hnn1 : (M.child 1).isNil = false := (QNode.WFb_elim hw1).1
  have hnn2 : (M.child 2).isNil = false := (QNode.WFb_elim hw2).1
  have hnn3 : (M.child 3).isNil = false := (QNode.WFb_elim hw3).1
  have hI4m : s.splitable M.px1 M.py1 M.px2 M.py2 (M.subCount : Int) = true := by
    have hmem := QNode.subAt_mem_allNodes q s.root hvq'
    rw [← hM] at hmem
    rcases (checkI4_iff s).mp hI4 M hmem with hcon | hok2
    · rw [hlfm] at hcon
      cases hcon
    · exact hok2
  have hobjrep : ((M.child i).setObjs os).objs = os :=
    QNode.setObjs_objs hci os
  refine guard_split_none hmono htf _ _ _ _ _ _ _ _ hI4m ?_
  intro hG
  simp only [decide_eq_true_eq] at hG
  obtain ⟨hg0, hg1, hg2, hg3⟩ := hG
  have hL : ∀ j, j < 4 →
      ((if j = i then (M.child i).setObjs os else M.child j).isNil = true ∨
        (if j = i then (M.child i).setObjs os else M.child j).leafFlag = true) →
      (M.child j).leafFlag = true := by
    intro j hj hgj
    by_cases hji : j = i
    · subst hji
      exact hnleaf
    · rw [if_neg hji] at hgj
      rcases hgj with hgj | hgj
      · exfalso
        match j, hj with
        | 0, _ => rw [hgj] at hnn0; cases hnn0
        | 1, _ => rw [hgj] at hnn1; cases hnn1
        | 2, _ => rw [hgj] at hnn2; cases hnn2
        | 3, _ => rw [hgj] at hnn3; cases hnn3
      · exact hgj
  have hL0 : (M.child 0).leafFlag = true := hL 0 (by omega) hg0
  have hL1 : (M.child 1).leafFlag = true := hL 1 (by omega) hg1
  have hL2 : (M.child 2).leafFlag = true := hL 2 (by omega) hg2
  have hL3 : (M.child 3).leafFlag = true := hL 3 (by omega) hg3
  have hs0 : (M.child 0).subCount = (M.child 0).objs.length := by
    obtain ⟨e0, e1, e2, e3⟩ := QNode.WFb_leaf hw0 hL0
    exact QNode.subCount_of_children_nil e0 e1 e2 e3
  have hs1 : (M.child 1).subCount = (M.child 1).objs.length := by
    obtain ⟨e0, e1, e2, e3⟩ := QNode.WFb_leaf hw1 hL1
    exact QNode.subCount_of_children_nil e0 e1 e2 e3
  have hs2 : (M.child 2).subCount = (M.child 2).objs.length := by
    obtain ⟨e0, e1, e2, e3⟩ := QNode.WFb_leaf hw2 hL2
    exact QNode.subCount_of_children_nil e0 e1 e2 e3
  have hs3 : (M.child 3).subCount = (M.child 3).objs.length := by
    obtain ⟨e0, e1, e2, e3⟩ := QNode.WFb_leaf hw3 hL3
    exact QNode.subCount_of_children_nil e0 e1 e2 e3
  have hsubM : M.subCount = (M.child 0).objs.length +
      (M.child 1).objs.length + (M.child 2).objs.length +
      (M.child 3).objs.length := by
    rw [QNode.subCount_children M hvq, hOm, hs0, hs1, hs2, hs3]
    simp
  rw [hsubM]
  interval_cases i
  · simp
    rw [hobjrep]
    push_cast
    omega
  · simp
    rw [hobjrep]
    push_cast
    omega
  · simp
    rw [hobjrep]
    push_cast
    omega
  · simp
    rw [hobjrep]
    push_cast
    omega

/-- `mergeHelper` stops immediately when `mergeable` fails. -/
theorem mergeHelperAt_of_none {s : QState α} {p : List Nat}
    (h : s.mergeableAt p = none) :
    ∀ fuel, s.mergeHelperAt fuel p = (s, p) := by
  intro fuel
  cases fuel with
  | zero => rfl
  | succ fuel =>
      rw [mergeHelperAt, h]

/-- `tryMergeUp` is a no-op when `mergeable` fails at the starting node. -/
theorem tryMergeUpAt_of_none {s : QState α} {p : List Nat}
    (h : s.mergeableAt p = none) : s.tryMergeUpAt p = (s, false) := by
  simp only [tryMergeUpAt, mergeHelperAt_of_none h 64]
  simp

/-- `trySplitDown` is a no-op when the split condition fails. -/
theorem trySplitDownAt_of_not {s : QState α} {p : List Nat}
    (h : ¬((s.root.subAt p).leafFlag = true ∧
      s.splitable (s.root.subAt p).px1 (s.root.subAt p).py1
        (s.root.subAt p).px2 (s.root.subAt p).py2
        ((s.root.subAt p).objs.length : Int) = true)) :
    s.trySplitDownAt p = (s, false) := by
  simp only [trySplitDownAt]
  split
  · rename_i hc
    exact absurd hc h
  · rfl

/-- On a power-of-two well-formed tree, adding a fresh object to a leaf
whose rectangle stays not-splittable only inserts the object: no split and
no merge follows. -/
theorem Add_insert_po2 {s : QState α} {k : Nat} {x y : Int} {o : α}
    {p : List Nat}
    (hk : k ≤ 29) (hw : s.w = 2 ^ k) (hh : s.h = 2 ^ k)
    (hWF : QNode.WFb k 0 0 0 s.root = true)
    (hI4 : s.checkI4 = true) (hmono : MonoSsf s.ssf)
    (hx0 : 0 ≤ x) (hx1 : x < s.h) (hy0 : 0 ≤ y) (hy1 : y < s.w)
    (hfind : s.findLoopP x y 64 0 (s.maxd : Int) = some p)
    (hfresh : (x, y, o) ∉ (s.root.subAt p).objs)
    (hnosplit : s.splitable (s.root.subAt p).px1 (s.root.subAt p).py1
      (s.root.subAt p).px2 (s.root.subAt p).py2
      (((s.root.subAt p).objs.length : Int) + 1) = false) :
    s.Add x y o =
      { s with
        root := s.root.setAt p
          ((s.root.subAt p).setObjs ((x, y, o) :: (s.root.subAt p).objs))
        numObjects := s.numObjects + 1 } := by
  obtain ⟨hv, hlf⟩ := findLoopP_sound hfind
  rw [Add, if_neg (not_not_intro ⟨hx0, hx1, hy0, hy1⟩), hfind]
  simp only []
  rw [if_neg hfresh]
  have hts : QState.trySplitDownAt
      ({ s with
        root := s.root.setAt p
          ((s.root.subAt p).setObjs ((x, y, o) :: (s.root.subAt p).objs))
        numObjects := s.numObjects + 1 } : QState α) p =
      (({ s with
        root := s.root.setAt p
          ((s.root.subAt p).setObjs ((x, y, o) :: (s.root.subAt p).objs))
        numObjects := s.numObjects + 1 } : QState α), false) := by
    refine trySplitDownAt_of_not ?_
    intro hc
    have h2 : s.splitable
        ((s.root.setAt p ((s.root.subAt p).setObjs
          ((x, y, o) :: (s.root.subAt p).objs))).subAt p).px1
        ((s.root.setAt p ((s.root.subAt p).setObjs
          ((x, y, o) :: (s.root.subAt p).objs))).subAt p).py1
        ((s.root.setAt p ((s.root.subAt p).setObjs
          ((x, y, o) :: (s.root.subAt p).objs))).subAt p).px2
        ((s.root.setAt p ((s.root.subAt p).setObjs
          ((x, y, o) :: (s.root.subAt p).objs))).subAt p).py2
        (((s.root.setAt p ((s.root.subAt p).setObjs
          ((x, y, o) :: (s.root.subAt p).objs))).subAt p).objs.length : Int) =
        true := hc.2
    rw [QNode.setAt_subAt _ hv] at h2
    rw [QNode.setObjs_px1, QNode.setObjs_py1, QNode.setObjs_px2,
      QNode.setObjs_py2, QNode.setObjs_objs hv, List.length_cons] at h2
    push_cast at h2
    rw [hnosplit] at h2
    exact absurd h2 Bool.false_ne_true
  rw [hts]
  simp only []
  rw [if_neg Bool.false_ne_true]
  have hmrg : QState.mergeableAt
      ({ s with
        root := s.root.setAt p
          ((s.root.subAt p).setObjs ((x, y, o) :: (s.root.subAt p).objs))
        numObjects := s.numObjects + 1 } : QState α) p = none :=
    mergeableAt_none_po2 hk hw hh hWF hI4 hmono hv rfl rfl rfl rfl
      (by simp)
  rw [tryMergeUpAt_of_none hmrg]

/-- Removing the just-added object from the objects-only variant of a
power-of-two well-formed tree restores the original state exactly. -/
theorem Remove_restore_po2 {s t : QState α} {k : Nat} {x y : Int} {o : α}
    {p : List Nat}
    (hk : k ≤ 29) (hw : s.w = 2 ^ k) (hh : s.h = 2 ^ k)
    (hWF : QNode.WFb k 0 0 0 s.root = true)
    (hI4 : s.checkI4 = true) (hI5 : s.checkI5 = true)
    (hmono : MonoSsf s.ssf)
    (hx0 : 0 ≤ x) (hx1 : x < s.h) (hy0 : 0 ≤ y) (hy1 : y < s.w)
    (hfind : s.findLoopP x y 64 0 (s.maxd : Int) = some p)
    (htw : t.w = s.w) (hth : t.h = s.h) (htf : t.ssf = s.ssf)
    (htm : t.maxd = s.maxd) (htd : t.ndt = s.ndt)
    (htn : t.numObjects = s.numObjects + 1)
    (htl : t.numLeafNodes = s.numLeafNodes)
    (htroot : t.root = s.root.setAt p
      ((s.root.subAt p).setObjs ((x, y, o) :: (s.root.subAt p).objs))) :
    t.Remove x y o = s := by
  obtain ⟨hv, hlf⟩ := findLoopP_sound hfind
  have hrootshape : QNode.sameShape t.root s.root := by
    rw [htroot]
    exact QNode.sameShape_symm (QNode.sameShape_setObjsAt hv _)
  have hfind2 : t.findLoopP x y 64 0 (t.maxd : Int) = some p := by
    rw [findLoopP_congr htw hth hrootshape x y 64 0 (t.maxd : Int), htm]
    exact hfind
  rw [Remove, if_neg (not_not_intro
    ⟨hx0, by rw [hth]; exact hx1, hy0, by rw [htw]; exact hy1⟩), hfind2]
  simp only []
  have hsub1 : t.root.subAt p =
      (s.root.subAt p).setObjs ((x, y, o) :: (s.root.subAt p).objs) := by
    rw [htroot]
    exact QNode.setAt_subAt _ hv
  rw [hsub1, QNode.setObjs_objs hv]
  rw [if_pos (List.mem_cons_self _ _)]
  rw [List.erase_cons_head, QNode.setObjs_setObjs, QNode.setObjs_objs_self]
  have hr : t.root.setAt p (s.root.subAt p) = s.root := by
    rw [htroot, QNode.setAt_setAt, QNode.setAt_self p s.root hv]
  rw [hr, htw, hth, htf, htm, htd, htn, htl]
  rw [show s.numObjects + 1 - 1 = s.numObjects from add_sub_cancel_right _ _]
  have hS : (⟨s.w, s.h, s.ssf, s.root, s.maxd, s.ndt, s.numObjects,
      s.numLeafNodes⟩ : QState α) = s := rfl
  rw [hS]
  have hmrg2 : s.mergeableAt p = none :=
    mergeableAt_none_po2 hk hw hh hWF hI4 hmono hv rfl rfl rfl
      (by rw [QNode.setObjs_objs_self, QNode.setAt_self p s.root hv])
      (le_refl _)
  rw [tryMergeUpAt_of_none hmrg2]
  simp only []
  rw [if_neg Bool.false_ne_true]
  have hts2 : s.trySplitDownAt p = (s, false) := by
    refine trySplitDownAt_of_not ?_
    intro hc
    rcases (checkI5_iff s).mp hI5 (s.root.subAt p)
        (QNode.subAt_mem_allNodes p s.root hv) with hcon | hok
    · rw [hlf] at hcon
      cases hcon
    · rw [hok] at hc
      exact absurd hc.2 Bool.false_ne_true
  rw [hts2]

end QState

/-- C10 (amended): on a power-of-two region whose tree is exactly
well-formed and satisfies invariants I4 and I5 under a monotone splitting
stopper, performing `Add(x, y, o)` for a fresh object at an in-range
position whose leaf remains not-splittable after the insertion, followed by
`Remove(x, y, o)`, restores the original state exactly; in particular
`NumNodes()`, `NumLeafNodes()` and `Depth()` are all restored.  (The
unqualified claim over all reachable states fails, see
`c10_counterexample`.) -/
theorem c10_add_then_remove_restores_counts {α : Type} [DecidableEq α]
    {s : QState α} {k : Nat} {x y : Int} {o : α} {p : List Nat}
    (hk : k ≤ 29) (hw : s.w = 2 ^ k) (hh : s.h = 2 ^ k)
    (hWF : QNode.WFb k 0 0 0 s.root = true)
    (hI4 : s.checkI4 = true) (hI5 : s.checkI5 = true)
    (hmono : MonoSsf s.ssf)
    (hx0 : 0 ≤ x) (hx1 : x < s.h) (hy0 : 0 ≤ y) (hy1 : y < s.w)
    (hfind : s.findLoopP x y 64 0 (s.maxd : Int) = some p)
    (hfresh : (x, y, o) ∉ (s.root.subAt p).objs)
    (hnosplit : s.splitable (s.root.subAt p).px1 (s.root.subAt p).py1
      (s.root.subAt p).px2 (s.root.subAt p).py2
      (((s.root.subAt p).objs.length : Int) + 1) = false) :
    (s.Add x y o).Remove x y o = s ∧
    ((s.Add x y o).Remove x y o).NumNodes = s.NumNodes ∧
    ((s.Add x y o).Remove x y o).NumLeafNodes = s.NumLeafNodes ∧
    ((s.Add x y o).Remove x y o).Depth = s.Depth := by
  have hAdd := QState.Add_insert_po2 hk hw hh hWF hI4 hmono hx0 hx1 hy0 hy1
    hfind hfresh hnosplit
  have hmain : (s.Add x y o).Remove x y o = s :=
    QState.Remove_restore_po2 hk hw hh hWF hI4 hI5 hmono hx0 hx1 hy0 hy1 hfind
      (by rw [hAdd]) (by rw [hAdd]) (by rw [hAdd]) (by rw [hAdd]) (by rw [hAdd])
      (by rw [hAdd]) (by rw [hAdd]) (by rw [hAdd])
  exact ⟨hmain, by rw [hmain], by rw [hmain], by rw [hmain]⟩

/-- Witness: the amended C10 property holds on the concrete 2-by-2 tree
built with no splitting stopper, adding then removing object 9 at
position (1, 1). -/
theorem c10_add_then_remove_restores_counts_witness :
    (tree2full.Add 1 1 9).Remove 1 1 9 = tree2full ∧
    ((tree2full.Add 1 1 9).Remove 1 1 9).NumNodes = tree2full.NumNodes ∧
    ((tree2full.Add 1 1 9).Remove 1 1 9).NumLeafNodes = tree2full.NumLeafNodes ∧
    ((tree2full.Add 1 1 9).Remove 1 1 9).Depth = tree2full.Depth :=
  c10_add_then_remove_restores_counts (k := 1) (p := [3]) (by decide)
    (by decide) (by decide) (by decide) (by decide) (by decide) trivial
    (by decide) (by decide) (by decide) (by decide) (by decide) (by decide)
    (by decide)

end QuadtreeHpp
